import Mathlib

/-!
# calc.h: an infix calculator (shunting-yard parser and postfix evaluator)

A shallow embedding of `src/calc.h` and a verification development over it.

Conventions of the embedding.

* A C string is the list of its characters before the terminating NUL; a
  possibly-null `const char *` is an `Option (List Char)`.
* `double` is an abstract carrier `α`; its operations, the comparison with
  `0.0`, and the C library function `strtod` are the fields of `calc__env`.
  Nothing about IEEE arithmetic is assumed, so every statement holds for
  whatever the platform's doubles do.  `ratEnv` is a concrete environment with
  exact rational arithmetic and the decimal floating-point literal syntax,
  used to run the code on concrete inputs.
* `malloc`/`realloc`/`free` act on an explicit `calc__heap`.  Which allocation
  requests fail is a parameter `oom`: the list of request numbers (counted
  from zero over the whole run) that return `NULL`.
* An `enum calc__symbol` is its integer value, so the cast
  `(enum calc__symbol)*cursor` is the character code.
* `while`/`for` loops are recursive functions with a fuel argument; running
  out of fuel is the result `none`, and the callers supply enough fuel
  (`solve_total`: `calc_solve` always returns).
* `size_t` values are natural numbers.  The only arithmetic on them is
  `capacity * 2` and `capacity * sizeof (struct calc__token)`, which wrap only
  for a stack of more than `2^59` tokens, more than any address space holds.
-/

namespace Calc

/-! ## Data model (calc.h lines 20-39) -/

/-- An `enum calc__symbol` value, as its integer value. -/
abbrev calc__symbol := Nat

def CALC__OPAREN : calc__symbol := 40
def CALC__CPAREN : calc__symbol := 41
def CALC__SUM : calc__symbol := 43
def CALC__SUBTRACT : calc__symbol := 45
def CALC__MULTIPLY : calc__symbol := 42
def CALC__DIVIDE : calc__symbol := 47
def CALC__NUMBER : calc__symbol := 48

/-- The record `struct calc__token`. -/
structure calc__token (α : Type) where
  symbol : calc__symbol
  value : α
deriving DecidableEq, Repr

/-- The record `struct calc__stack`.  The pointer `tokens` is `none` for `NULL`
and `some id` for the block with identity `id`; `cells` are the elements of
that block that have been written so far (index 0 first). -/
structure calc__stack (α : Type) where
  capacity : Nat
  count : Nat
  tokens : Option Nat
  cells : List (calc__token α)
deriving DecidableEq, Repr

/-- The allocator state: how many allocation requests were made, which blocks
are live, and the log of blocks passed to `free` (most recent first). -/
structure calc__heap where
  requests : Nat
  live : List Nat
  freed : List Nat
deriving DecidableEq, Repr

/-! ## Allocation (stdlib) -/

/-- The size `sizeof (struct calc__token)`: an `enum` and a `double`, 16 bytes
on the usual ABIs.  Only its being positive matters. -/
def calc__token_size : Nat := 16

/-- Call `malloc(size)`: request number `h.requests` fails when listed in `oom`.
A request of size 0 has an implementation-defined result in C (a null pointer,
or a pointer that must not be used to access an object); it returns `NULL`
here. -/
def malloc (oom : List Nat) (h : calc__heap) (size : Nat) : Option Nat × calc__heap :=
  if size = 0 ∨ h.requests ∈ oom then
    (none, { h with requests := h.requests + 1 })
  else
    (some h.requests, { h with requests := h.requests + 1, live := h.requests :: h.live })

/-- Call `realloc(ptr, size)` on a live block: on failure the old block stays
live, on success it is replaced by the returned block.  A request of size 0
(only a stack of capacity 0 makes one, and `calc__create_stack` builds none)
has an implementation-defined result in C; it returns `NULL` here and leaves
the old block as it is. -/
def realloc (oom : List Nat) (h : calc__heap) (ptr : Option Nat) (size : Nat) :
    Option Nat × calc__heap :=
  if size = 0 ∨ h.requests ∈ oom then
    (none, { h with requests := h.requests + 1 })
  else
    (some h.requests,
      { h with requests := h.requests + 1,
               live := h.requests :: (match ptr with
                 | some p => h.live.erase p
                 | none => h.live) })

/-- Call `free(ptr)`. -/
def free (h : calc__heap) (p : Nat) : calc__heap :=
  { h with live := h.live.erase p, freed := p :: h.freed }

/-! ## Stack (calc.h lines 41-95) -/

def calc__destroy_stack {α : Type} (h : calc__heap) (stack : calc__stack α) : calc__heap :=
  match stack.tokens with
  | some p => free h p
  | none => h

def calc__create_stack {α : Type} (oom : List Nat) (h : calc__heap) (stack : calc__stack α) :
    Int × calc__heap × calc__stack α :=
  let capacity := 10
  let size := capacity * calc__token_size
  match malloc oom h size with
  | (none, h1) => (-1, h1, { stack with tokens := none, cells := [] })
  | (some p, h1) => (0, h1, { capacity := capacity, count := 0, tokens := some p, cells := [] })

def calc__stack_grow {α : Type} (oom : List Nat) (h : calc__heap) (stack : calc__stack α) :
    Int × calc__heap × calc__stack α :=
  let capacity := stack.capacity * 2
  let size := capacity * calc__token_size
  match realloc oom h stack.tokens size with
  | (none, h1) => (-1, h1, stack)
  | (some p, h1) => (0, h1, { stack with capacity := capacity, tokens := some p })

/-- Store `t` at `cells[i]`; the first write to index `cells.length` extends the
written part of the block. -/
def writeCell {α : Type} (cells : List (calc__token α)) (i : Nat) (t : calc__token α) :
    List (calc__token α) :=
  if i < cells.length then cells.set i t else cells ++ [t]

def calc__stack_push {α : Type} (oom : List Nat) (h : calc__heap) (stack : calc__stack α)
    (token : calc__token α) : Int × calc__heap × calc__stack α :=
  let grown :=
    if stack.count ≥ stack.capacity then calc__stack_grow oom h stack else (0, h, stack)
  if grown.1 ≠ 0 then (-1, grown.2.1, grown.2.2)
  else
    let stack := grown.2.2
    let new_token : calc__token α := { symbol := token.symbol, value := token.value }
    (0, grown.2.1, { stack with cells := writeCell stack.cells stack.count new_token,
                                count := stack.count + 1 })

/-- The result is the status, the stack, and the token written to `out_token`
(`none` when `out_token` is left untouched).  Reading a cell that was never
written has no defined value in C; the embedding reports it as a failure.  It
does not occur on a stack whose cells below `count` are written (`Filled`),
which is every stack `calc__create_stack` and `calc__stack_push` build. -/
def calc__stack_pop {α : Type} (stack : calc__stack α) :
    Int × calc__stack α × Option (calc__token α) :=
  if stack.count = 0 then (-1, stack, none)
  else
    match stack.cells.get? (stack.count - 1) with
    | some token =>
      (0, { stack with count := stack.count - 1 },
        some { symbol := token.symbol, value := token.value })
    | none => (-1, stack, none)

/-! ## Parser (calc.h lines 97-226) -/

def calc__is_digit (chr : Char) : Bool :=
  decide ('0' ≤ chr) && decide (chr ≤ '9')

def calc__is_oper (chr : Char) : Bool :=
  chr == '(' || chr == ')' || chr == '+' || chr == '-' || chr == '*' || chr == '/'

def calc__is_whitespace (chr : Char) : Bool :=
  chr == ' ' || chr == '\t' || chr == '\n'

/-- The `double` type of the platform together with `strtod`. -/
structure calc__env (α : Type) where
  /-- The constant `0.0` (also the value of a zero-initialised member). -/
  zero : α
  add : α → α → α
  sub : α → α → α
  mul : α → α → α
  div : α → α → α
  /-- Comparison `x == 0.0`. -/
  isZero : α → Bool
  /-- Function `strtod(cursor, &end)`: the value and `end - cursor`. -/
  strtod : List Char → α × Nat
  /-- On a string that starts with a digit `strtod` converts at least that digit. -/
  strtod_pos : ∀ c cs, calc__is_digit c = true → 0 < (strtod (c :: cs)).2

def calc__parse_number {α : Type} (env : calc__env α) (oom : List Nat) (h : calc__heap)
    (cursor : List Char) (input : calc__stack α) :
    Int × calc__heap × List Char × calc__stack α :=
  let r := env.strtod cursor
  let value := r.1
  let cursor := cursor.drop r.2
  let token : calc__token α := { symbol := CALC__NUMBER, value := value }
  let p := calc__stack_push oom h input token
  if p.1 ≠ 0 then (-1, p.2.1, cursor, p.2.2)
  else (0, p.2.1, cursor, p.2.2)

def calc__oper_order (oper : calc__symbol) : Int :=
  if oper = CALC__OPAREN then 3
  else if oper = CALC__MULTIPLY ∨ oper = CALC__DIVIDE then 2
  else if oper = CALC__SUM ∨ oper = CALC__SUBTRACT then 1
  else -1

def calc__has_preceding_order (first second : calc__symbol) : Bool :=
  if first = CALC__OPAREN ∨ first = CALC__CPAREN then false
  else decide (calc__oper_order first ≥ calc__oper_order second)

/-- The expression `opers->tokens[opers->count - 1].symbol`. -/
def topSymbol {α : Type} (opers : calc__stack α) : Option calc__symbol :=
  (opers.cells.get? (opers.count - 1)).map (fun t => t.symbol)

/-- The condition of the `while` loop of `calc__drain_preceding_opers`. -/
def calc__drain_preceding_opers_cond {α : Type} (symbol : calc__symbol)
    (opers : calc__stack α) : Bool :=
  decide (opers.count > 0) &&
    (match topSymbol opers with
     | some top => calc__has_preceding_order top symbol
     | none => false)

/-- The `while` loop of `calc__drain_preceding_opers`. -/
def calc__drain_preceding_opers_loop {α : Type} (oom : List Nat) (symbol : calc__symbol) :
    Nat → calc__heap → calc__stack α → calc__stack α →
      Option (Int × calc__heap × calc__stack α × calc__stack α)
  | 0, h, input, opers =>
    if calc__drain_preceding_opers_cond symbol opers then none else some (0, h, input, opers)
  | fuel + 1, h, input, opers =>
    if calc__drain_preceding_opers_cond symbol opers then
      match calc__stack_pop opers with
      | (0, opers1, some oper) =>
        let p := calc__stack_push oom h input oper
        if p.1 ≠ 0 then some (-1, p.2.1, p.2.2, opers1)
        else calc__drain_preceding_opers_loop oom symbol fuel p.2.1 p.2.2 opers1
      | (_, opers1, _) => some (-1, h, input, opers1)
    else some (0, h, input, opers)

def calc__drain_preceding_opers {α : Type} (oom : List Nat) (symbol : calc__symbol)
    (h : calc__heap) (input opers : calc__stack α) :
    Option (Int × calc__heap × calc__stack α × calc__stack α) :=
  if opers.count = 0 then some (0, h, input, opers)
  else calc__drain_preceding_opers_loop oom symbol opers.count h input opers

/-- The `while` loop of `calc__drain_paren` together with the final `return -1`. -/
def calc__drain_paren_loop {α : Type} (oom : List Nat) :
    Nat → calc__heap → calc__stack α → calc__stack α →
      Option (Int × calc__heap × calc__stack α × calc__stack α)
  | 0, h, input, opers =>
    if opers.count > 0 then none else some (-1, h, input, opers)
  | fuel + 1, h, input, opers =>
    if opers.count > 0 then
      match calc__stack_pop opers with
      | (0, opers1, some oper) =>
        if oper.symbol = CALC__OPAREN then some (0, h, input, opers1)
        else
          let p := calc__stack_push oom h input oper
          if p.1 ≠ 0 then some (-1, p.2.1, p.2.2, opers1)
          else calc__drain_paren_loop oom fuel p.2.1 p.2.2 opers1
      | (_, opers1, _) => some (-1, h, input, opers1)
    else some (-1, h, input, opers)

def calc__drain_paren {α : Type} (oom : List Nat) (h : calc__heap)
    (input opers : calc__stack α) :
    Option (Int × calc__heap × calc__stack α × calc__stack α) :=
  calc__drain_paren_loop oom opers.count h input opers

def calc__parse_oper {α : Type} (env : calc__env α) (oom : List Nat) (symbol : calc__symbol)
    (h : calc__heap) (input opers : calc__stack α) :
    Option (Int × calc__heap × calc__stack α × calc__stack α) :=
  if symbol = CALC__CPAREN then
    match calc__drain_paren oom h input opers with
    | none => none
    | some r => if r.1 ≠ 0 then some (-1, r.2) else some (0, r.2)
  else
    match calc__drain_preceding_opers oom symbol h input opers with
    | none => none
    | some r =>
      if r.1 ≠ 0 then some (-1, r.2)
      else
        let new_oper : calc__token α := { symbol := symbol, value := env.zero }
        let p := calc__stack_push oom r.2.1 r.2.2.2 new_oper
        if p.1 ≠ 0 then some (-1, p.2.1, r.2.2.1, p.2.2)
        else some (0, p.2.1, r.2.2.1, p.2.2)

/-- How the scanning `for` loop of `calc__parse` is left. -/
inductive calc__scan_exit where
  /-- The cursor reached the terminating NUL. -/
  | finished
  /-- A `goto fault`. -/
  | fault
  /-- The `return -1` of line 210. -/
  | invalid
deriving DecidableEq, Repr

/-- The `for` loop of `calc__parse` (lines 196-211). -/
def calc__parse_scan {α : Type} (env : calc__env α) (oom : List Nat) :
    Nat → List Char → calc__heap → calc__stack α → calc__stack α →
      Option (calc__scan_exit × calc__heap × calc__stack α × calc__stack α)
  | _, [], h, input, opers => some (.finished, h, input, opers)
  | 0, _ :: _, _, _, _ => none
  | fuel + 1, c :: cs, h, input, opers =>
    if calc__is_whitespace c then calc__parse_scan env oom fuel cs h input opers
    else if calc__is_digit c then
      let r := calc__parse_number env oom h (c :: cs) input
      if r.1 ≠ 0 then some (.fault, r.2.1, r.2.2.2, opers)
      else calc__parse_scan env oom fuel r.2.2.1 r.2.1 r.2.2.2 opers
    else if calc__is_oper c then
      match calc__parse_oper env oom c.toNat h input opers with
      | none => none
      | some r =>
        if r.1 ≠ 0 then some (.fault, r.2)
        else calc__parse_scan env oom fuel cs r.2.1 r.2.2.1 r.2.2.2
    else some (.invalid, h, input, opers)

/-- The final `while` loop of `calc__parse` (lines 213-218); the status is `0`
when the loop ends normally and `-1` on `goto fault`. -/
def calc__parse_flush {α : Type} (oom : List Nat) :
    Nat → calc__heap → calc__stack α → calc__stack α →
      Option (Int × calc__heap × calc__stack α × calc__stack α)
  | 0, h, input, opers =>
    if opers.count > 0 then none else some (0, h, input, opers)
  | fuel + 1, h, input, opers =>
    if opers.count > 0 then
      match calc__stack_pop opers with
      | (0, opers1, some oper) =>
        let p := calc__stack_push oom h input oper
        if p.1 ≠ 0 then some (-1, p.2.1, p.2.2, opers1)
        else calc__parse_flush oom fuel p.2.1 p.2.2 opers1
      | (_, opers1, _) => some (-1, h, input, opers1)
    else some (0, h, input, opers)

/-- The local variable `opers` of `calc__parse` before `calc__create_stack`. -/
def uninitialized (α : Type) : calc__stack α :=
  { capacity := 0, count := 0, tokens := none, cells := [] }

def calc__parse {α : Type} (env : calc__env α) (oom : List Nat) (h : calc__heap)
    (expr : List Char) (input : calc__stack α) : Option (Int × calc__heap × calc__stack α) :=
  match calc__create_stack oom h (uninitialized α) with
  | (0, h1, opers) =>
    match calc__parse_scan env oom (expr.length + 1) expr h1 input opers with
    | none => none
    | some (.invalid, h2, input2, _) => some (-1, h2, input2)
    | some (.fault, h2, input2, opers2) => some (-1, calc__destroy_stack h2 opers2, input2)
    | some (.finished, h2, input2, opers2) =>
      match calc__parse_flush oom opers2.count h2 input2 opers2 with
      | none => none
      | some (0, h3, input3, opers3) => some (0, calc__destroy_stack h3 opers3, input3)
      | some (_, h3, input3, opers3) => some (-1, calc__destroy_stack h3 opers3, input3)
  | (_, h1, opers) => some (-1, calc__destroy_stack h1 opers, input)

/-! ## Evaluator and entry point (calc.h lines 228-289) -/

/-- The `for` loop of `calc__evaluate` (lines 233-258) over the tokens
`input->tokens[i]`, `i < input->count`; the status is `0` when the loop ends
normally and `-1` on `goto fault`. -/
def calc__evaluate_loop {α : Type} (env : calc__env α) (oom : List Nat) :
    List (calc__token α) → calc__heap → calc__stack α → Int × calc__heap × calc__stack α
  | [], h, output => (0, h, output)
  | token :: rest, h, output =>
    if token.symbol = CALC__NUMBER then
      let p := calc__stack_push oom h output token
      calc__evaluate_loop env oom rest p.2.1 p.2.2
    else
      match calc__stack_pop output with
      | (0, output1, some right) =>
        match calc__stack_pop output1 with
        | (0, output2, some left) =>
          let go (value : α) : Int × calc__heap × calc__stack α :=
            let new_token : calc__token α := { symbol := CALC__NUMBER, value := value }
            let p := calc__stack_push oom h output2 new_token
            if p.1 ≠ 0 then (-1, p.2.1, p.2.2)
            else calc__evaluate_loop env oom rest p.2.1 p.2.2
          if token.symbol = CALC__SUM then go (env.add left.value right.value)
          else if token.symbol = CALC__SUBTRACT then go (env.sub left.value right.value)
          else if token.symbol = CALC__MULTIPLY then go (env.mul left.value right.value)
          else if token.symbol = CALC__DIVIDE then
            if env.isZero right.value then (-1, h, output2)
            else go (env.div left.value right.value)
          else (-1, h, output2)
        | (_, output2, _) => (-1, h, output2)
      | (_, output1, _) => (-1, h, output1)

/-- The result is the status, the heap, and the value stored to `*result`
(`none` when `*result` is not written). -/
def calc__evaluate {α : Type} (env : calc__env α) (oom : List Nat) (h : calc__heap)
    (input : calc__stack α) : Int × calc__heap × Option α :=
  match calc__create_stack oom h (uninitialized α) with
  | (0, h1, output) =>
    match calc__evaluate_loop env oom (input.cells.take input.count) h1 output with
    | (0, h2, output2) =>
      if output2.count ≠ 1 then (-1, calc__destroy_stack h2 output2, none)
      else
        match calc__stack_pop output2 with
        | (0, output3, some last) => (0, calc__destroy_stack h2 output3, some last.value)
        | (_, output3, _) => (-1, calc__destroy_stack h2 output3, none)
    | (_, h2, output2) => (-1, calc__destroy_stack h2 output2, none)
  | (_, h1, output) => (-1, calc__destroy_stack h1 output, none)

/-- The result of a call of `calc_solve`: the returned status, the heap, and
the content of the caller's `double` that `result` points to. -/
structure calc__outcome (α : Type) where
  status : Int
  heap : calc__heap
  result : Option α
deriving DecidableEq, Repr

/-- Function `calc_solve(expression, result)`.  The argument `result` is `none`
for a null pointer and `some v` for a pointer to a `double` holding `v`. -/
def calc_solve {α : Type} (env : calc__env α) (oom : List Nat) (h : calc__heap)
    (expression : Option (List Char)) (result : Option α) : Option (calc__outcome α) :=
  match expression, result with
  | none, _ => some { status := 1, heap := h, result := result }
  | _, none => some { status := 1, heap := h, result := result }
  | some expr, some old =>
    match calc__create_stack oom h
        ({ capacity := 0, count := 0, tokens := none, cells := [] } : calc__stack α) with
    | (0, h1, input) =>
      match calc__parse env oom h1 expr input with
      | none => none
      | some (0, h2, input2) =>
        match calc__evaluate env oom h2 input2 with
        | (0, h3, written) =>
          some { status := 0, heap := calc__destroy_stack h3 input2,
                 result := some (written.getD old) }
        | (_, h3, written) =>
          some { status := -1, heap := calc__destroy_stack h3 input2,
                 result := some (written.getD old) }
      | some (_, h2, input2) =>
        some { status := -1, heap := calc__destroy_stack h2 input2, result := some old }
    | (_, h1, _) => some { status := -1, heap := h1, result := some old }

/-- The heap before the program has allocated anything. -/
def emptyHeap : calc__heap := { requests := 0, live := [], freed := [] }

/-! ## The scanner's token sequence and a list-level view of the algorithm

These definitions describe the same computation on plain lists.  They are
related to the code by the refinement lemmas below (`parse_refines`,
`evaluate_refines`, `solve_refines`). -/

/-- What the scanning loop of `calc__parse` reads at a cursor position. -/
inductive Lexeme (α : Type) where
  /-- A numeric literal, with the value `strtod` gives it. -/
  | number (value : α)
  /-- One of the characters `( ) + - * /`. -/
  | oper (c : Char)
  /-- A character that is none of whitespace, digit, operator. -/
  | invalid
deriving DecidableEq, Repr

/-- The lexemes the scanning loop reads from a cursor position, as the loop
classifies them (lines 197-210); an invalid character ends the sequence. -/
def lexFuel {α : Type} (env : calc__env α) : Nat → List Char → List (Lexeme α)
  | _, [] => []
  | 0, _ :: _ => []
  | fuel + 1, c :: cs =>
    if calc__is_whitespace c then lexFuel env fuel cs
    else if calc__is_digit c then
      Lexeme.number (env.strtod (c :: cs)).1 ::
        lexFuel env fuel ((c :: cs).drop (env.strtod (c :: cs)).2)
    else if calc__is_oper c then Lexeme.oper c :: lexFuel env fuel cs
    else [Lexeme.invalid]

/-- The token sequence of an expression. -/
def lexemes {α : Type} (env : calc__env α) (s : List Char) : List (Lexeme α) :=
  lexFuel env (s.length + 1) s

/-- List view of `calc__drain_preceding_opers`: `out` is the output bottom
first, `ops` the operator stack top first. -/
def drainPrec {α : Type} (symbol : calc__symbol) :
    List (calc__token α) → List (calc__token α) →
      List (calc__token α) × List (calc__token α)
  | out, [] => (out, [])
  | out, t :: ops =>
    if calc__has_preceding_order t.symbol symbol then drainPrec symbol (out ++ [t]) ops
    else (out, t :: ops)

/-- List view of `calc__drain_paren`; `none` is the status `-1`. -/
def drainParen {α : Type} :
    List (calc__token α) → List (calc__token α) →
      Option (List (calc__token α) × List (calc__token α))
  | _, [] => none
  | out, t :: ops =>
    if t.symbol = CALC__OPAREN then some (out, ops) else drainParen (out ++ [t]) ops

/-- List view of `calc__parse_oper`. -/
def stepOper {α : Type} (env : calc__env α) (symbol : calc__symbol)
    (out ops : List (calc__token α)) : Option (List (calc__token α) × List (calc__token α)) :=
  if symbol = CALC__CPAREN then drainParen out ops
  else
    some ((drainPrec symbol out ops).1,
      { symbol := symbol, value := env.zero } :: (drainPrec symbol out ops).2)

/-- One iteration of the scanning loop, on the lexeme it reads. -/
def stepLexeme {α : Type} (env : calc__env α) :
    Lexeme α → List (calc__token α) × List (calc__token α) →
      Option (List (calc__token α) × List (calc__token α))
  | .number v, st => some (st.1 ++ [{ symbol := CALC__NUMBER, value := v }], st.2)
  | .oper c, st => stepOper env c.toNat st.1 st.2
  | .invalid, _ => none

/-- The scanning loop on a lexeme sequence. -/
def scanLexemes {α : Type} (env : calc__env α) :
    List (Lexeme α) → List (calc__token α) × List (calc__token α) →
      Option (List (calc__token α) × List (calc__token α))
  | [], st => some st
  | x :: xs, st =>
    match stepLexeme env x st with
    | none => none
    | some st1 => scanLexemes env xs st1

/-- The postfix sequence `calc__parse` leaves in an empty output stack, `none`
when it returns `-1`. -/
def postfixOf {α : Type} (env : calc__env α) (s : List Char) : Option (List (calc__token α)) :=
  (scanLexemes env (lexemes env s) ([], [])).map (fun st => st.1 ++ st.2)

/-- The `switch` of `calc__evaluate` (lines 246-255); `none` is `goto fault`. -/
def applyOper {α : Type} (env : calc__env α) (symbol : calc__symbol) (left right : α) :
    Option α :=
  if symbol = CALC__SUM then some (env.add left right)
  else if symbol = CALC__SUBTRACT then some (env.sub left right)
  else if symbol = CALC__MULTIPLY then some (env.mul left right)
  else if symbol = CALC__DIVIDE then
    if env.isZero right then none else some (env.div left right)
  else none

/-- List view of the loop of `calc__evaluate`; the operand stack is top first. -/
def evalPostfix {α : Type} (env : calc__env α) :
    List (calc__token α) → List α → Option (List α)
  | [], st => some st
  | t :: ts, st =>
    if t.symbol = CALC__NUMBER then evalPostfix env ts (t.value :: st)
    else
      match st with
      | right :: left :: st1 =>
        match applyOper env t.symbol left right with
        | some v => evalPostfix env ts (v :: st1)
        | none => none
      | _ => none

/-- The value `calc__evaluate` computes from a postfix sequence, `none` when it
returns `-1`. -/
def valueOf {α : Type} (env : calc__env α) (toks : List (calc__token α)) : Option α :=
  match evalPostfix env toks [] with
  | some [v] => some v
  | _ => none

/-- The value `calc_solve` computes from an expression, `none` when it returns
`-1` (no allocation failing). -/
def solveValue {α : Type} (env : calc__env α) (s : List Char) : Option α :=
  match postfixOf env s with
  | some toks => valueOf env toks
  | none => none

/-! ## Well-formed infix expressions and their reference evaluation

The grammar `expr := term (('+'|'-') term)*`, `term := factor (('*'|'/')
factor)*`, `factor := literal | '(' expr ')'` is unambiguous: every sentence
has one parse tree, in which the left operand of an operator of rank `k` is an
expression of level at least `k` and the right operand one of level above `k`
(`+ -` have rank 1, `* /` rank 2, literals and parenthesised expressions level
3).  `Ast` is that parse tree together with the white space in front of each
token. -/

/-- The four arithmetic operators. -/
inductive BinOp where
  | add
  | sub
  | mul
  | div
deriving DecidableEq, Repr

/-- The character that denotes an operator. -/
def BinOp.char : BinOp → Char
  | .add => '+'
  | .sub => '-'
  | .mul => '*'
  | .div => '/'

/-- Standard precedence: `*` and `/` bind tighter than `+` and `-`. -/
def BinOp.rank : BinOp → Nat
  | .add => 1
  | .sub => 1
  | .mul => 2
  | .div => 2

/-- Direct evaluation of `left op right`; `none` when the divisor compares equal
to `0.0`. -/
def BinOp.apply {α : Type} (env : calc__env α) : BinOp → α → α → Option α
  | .add, a, b => some (env.add a b)
  | .sub, a, b => some (env.sub a b)
  | .mul, a, b => some (env.mul a b)
  | .div, a, b => if env.isZero b then none else some (env.div a b)

/-- A parse tree of the infix grammar; each `gap` is the white space in front of
the token it precedes (the literal, the `(`, the `)`, the operator). -/
inductive Ast where
  | lit (gap : List Char) (text : List Char)
  | paren (gap : List Char) (e : Ast) (gap2 : List Char)
  | bin (op : BinOp) (l : Ast) (gap : List Char) (r : Ast)
deriving DecidableEq, Repr

/-- The expression text of a parse tree. -/
def Ast.render : Ast → List Char
  | .lit gap text => gap ++ text
  | .paren gap e gap2 => gap ++ '(' :: (e.render ++ (gap2 ++ [')']))
  | .bin op l gap r => l.render ++ (gap ++ op.char :: r.render)

/-- The grammar level of a tree: 1 for `expr`, 2 for `term`, 3 for `factor`. -/
def Ast.level : Ast → Nat
  | .lit _ _ => 3
  | .paren _ _ _ => 3
  | .bin op _ _ _ => op.rank

/-- A run of spaces, tabs and newlines. -/
def IsBlank (gap : List Char) : Prop :=
  ∀ c ∈ gap, calc__is_whitespace c = true

instance (gap : List Char) : Decidable (IsBlank gap) := by
  unfold IsBlank; infer_instance

/-- The text after a token starts a new token or ends the expression: it is
empty or starts with white space or with one of `( ) + - * /`. -/
def atBoundary : List Char → Bool
  | [] => true
  | c :: _ => calc__is_whitespace c || calc__is_oper c

/-- A number literal: text that starts with a digit and that `strtod` converts
as a whole, to one value, wherever it is followed by a token boundary. -/
def IsLiteral {α : Type} (env : calc__env α) (text : List Char) : Prop :=
  (∃ c cs, text = c :: cs ∧ calc__is_digit c = true) ∧
  ∀ rest, atBoundary rest = true →
    env.strtod (text ++ rest) = ((env.strtod text).1, text.length)

/-- Sentences of the grammar: gaps are white space, literals are literals, and
the operands of every operator have the levels the grammar gives them. -/
def Ast.WellFormed {α : Type} (env : calc__env α) : Ast → Prop
  | .lit gap text => IsBlank gap ∧ IsLiteral env text
  | .paren gap e gap2 => IsBlank gap ∧ IsBlank gap2 ∧ e.WellFormed env
  | .bin op l gap r =>
    IsBlank gap ∧ l.WellFormed env ∧ r.WellFormed env ∧
      op.rank ≤ l.level ∧ op.rank < r.level

/-- Reference evaluation of a parse tree; `none` when a division is reached
whose right operand compares equal to `0.0`. -/
def Ast.eval {α : Type} (env : calc__env α) : Ast → Option α
  | .lit _ text => some (env.strtod text).1
  | .paren _ e _ => e.eval env
  | .bin op l _ r =>
    match l.eval env, r.eval env with
    | some a, some b => op.apply env a b
    | _, _ => none

/-- The token of an operator as `calc__parse_oper` builds it. -/
def BinOp.token {α : Type} (env : calc__env α) (op : BinOp) : calc__token α :=
  { symbol := op.char.toNat, value := env.zero }

/-- The post-order traversal of a parse tree, as tokens. -/
def Ast.postorder {α : Type} (env : calc__env α) : Ast → List (calc__token α)
  | .lit _ text => [{ symbol := CALC__NUMBER, value := (env.strtod text).1 }]
  | .paren _ e _ => e.postorder env
  | .bin op l _ r => l.postorder env ++ (r.postorder env ++ [op.token env])

/-- The lexemes of a parse tree, in source order. -/
def Ast.lexemes {α : Type} (env : calc__env α) : Ast → List (Lexeme α)
  | .lit _ text => [Lexeme.number (env.strtod text).1]
  | .paren _ e _ => Lexeme.oper '(' :: (e.lexemes env ++ [Lexeme.oper ')'])
  | .bin op l _ r => l.lexemes env ++ (Lexeme.oper op.char :: r.lexemes env)

/-! ## A concrete environment: exact rationals and decimal literals -/

/-- The value of a string of decimal digits. -/
def digitsValue (ds : List Char) : Nat :=
  ds.foldl (fun acc d => 10 * acc + (d.toNat - 48)) 0

/-- The fraction part of a decimal literal: the digits after a `.`, and how many
characters (the point included) it takes. -/
def scanFraction : List Char → List Char × Nat
  | '.' :: rest => ((rest.takeWhile calc__is_digit), 1 + (rest.takeWhile calc__is_digit).length)
  | _ => ([], 0)

/-- The exponent part of a decimal literal: `e` or `E`, an optional sign and at
least one digit.  The result is the exponent and how many characters it takes
(`0` when there is no complete exponent part). -/
def scanExponent : List Char → Int × Nat
  | e :: rest =>
    if e = 'e' ∨ e = 'E' then
      match rest with
      | '+' :: ds =>
        let d := ds.takeWhile calc__is_digit
        if d = [] then (0, 0) else ((digitsValue d : Int), 2 + d.length)
      | '-' :: ds =>
        let d := ds.takeWhile calc__is_digit
        if d = [] then (0, 0) else (-(digitsValue d : Int), 2 + d.length)
      | ds =>
        let d := ds.takeWhile calc__is_digit
        if d = [] then (0, 0) else ((digitsValue d : Int), 1 + d.length)
    else (0, 0)
  | [] => (0, 0)

/-- Function `strtod` on the decimal floating-point form `digits [. digits]
[(e|E) [+|-] digits]`, with the exact rational value.  On a string that does
not start with a digit nothing is converted. -/
def strtodRat (s : List Char) : ℚ × Nat :=
  let ip := s.takeWhile calc__is_digit
  if ip = [] then (0, 0)
  else
    let r1 := s.drop ip.length
    let fr := scanFraction r1
    let ex := scanExponent (r1.drop fr.2)
    (((digitsValue (ip ++ fr.1) : ℚ) / (10 : ℚ) ^ fr.1.length) * (10 : ℚ) ^ ex.1,
      ip.length + fr.2 + ex.2)

/-- Exact rational arithmetic with decimal literals. -/
def ratEnv : calc__env ℚ where
  zero := 0
  add := fun a b => a + b
  sub := fun a b => a - b
  mul := fun a b => a * b
  div := fun a b => a / b
  isZero := fun a => decide (a = 0)
  strtod := strtodRat
  strtod_pos := by
    intro c cs hc
    simp [strtodRat, List.takeWhile_cons, hc]

/-! ## Notions used to state the claims -/

/-- The arithmetic an operator denotes: `left op right`. -/
def BinOp.fn {α : Type} (env : calc__env α) : BinOp → α → α → α
  | .add, a, b => env.add a b
  | .sub, a, b => env.sub a b
  | .mul, a, b => env.mul a b
  | .div, a, b => env.div a b

/-- Some division of the tree has a right operand whose reference evaluation
compares equal to `0.0`. -/
def Ast.dividesByZero {α : Type} (env : calc__env α) : Ast → Bool
  | .lit _ _ => false
  | .paren _ e _ => e.dividesByZero env
  | .bin op l _ r =>
    l.dividesByZero env || r.dividesByZero env ||
      (decide (op = BinOp.div) &&
        (match r.eval env with
         | some v => env.isZero v
         | none => false))

/-- The value `strtod` gives a literal. -/
def literalValue {α : Type} (env : calc__env α) (text : List Char) : α :=
  (env.strtod text).1

/-- The text `a o1 b o2 c`, single spaces between the tokens. -/
def chain3 (a : List Char) (o1 : BinOp) (b : List Char) (o2 : BinOp) (c : List Char) :
    List Char :=
  a ++ ' ' :: o1.char :: ' ' :: (b ++ ' ' :: o2.char :: ' ' :: c)

/-- The text `(a o1 b) o2 c`. -/
def parenLeft3 (a : List Char) (o1 : BinOp) (b : List Char) (o2 : BinOp) (c : List Char) :
    List Char :=
  '(' :: (a ++ ' ' :: o1.char :: ' ' :: (b ++ ')' :: ' ' :: o2.char :: ' ' :: c))

/-- The text `a o2 (b o1 c)`. -/
def parenRight3 (a : List Char) (o2 : BinOp) (b : List Char) (o1 : BinOp) (c : List Char) :
    List Char :=
  a ++ ' ' :: o2.char :: ' ' :: '(' :: (b ++ ' ' :: o1.char :: ' ' :: (c ++ [')']))

/-- A literal of one digit, with the white space in front of it. -/
def digitLit (gap : List Char) (d : Char) : Ast := Ast.lit gap [d]

/-- The parse tree of `(2 - 1) / (1 + 4 * 2 - 5)`. -/
def sampleQuotient : Ast :=
  .bin .div
    (.paren [] (.bin .sub (digitLit [] '2') [' '] (digitLit [' '] '1')) [])
    [' ']
    (.paren [' ']
      (.bin .sub
        (.bin .add (digitLit [] '1') [' ']
          (.bin .mul (digitLit [' '] '4') [' '] (digitLit [' '] '2')))
        [' '] (digitLit [' '] '5'))
      [])

/-- The parse tree of `3 + 4 * 2 / (1 - 5)`. -/
def sampleSum : Ast :=
  .bin .add (digitLit [] '3') [' ']
    (.bin .div
      (.bin .mul (digitLit [' '] '4') [' '] (digitLit [' '] '2'))
      [' ']
      (.paren [' '] (.bin .sub (digitLit [] '1') [' '] (digitLit [' '] '5')) []))

/-- The parse tree of `1 / (2 - 2)`. -/
def sampleZeroDivisor : Ast :=
  .bin .div (digitLit [] '1') [' ']
    (.paren [' '] (.bin .sub (digitLit [] '2') [' '] (digitLit [' '] '2')) [])

/-- The lexeme is a numeric literal. -/
def Lexeme.isNumber {α : Type} : Lexeme α → Bool
  | .number _ => true
  | _ => false

/-- One of the characters `+ - * /`. -/
def isArithChar (c : Char) : Bool :=
  c == '+' || c == '-' || c == '*' || c == '/'

/-- The lexeme is one of the operators `+ - * /`. -/
def Lexeme.isOperator {α : Type} : Lexeme α → Bool
  | .oper c => isArithChar c
  | _ => false

/-- The lexeme is `(`. -/
def Lexeme.isOpen {α : Type} : Lexeme α → Bool
  | .oper c => c == '('
  | _ => false

/-- The lexeme is `)`. -/
def Lexeme.isClose {α : Type} : Lexeme α → Bool
  | .oper c => c == ')'
  | _ => false

/-- The lexeme is a character the scanner rejects. -/
def Lexeme.isInvalid {α : Type} : Lexeme α → Bool
  | .invalid => true
  | _ => false

/-- Operators `+ - * /` and white space only, with at least one operator. -/
def operatorRun (rest : List Char) : Bool :=
  rest.all (fun c => calc__is_whitespace c || isArithChar c) && rest.any isArithChar

/-- The token is a number. -/
def calc__token.isNumber {α : Type} (t : calc__token α) : Bool :=
  decide (t.symbol = CALC__NUMBER)

/-- The token is one of the four operators `+ - * /`. -/
def calc__token.isOperator {α : Type} (t : calc__token α) : Bool :=
  decide (t.symbol = CALC__SUM) || decide (t.symbol = CALC__SUBTRACT) ||
    decide (t.symbol = CALC__MULTIPLY) || decide (t.symbol = CALC__DIVIDE)

/-- The token is `(`. -/
def calc__token.isOpen {α : Type} (t : calc__token α) : Bool :=
  decide (t.symbol = CALC__OPAREN)

/-- The token is `)`. -/
def calc__token.isClose {α : Type} (t : calc__token α) : Bool :=
  decide (t.symbol = CALC__CPAREN)

/-- A token text: a number literal or one of the characters `( ) + - * /`. -/
inductive Piece where
  | literal (text : List Char)
  | symbol (c : Char)
deriving DecidableEq, Repr

/-- The text of a token. -/
def Piece.text : Piece → List Char
  | .literal text => text
  | .symbol c => [c]

/-- The expression made of the given tokens, each after its gap, followed by
`rest`. -/
def layout : List (List Char × Piece) → List Char → List Char
  | [], rest => rest
  | (gap, p) :: ps, rest => gap ++ (p.text ++ layout ps rest)

/-- The gaps are white space, the tokens are number literals and operator
characters, and every literal is followed by a token boundary. -/
def LayoutValid {α : Type} (env : calc__env α) :
    List (List Char × Piece) → List Char → Prop
  | [], _ => True
  | (gap, .literal text) :: ps, rest =>
    IsBlank gap ∧ IsLiteral env text ∧ atBoundary (layout ps rest) = true ∧
      LayoutValid env ps rest
  | (gap, .symbol c) :: ps, rest =>
    IsBlank gap ∧ calc__is_oper c = true ∧ LayoutValid env ps rest

/-- The lexeme of a token. -/
def Piece.lexeme {α : Type} (env : calc__env α) : Piece → Lexeme α
  | .literal text => Lexeme.number (env.strtod text).1
  | .symbol c => Lexeme.oper c

/-! ## Auxiliary notions of the proofs -/

/-- The tokens a stack holds, bottom first: `tokens[0 .. count-1]`. -/
def contents {α : Type} (s : calc__stack α) : List (calc__token α) :=
  s.cells.take s.count

/-- Every element below `count` has been written. -/
def Filled {α : Type} (s : calc__stack α) : Prop :=
  s.count ≤ s.cells.length

/-- The stack `s` holds exactly the tokens `l` (bottom first). -/
structure Keeps {α : Type} (s : calc__stack α) (l : List (calc__token α)) : Prop where
  filled : Filled s
  eq : contents s = l

/-- The stack `s` holds exactly the tokens `l` (bottom first) and has room to
grow: its capacity is positive, as for every stack `calc__create_stack` builds. -/
structure Holds {α : Type} (s : calc__stack α) (l : List (calc__token α)) : Prop where
  filled : Filled s
  eq : contents s = l
  cap : 0 < s.capacity

/-- The operand-stack token for a value. -/
def numberToken {α : Type} (v : α) : calc__token α := { symbol := CALC__NUMBER, value := v }

/-- The tokens `calc__parse` has put into the output when it has read a tree. -/
def Ast.emitted {α : Type} (env : calc__env α) : Ast → List (calc__token α)
  | .lit _ text => [{ symbol := CALC__NUMBER, value := (env.strtod text).1 }]
  | .paren _ e _ => e.postorder env
  | .bin _ l _ r => l.postorder env ++ r.emitted env

/-- The operators of a tree that are still on the operator stack when
`calc__parse` has read it, top first. -/
def Ast.pending {α : Type} (env : calc__env α) : Ast → List (calc__token α)
  | .lit _ _ => []
  | .paren _ _ _ => []
  | .bin op _ _ r => r.pending env ++ [op.token env]

/-- The operator stack is left alone by every operator of rank `n` or more. -/
def Quiet {α : Type} (n : Nat) (ops : List (calc__token α)) : Prop :=
  ∀ t, ops.head? = some t → ∀ op : BinOp, n ≤ op.rank →
    calc__has_preceding_order t.symbol op.char.toNat = false

/-- The lexeme can come out of the scanner: an operator lexeme carries one of
the six operator characters. -/
def Lexeme.Proper {α : Type} : Lexeme α → Prop
  | .oper c => calc__is_oper c = true
  | _ => True

/-- Tokens the parser handles: numbers, the four operators and `(`. -/
def calc__token.allowed {α : Type} (t : calc__token α) : Bool :=
  t.isNumber || t.isOperator || t.isOpen

/-- What one scanning step does to the token counts of output and operator stack. -/
structure StepCounts {α : Type} (x : List (Lexeme α))
    (out ops out1 ops1 : List (calc__token α)) : Prop where
  number : out1.countP calc__token.isNumber + ops1.countP calc__token.isNumber =
    out.countP calc__token.isNumber + ops.countP calc__token.isNumber +
      x.countP Lexeme.isNumber
  operator : out1.countP calc__token.isOperator + ops1.countP calc__token.isOperator =
    out.countP calc__token.isOperator + ops.countP calc__token.isOperator +
      x.countP Lexeme.isOperator
  openOut : out1.countP calc__token.isOpen = out.countP calc__token.isOpen
  openOps : ops1.countP calc__token.isOpen + x.countP Lexeme.isClose =
    ops.countP calc__token.isOpen + x.countP Lexeme.isOpen
  allowed : (∀ t ∈ out ++ ops, t.allowed = true) → ∀ t ∈ out1 ++ ops1, t.allowed = true

/-! ## Refinement: the code computes the list-level functions -/

section StackLemmas

variable {α : Type}

theorem malloc_nil (h : calc__heap) (size : Nat) (hs : 0 < size) :
    malloc [] h size = (some h.requests,
      { h with requests := h.requests + 1, live := h.requests :: h.live }) := by
  simp [malloc, Nat.ne_of_gt hs]

theorem create_stack_nil (h : calc__heap) (s : calc__stack α) :
    calc__create_stack [] h s =
      (0, { h with requests := h.requests + 1, live := h.requests :: h.live },
        { capacity := 10, count := 0, tokens := some h.requests, cells := [] }) := by
  simp [calc__create_stack, malloc_nil, calc__token_size]

theorem grow_nil_status (h : calc__heap) (s : calc__stack α) (hcap : 0 < s.capacity) :
    (calc__stack_grow [] h s).1 = 0 := by
  have : s.capacity ≠ 0 := Nat.ne_of_gt hcap
  simp [calc__stack_grow, realloc, calc__token_size, this]

theorem grow_nil_cells (h : calc__heap) (s : calc__stack α) (hcap : 0 < s.capacity) :
    (calc__stack_grow [] h s).2.2.cells = s.cells ∧
      (calc__stack_grow [] h s).2.2.count = s.count ∧
      0 < (calc__stack_grow [] h s).2.2.capacity := by
  have : s.capacity ≠ 0 := Nat.ne_of_gt hcap
  simp [calc__stack_grow, realloc, calc__token_size, this]
  omega

theorem take_writeCell (cells : List (calc__token α)) (n : Nat) (t : calc__token α)
    (hn : n ≤ cells.length) : (writeCell cells n t).take (n + 1) = cells.take n ++ [t] := by
  unfold writeCell
  split
  · rename_i hlt
    rw [List.take_succ, List.set_take,
      List.set_eq_of_length_le (by simp [List.length_take])]
    simp [hlt]
  · have : n = cells.length := by omega
    subst this
    simp

theorem push_nil_status (h : calc__heap) (s : calc__stack α) (t : calc__token α)
    (hcap : 0 < s.capacity) : (calc__stack_push [] h s t).1 = 0 := by
  unfold calc__stack_push
  by_cases hc : s.count ≥ s.capacity <;> simp [hc, grow_nil_status h s hcap]

theorem push_nil_count (h : calc__heap) (s : calc__stack α) (t : calc__token α)
    (hcap : 0 < s.capacity) : (calc__stack_push [] h s t).2.2.count = s.count + 1 := by
  unfold calc__stack_push
  by_cases hc : s.count ≥ s.capacity <;>
    simp [hc, grow_nil_status h s hcap, grow_nil_cells h s hcap]

theorem push_nil_capacity (h : calc__heap) (s : calc__stack α) (t : calc__token α)
    (hcap : 0 < s.capacity) : 0 < (calc__stack_push [] h s t).2.2.capacity := by
  unfold calc__stack_push
  by_cases hc : s.count ≥ s.capacity <;>
    simp [hc, grow_nil_status h s hcap, grow_nil_cells h s hcap, hcap]

theorem push_nil_filled (h : calc__heap) (s : calc__stack α) (t : calc__token α)
    (hs : Filled s) (hcap : 0 < s.capacity) : Filled (calc__stack_push [] h s t).2.2 := by
  unfold Filled at *
  unfold calc__stack_push
  by_cases hc : s.count ≥ s.capacity <;>
    simp [hc, grow_nil_status h s hcap, grow_nil_cells h s hcap, writeCell] <;>
    split <;> simp <;> omega

theorem push_nil_contents (h : calc__heap) (s : calc__stack α) (t : calc__token α)
    (hs : Filled s) (hcap : 0 < s.capacity) :
    contents (calc__stack_push [] h s t).2.2 = contents s ++ [t] := by
  unfold Filled at hs
  unfold contents calc__stack_push
  by_cases hc : s.count ≥ s.capacity <;>
    simp [hc, grow_nil_status h s hcap, grow_nil_cells h s hcap, take_writeCell _ _ _ hs]

theorem pop_empty (s : calc__stack α) (hs : contents s = []) (hf : Filled s) :
    calc__stack_pop s = (-1, s, none) := by
  unfold contents at hs
  unfold Filled at hf
  have h0 : s.count = 0 := by
    rcases List.take_eq_nil_iff.mp hs with h | h
    · exact h
    · rw [h] at hf; simpa using hf
  simp [calc__stack_pop, h0]

theorem cells_of_snoc (s : calc__stack α) (l : List (calc__token α)) (t : calc__token α)
    (hs : contents s = l ++ [t]) (hf : Filled s) :
    s.count = l.length + 1 ∧ s.cells[l.length]? = some t ∧ l.length + 1 ≤ s.cells.length := by
  unfold contents at hs
  unfold Filled at hf
  have hlen := congrArg List.length hs
  simp [List.length_take] at hlen
  have h1 : (s.cells.take s.count)[l.length]? = some t := by
    rw [hs]; simp
  rw [List.getElem?_take] at h1
  split at h1
  · refine ⟨by omega, h1, by omega⟩
  · simp at h1

theorem pop_snoc (s : calc__stack α) (l : List (calc__token α)) (t : calc__token α)
    (hs : contents s = l ++ [t]) (hf : Filled s) :
    calc__stack_pop s = (0, { s with count := s.count - 1 }, some t) ∧
      contents { s with count := s.count - 1 } = l ∧ Filled { s with count := s.count - 1 } := by
  obtain ⟨hlen, hget, hle⟩ := cells_of_snoc s l t hs hf
  refine ⟨?_, ?_, ?_⟩
  · simp [calc__stack_pop, hlen, List.get?_eq_getElem?, hget]
  · unfold contents at hs
    simp only [contents, hlen, Nat.add_sub_cancel]
    have := congrArg (List.take l.length) hs
    rw [List.take_take, hlen] at this
    simpa using this
  · simp only [Filled, hlen]; omega

theorem topSymbol_snoc (s : calc__stack α) (l : List (calc__token α)) (t : calc__token α)
    (hs : contents s = l ++ [t]) (hf : Filled s) : topSymbol s = some t.symbol := by
  obtain ⟨hlen, hget, _⟩ := cells_of_snoc s l t hs hf
  simp [topSymbol, hlen, List.get?_eq_getElem?, hget]

theorem count_pos_of_snoc (s : calc__stack α) (l : List (calc__token α)) (t : calc__token α)
    (hs : contents s = l ++ [t]) : 0 < s.count := by
  unfold contents at hs
  rcases Nat.eq_zero_or_pos s.count with h | h
  · rw [h] at hs; simp at hs
  · exact h

theorem count_of_contents (s : calc__stack α) (hf : Filled s) :
    s.count = (contents s).length := by
  unfold Filled at hf
  simp [contents, List.length_take]
  omega

theorem Holds.push {s : calc__stack α} {l : List (calc__token α)} (hs : Holds s l)
    (h : calc__heap) (t : calc__token α) : Holds (calc__stack_push [] h s t).2.2 (l ++ [t]) :=
  ⟨push_nil_filled h s t hs.filled hs.cap,
    by rw [push_nil_contents h s t hs.filled hs.cap, hs.eq], push_nil_capacity h s t hs.cap⟩

theorem Holds.push_status {s : calc__stack α} {l : List (calc__token α)} (hs : Holds s l)
    (h : calc__heap) (t : calc__token α) : (calc__stack_push [] h s t).1 = 0 :=
  push_nil_status h s t hs.cap

theorem Holds.count {s : calc__stack α} {l : List (calc__token α)} (hs : Holds s l) :
    s.count = l.length := by
  rw [count_of_contents s hs.filled, hs.eq]

theorem Holds.pop {s : calc__stack α} {l : List (calc__token α)} {t : calc__token α}
    (hs : Holds s (l ++ [t])) :
    ∃ s1, calc__stack_pop s = (0, s1, some t) ∧ Holds s1 l := by
  obtain ⟨h1, h2, h3⟩ := pop_snoc s l t hs.eq hs.filled
  exact ⟨_, h1, h3, h2, hs.cap⟩

theorem Holds.pop_nil {s : calc__stack α} (hs : Holds s []) :
    calc__stack_pop s = (-1, s, none) :=
  pop_empty s hs.eq hs.filled

theorem Holds.top {s : calc__stack α} {l : List (calc__token α)} {t : calc__token α}
    (hs : Holds s (l ++ [t])) : topSymbol s = some t.symbol :=
  topSymbol_snoc s l t hs.eq hs.filled

theorem drain_preceding_opers_loop_refines (symbol : calc__symbol)
    (ops : List (calc__token α)) :
    ∀ (fuel : Nat) (h : calc__heap) (input opers : calc__stack α) (out : List (calc__token α)),
      Holds input out → Holds opers ops.reverse → ops.length ≤ fuel →
      ∃ h1 input1 opers1,
        calc__drain_preceding_opers_loop [] symbol fuel h input opers
          = some (0, h1, input1, opers1) ∧
        Holds input1 (drainPrec symbol out ops).1 ∧
        Holds opers1 (drainPrec symbol out ops).2.reverse := by
  induction ops with
  | nil =>
    intro fuel h input opers out hin hop _
    have hc : opers.count = 0 := by simpa using hop.count
    refine ⟨h, input, opers, ?_, ?_, ?_⟩
    · cases fuel <;> simp [calc__drain_preceding_opers_loop, calc__drain_preceding_opers_cond, hc]
    · simpa [drainPrec] using hin
    · simpa [drainPrec] using hop
  | cons t ops ih =>
    intro fuel h input opers out hin hop hfuel
    have hop1 : Holds opers (ops.reverse ++ [t]) := by simpa using hop
    have hc : opers.count = ops.length + 1 := by simpa using hop1.count
    have htop := hop1.top
    by_cases hp : calc__has_preceding_order t.symbol symbol = true
    · cases fuel with
      | zero => simp at hfuel
      | succ fuel =>
        obtain ⟨opers1, hpop, hop2⟩ := hop1.pop
        obtain ⟨h1, input1, opers2, hrec, hr1, hr2⟩ :=
          ih fuel (calc__stack_push [] h input t).2.1 (calc__stack_push [] h input t).2.2
            opers1 (out ++ [t]) (hin.push h t) hop2 (by simpa using hfuel)
        refine ⟨h1, input1, opers2, ?_, ?_, ?_⟩
        · simp [calc__drain_preceding_opers_loop, calc__drain_preceding_opers_cond,
            hc, htop, hp, hpop, hin.push_status h t, hrec]
        · simpa [drainPrec, hp] using hr1
        · simpa [drainPrec, hp] using hr2
    · refine ⟨h, input, opers, ?_, ?_, ?_⟩
      · cases fuel <;>
          simp [calc__drain_preceding_opers_loop, calc__drain_preceding_opers_cond, hc, htop, hp]
      · simpa [drainPrec, hp] using hin
      · simpa [drainPrec, hp] using hop

theorem drain_preceding_opers_refines (symbol : calc__symbol) (h : calc__heap)
    (input opers : calc__stack α) (out ops : List (calc__token α))
    (hin : Holds input out) (hop : Holds opers ops.reverse) :
    ∃ h1 input1 opers1,
      calc__drain_preceding_opers [] symbol h input opers = some (0, h1, input1, opers1) ∧
      Holds input1 (drainPrec symbol out ops).1 ∧
      Holds opers1 (drainPrec symbol out ops).2.reverse := by
  have hc : opers.count = ops.length := by simpa using hop.count
  unfold calc__drain_preceding_opers
  by_cases h0 : opers.count = 0
  · have : ops = [] := by
      rw [h0] at hc
      exact List.length_eq_zero.mp hc.symm
    subst this
    exact ⟨h, input, opers, by simp [h0], by simpa [drainPrec] using hin,
      by simpa [drainPrec] using hop⟩
  · simp only [h0, if_false]
    exact drain_preceding_opers_loop_refines symbol ops opers.count h input opers out hin hop
      (by omega)

theorem drain_paren_loop_refines (ops : List (calc__token α)) :
    ∀ (fuel : Nat) (h : calc__heap) (input opers : calc__stack α) (out : List (calc__token α)),
      Holds input out → Holds opers ops.reverse → ops.length ≤ fuel →
      ∃ st h1 input1 opers1,
        calc__drain_paren_loop [] fuel h input opers = some (st, h1, input1, opers1) ∧
        match drainParen out ops with
        | some r => st = 0 ∧ Holds input1 r.1 ∧ Holds opers1 r.2.reverse
        | none => st = -1 := by
  induction ops with
  | nil =>
    intro fuel h input opers out hin hop _
    have hc : opers.count = 0 := by simpa using hop.count
    refine ⟨-1, h, input, opers, ?_, ?_⟩
    · cases fuel <;> simp [calc__drain_paren_loop, hc]
    · simp [drainParen]
  | cons t ops ih =>
    intro fuel h input opers out hin hop hfuel
    have hop1 : Holds opers (ops.reverse ++ [t]) := by simpa using hop
    have hc : opers.count = ops.length + 1 := by simpa using hop1.count
    cases fuel with
    | zero => simp at hfuel
    | succ fuel =>
      obtain ⟨opers1, hpop, hop2⟩ := hop1.pop
      by_cases hp : t.symbol = CALC__OPAREN
      · refine ⟨0, h, input, opers1, ?_, ?_⟩
        · simp [calc__drain_paren_loop, hc, hpop, hp]
        · simp [drainParen, hp, hin, hop2]
      · obtain ⟨st, h1, input1, opers2, hrec, hr⟩ :=
          ih fuel (calc__stack_push [] h input t).2.1 (calc__stack_push [] h input t).2.2
            opers1 (out ++ [t]) (hin.push h t) hop2 (by simpa using hfuel)
        refine ⟨st, h1, input1, opers2, ?_, ?_⟩
        · simp [calc__drain_paren_loop, hc, hpop, hp, hin.push_status h t, hrec]
        · simpa [drainParen, hp] using hr

theorem parse_flush_refines (ops : List (calc__token α)) :
    ∀ (fuel : Nat) (h : calc__heap) (input opers : calc__stack α) (out : List (calc__token α)),
      Holds input out → Holds opers ops.reverse → ops.length ≤ fuel →
      ∃ h1 input1 opers1,
        calc__parse_flush [] fuel h input opers = some (0, h1, input1, opers1) ∧
        Holds input1 (out ++ ops) ∧ opers1.tokens = opers.tokens := by
  induction ops with
  | nil =>
    intro fuel h input opers out hin hop _
    have hc : opers.count = 0 := by simpa using hop.count
    refine ⟨h, input, opers, ?_, by simpa using hin, rfl⟩
    cases fuel <;> simp [calc__parse_flush, hc]
  | cons t ops ih =>
    intro fuel h input opers out hin hop hfuel
    have hop1 : Holds opers (ops.reverse ++ [t]) := by simpa using hop
    have hc : opers.count = ops.length + 1 := by simpa using hop1.count
    cases fuel with
    | zero => simp at hfuel
    | succ fuel =>
      obtain ⟨hpop, hcont, hfill⟩ := pop_snoc opers _ t hop1.eq hop1.filled
      obtain ⟨h1, input1, opers2, hrec, hr, htok⟩ :=
        ih fuel (calc__stack_push [] h input t).2.1 (calc__stack_push [] h input t).2.2
          { opers with count := opers.count - 1 } (out ++ [t]) (hin.push h t)
          ⟨hfill, hcont, hop1.cap⟩ (by simpa using hfuel)
      refine ⟨h1, input1, opers2, ?_, by simpa using hr, by simpa using htok⟩
      have hst := hin.push_status h t
      simp [calc__parse_flush, hc]
      rw [hc] at hpop hrec
      simp at hpop hrec
      simp [hpop, hrec, hst]

theorem parse_oper_refines (env : calc__env α) (symbol : calc__symbol) (h : calc__heap)
    (input opers : calc__stack α) (out ops : List (calc__token α))
    (hin : Holds input out) (hop : Holds opers ops.reverse) :
    ∃ st h1 input1 opers1,
      calc__parse_oper env [] symbol h input opers = some (st, h1, input1, opers1) ∧
      match stepOper env symbol out ops with
      | some r => st = 0 ∧ Holds input1 r.1 ∧ Holds opers1 r.2.reverse
      | none => st = -1 := by
  unfold calc__parse_oper stepOper
  by_cases hs : symbol = CALC__CPAREN
  · obtain ⟨st, h1, input1, opers1, hrun, hr⟩ :=
      drain_paren_loop_refines ops opers.count h input opers out hin hop
        (by have := hop.count; simp at this; omega)
    refine ⟨st, h1, input1, opers1, ?_, ?_⟩
    · simp only [hs, if_true, calc__drain_paren, hrun]
      cases hd : drainParen out ops with
      | none => rw [hd] at hr; simp [hr]
      | some r => rw [hd] at hr; simp [hr.1]
    · simpa [hs] using hr
  · obtain ⟨h1, input1, opers1, hrun, hr1, hr2⟩ :=
      drain_preceding_opers_refines symbol h input opers out ops hin hop
    refine ⟨0, (calc__stack_push [] h1 opers1 { symbol := symbol, value := env.zero }).2.1,
      input1, (calc__stack_push [] h1 opers1 { symbol := symbol, value := env.zero }).2.2, ?_, ?_⟩
    · simp only [hs, if_false, hrun]
      simp [hr2.push_status h1 { symbol := symbol, value := env.zero }]
    · simp only [hs, if_false]
      refine ⟨trivial, hr1, ?_⟩
      simpa using hr2.push h1 { symbol := symbol, value := env.zero }

theorem parse_number_nil (env : calc__env α) (h : calc__heap) (cursor : List Char)
    (input : calc__stack α) (hcap : 0 < input.capacity) :
    calc__parse_number env [] h cursor input =
      (0, (calc__stack_push [] h input
              { symbol := CALC__NUMBER, value := (env.strtod cursor).1 }).2.1,
        cursor.drop (env.strtod cursor).2,
        (calc__stack_push [] h input
              { symbol := CALC__NUMBER, value := (env.strtod cursor).1 }).2.2) := by
  simp [calc__parse_number, push_nil_status _ _ _ hcap]

theorem length_drop_strtod (env : calc__env α) (c : Char) (cs : List Char)
    (hc : calc__is_digit c = true) :
    ((c :: cs).drop (env.strtod (c :: cs)).2).length ≤ cs.length := by
  have := env.strtod_pos c cs hc
  simp only [List.length_drop, List.length_cons]
  omega

theorem parse_scan_refines (env : calc__env α) :
    ∀ (fuel : Nat) (s : List Char) (h : calc__heap) (input opers : calc__stack α)
      (out ops : List (calc__token α)),
      Holds input out → Holds opers ops.reverse → s.length < fuel →
      ∃ ex h1 input1 opers1,
        calc__parse_scan env [] fuel s h input opers = some (ex, h1, input1, opers1) ∧
        match scanLexemes env (lexFuel env fuel s) (out, ops) with
        | some r => ex = calc__scan_exit.finished ∧ Holds input1 r.1 ∧ Holds opers1 r.2.reverse
        | none => ex ≠ calc__scan_exit.finished := by
  intro fuel
  induction fuel with
  | zero => intro s _ _ _ _ _ _ _ hlt; simp at hlt
  | succ fuel ih =>
    intro s h input opers out ops hin hop hlt
    cases s with
    | nil =>
      exact ⟨.finished, h, input, opers, by simp [calc__parse_scan],
        by simp [lexFuel, scanLexemes, hin, hop]⟩
    | cons c cs =>
      have hlt1 : cs.length < fuel := by simpa using hlt
      by_cases hw : calc__is_whitespace c = true
      · obtain ⟨ex, h1, input1, opers1, hrun, hr⟩ := ih cs h input opers out ops hin hop hlt1
        exact ⟨ex, h1, input1, opers1, by simp [calc__parse_scan, hw, hrun],
          by simpa [lexFuel, hw] using hr⟩
      · by_cases hd : calc__is_digit c = true
        · obtain ⟨ex, h1, input1, opers1, hrun, hr⟩ :=
            ih ((c :: cs).drop (env.strtod (c :: cs)).2)
              (calc__stack_push [] h input
                { symbol := CALC__NUMBER, value := (env.strtod (c :: cs)).1 }).2.1
              (calc__stack_push [] h input
                { symbol := CALC__NUMBER, value := (env.strtod (c :: cs)).1 }).2.2
              opers (out ++ [{ symbol := CALC__NUMBER, value := (env.strtod (c :: cs)).1 }]) ops
              (hin.push h _) hop
              (Nat.lt_of_le_of_lt (length_drop_strtod env c cs hd) hlt1)
          refine ⟨ex, h1, input1, opers1, ?_, ?_⟩
          · simp [calc__parse_scan, hw, hd, parse_number_nil env h _ input hin.cap, hrun]
          · simpa [lexFuel, hw, hd, scanLexemes, stepLexeme] using hr
        · by_cases ho : calc__is_oper c = true
          · obtain ⟨st, h1, input1, opers1, hrun, hr⟩ :=
              parse_oper_refines env c.toNat h input opers out ops hin hop
            cases hstep : stepOper env c.toNat out ops with
            | none =>
              rw [hstep] at hr
              simp only at hr
              refine ⟨.fault, h1, input1, opers1, ?_, ?_⟩
              · simp [calc__parse_scan, hw, hd, ho, hrun, hr]
              · simp [lexFuel, hw, hd, ho, scanLexemes, stepLexeme, hstep]
            | some r =>
              rw [hstep] at hr
              simp only at hr
              obtain ⟨hst, hr1, hr2⟩ := hr
              obtain ⟨ex, h2, input2, opers2, hrun2, hrr⟩ :=
                ih cs h1 input1 opers1 r.1 r.2 hr1 hr2 hlt1
              refine ⟨ex, h2, input2, opers2, ?_, ?_⟩
              · simp [calc__parse_scan, hw, hd, ho, hrun, hst, hrun2]
              · simpa [lexFuel, hw, hd, ho, scanLexemes, stepLexeme, hstep] using hrr
          · refine ⟨.invalid, h, input, opers, ?_, ?_⟩
            · simp [calc__parse_scan, hw, hd, ho]
            · simp [lexFuel, hw, hd, ho, scanLexemes, stepLexeme]

theorem lexFuel_eq (env : calc__env α) :
    ∀ (fuel1 fuel2 : Nat) (s : List Char), s.length < fuel1 → s.length < fuel2 →
      lexFuel env fuel1 s = lexFuel env fuel2 s := by
  intro fuel1
  induction fuel1 with
  | zero => intro _ s h; simp at h
  | succ fuel1 ih =>
    intro fuel2 s h1 h2
    cases fuel2 with
    | zero => simp at h2
    | succ fuel2 =>
      cases s with
      | nil => simp [lexFuel]
      | cons c cs =>
        have h1 : cs.length < fuel1 := by simpa using h1
        have h2 : cs.length < fuel2 := by simpa using h2
        simp only [lexFuel]
        by_cases hw : calc__is_whitespace c = true
        · simp [hw, ih fuel2 cs h1 h2]
        · by_cases hd : calc__is_digit c = true
          · have hl := length_drop_strtod env c cs hd
            simp [hw, hd, ih fuel2 _ (Nat.lt_of_le_of_lt hl h1) (Nat.lt_of_le_of_lt hl h2)]
          · simp [hw, hd, ih fuel2 cs h1 h2]

theorem lexFuel_lexemes (env : calc__env α) (fuel : Nat) (s : List Char)
    (h : s.length < fuel) : lexFuel env fuel s = lexemes env s :=
  lexFuel_eq env fuel (s.length + 1) s h (Nat.lt_succ_self _)

theorem parse_refines (env : calc__env α) (h : calc__heap) (s : List Char)
    (input : calc__stack α) (out : List (calc__token α)) (hin : Holds input out) :
    ∃ st h1 input1,
      calc__parse env [] h s input = some (st, h1, input1) ∧
      match scanLexemes env (lexemes env s) (out, []) with
      | some r => st = 0 ∧ Holds input1 (r.1 ++ r.2)
      | none => st = -1 := by
  have hop : Holds ({ capacity := 10, count := 0, tokens := some h.requests, cells := [] }
      : calc__stack α) ([] : List (calc__token α)).reverse :=
    ⟨by simp [Filled], by simp [contents], by simp⟩
  obtain ⟨ex, h1, input1, opers1, hrun, hr⟩ :=
    parse_scan_refines env (s.length + 1) s
      { h with requests := h.requests + 1, live := h.requests :: h.live } input _ out [] hin hop
      (Nat.lt_succ_self _)
  unfold calc__parse
  rw [create_stack_nil]
  simp only [hrun]
  change match scanLexemes env (lexFuel env (s.length + 1) s) (out, []) with
    | some r => _
    | none => _ at hr
  unfold lexemes
  cases hscan : scanLexemes env (lexFuel env (s.length + 1) s) (out, []) with
  | none =>
    rw [hscan] at hr
    simp only at hr
    cases ex with
    | finished => exact absurd rfl hr
    | fault => exact ⟨-1, _, _, rfl, rfl⟩
    | invalid => exact ⟨-1, _, _, rfl, rfl⟩
  | some r =>
    rw [hscan] at hr
    simp only at hr
    obtain ⟨hex, hr1, hr2⟩ := hr
    subst hex
    obtain ⟨h2, input2, opers2, hfl, hh, _⟩ :=
      parse_flush_refines r.2 opers1.count h1 input1 opers1 r.1 hr1 hr2
        (by have := hr2.count; simp at this; omega)
    exact ⟨0, calc__destroy_stack h2 opers2, input2, by simp [hfl], rfl, hh⟩

theorem evaluate_loop_refines (env : calc__env α) (toks : List (calc__token α)) :
    ∀ (h : calc__heap) (output : calc__stack α) (st : List α),
      Holds output (st.map numberToken).reverse →
      ∃ status h1 output1,
        calc__evaluate_loop env [] toks h output = (status, h1, output1) ∧
        match evalPostfix env toks st with
        | some st1 => status = 0 ∧ Holds output1 (st1.map numberToken).reverse
        | none => status = -1 := by
  induction toks with
  | nil =>
    intro h output st hout
    exact ⟨0, h, output, by simp [calc__evaluate_loop], by simp [evalPostfix, hout]⟩
  | cons t ts ih =>
    intro h output st hout
    by_cases hn : t.symbol = CALC__NUMBER
    · have ht : t = numberToken t.value := by
        cases t; simp_all [numberToken]
      have hpush := hout.push h t
      rw [ht] at hpush
      obtain ⟨status, h1, output1, hrun, hr⟩ :=
        ih (calc__stack_push [] h output t).2.1 (calc__stack_push [] h output t).2.2
          (t.value :: st) (by rw [ht]; simpa using hpush)
      refine ⟨status, h1, output1, ?_, ?_⟩
      · simp [calc__evaluate_loop, hn, hrun]
      · simpa [evalPostfix, hn] using hr
    · cases st with
      | nil =>
        have hpop := Holds.pop_nil (by simpa using hout)
        exact ⟨-1, h, output, by simp [calc__evaluate_loop, hn, hpop],
          by simp [evalPostfix, hn]⟩
      | cons right st =>
        have hout1 : Holds output ((st.map numberToken).reverse ++ [numberToken right]) := by
          simpa using hout
        obtain ⟨output1, hpop1, hh1⟩ := hout1.pop
        cases st with
        | nil =>
          have hpop2 := Holds.pop_nil (by simpa using hh1)
          exact ⟨-1, h, output1, by simp [calc__evaluate_loop, hn, hpop1, hpop2],
            by simp [evalPostfix, hn]⟩
        | cons left st =>
          have hh1a : Holds output1 ((st.map numberToken).reverse ++ [numberToken left]) := by
            simpa using hh1
          obtain ⟨output2, hpop2, hh2⟩ := hh1a.pop
          cases hap : applyOper env t.symbol left right with
          | none =>
            refine ⟨-1, h, output2, ?_, by simp [evalPostfix, hn, hap]⟩
            unfold applyOper at hap
            simp only [calc__evaluate_loop, hn, if_false, hpop1, hpop2]
            split_ifs at hap ⊢ <;> simp_all [numberToken]
          | some v =>
            obtain ⟨status, h1, output3, hrun, hr⟩ :=
              ih (calc__stack_push [] h output2 (numberToken v)).2.1
                (calc__stack_push [] h output2 (numberToken v)).2.2 (v :: st)
                (by simpa using hh2.push h (numberToken v))
            refine ⟨status, h1, output3, ?_, by simpa [evalPostfix, hn, hap] using hr⟩
            unfold applyOper at hap
            simp only [calc__evaluate_loop, hn, if_false, hpop1, hpop2]
            have hst := hh2.push_status h (numberToken v)
            simp only [numberToken] at hrun hst ⊢
            split_ifs at hap ⊢ <;> simp_all

theorem Holds.keeps {s : calc__stack α} {l : List (calc__token α)} (hs : Holds s l) :
    Keeps s l :=
  ⟨hs.filled, hs.eq⟩

theorem evaluate_refines (env : calc__env α) (h : calc__heap) (input : calc__stack α)
    (toks : List (calc__token α)) (hin : Keeps input toks) :
    ∃ h1, calc__evaluate env [] h input =
      ((if (valueOf env toks).isSome then 0 else -1), h1, valueOf env toks) := by
  have hout : Holds ({ capacity := 10, count := 0, tokens := some h.requests, cells := [] }
      : calc__stack α) (([] : List α).map numberToken).reverse :=
    ⟨by simp [Filled], by simp [contents], by simp⟩
  obtain ⟨status, h1, output1, hrun, hr⟩ :=
    evaluate_loop_refines env toks
      { h with requests := h.requests + 1, live := h.requests :: h.live } _ [] hout
  have hc : input.cells.take input.count = toks := hin.eq
  unfold calc__evaluate valueOf
  rw [create_stack_nil]
  simp only [hc, hrun]
  cases hev : evalPostfix env toks [] with
  | none =>
    rw [hev] at hr
    simp only at hr
    subst hr
    exact ⟨_, rfl⟩
  | some st =>
    rw [hev] at hr
    simp only at hr
    obtain ⟨hs, hh⟩ := hr
    subst hs
    have hcount := hh.count
    simp at hcount
    match st, hh, hcount with
    | [], _, hcount => exact ⟨calc__destroy_stack h1 output1, by simp [hcount]⟩
    | [v], hh, hcount =>
      obtain ⟨output2, hpop, _⟩ := Holds.pop (l := []) (t := numberToken v) (by simpa using hh)
      exact ⟨calc__destroy_stack h1 output2, by simp [hcount, hpop, numberToken]⟩
    | _ :: _ :: _, _, hcount => exact ⟨calc__destroy_stack h1 output1, by simp [hcount]⟩

theorem solve_finish (x : Option α) (old : α) (h2 : calc__heap) (input1 : calc__stack α) :
    (match ((if x.isSome then 0 else -1 : Int), h2, x) with
      | (0, h3, written) =>
        some ({ status := 0, heap := calc__destroy_stack h3 input1,
                result := some (written.getD old) } : calc__outcome α)
      | (_, h3, written) =>
        some { status := -1, heap := calc__destroy_stack h3 input1,
               result := some (written.getD old) }) =
      some { status := if x.isSome then 0 else -1, heap := calc__destroy_stack h2 input1,
             result := some (x.getD old) } := by
  cases x <;> rfl

theorem solve_refines (env : calc__env α) (h : calc__heap) (s : List Char) (old : α) :
    ∃ h1, calc_solve env [] h (some s) (some old) =
      some { status := if (solveValue env s).isSome then 0 else -1,
             heap := h1,
             result := some ((solveValue env s).getD old) } := by
  have hin : Holds ({ capacity := 10, count := 0, tokens := some h.requests, cells := [] }
      : calc__stack α) [] :=
    ⟨by simp [Filled], by simp [contents], by simp⟩
  obtain ⟨st, h1, input1, hrun, hr⟩ :=
    parse_refines env { h with requests := h.requests + 1, live := h.requests :: h.live } s _ []
      hin
  unfold calc_solve solveValue postfixOf
  simp only [create_stack_nil, hrun]
  cases hscan : scanLexemes env (lexemes env s) ([], []) with
  | none =>
    rw [hscan] at hr
    simp only at hr
    subst hr
    exact ⟨calc__destroy_stack h1 input1, by simp⟩
  | some r =>
    rw [hscan] at hr
    simp only at hr
    obtain ⟨hs, hh⟩ := hr
    subst hs
    obtain ⟨h2, hev⟩ := evaluate_refines env h1 input1 (r.1 ++ r.2) hh.keeps
    simp only [Option.map_some']
    refine ⟨calc__destroy_stack h2 input1, ?_⟩
    rw [hev]
    exact solve_finish _ old h2 input1

end StackLemmas

/-! ## Lexing a rendered parse tree -/

section Lexing

variable {α : Type}

theorem lexemes_nil (env : calc__env α) : lexemes env [] = [] := by
  simp [lexemes, lexFuel]

theorem lexemes_whitespace (env : calc__env α) (c : Char) (cs : List Char)
    (hw : calc__is_whitespace c = true) : lexemes env (c :: cs) = lexemes env cs := by
  unfold lexemes
  simp only [List.length_cons, lexFuel, hw, if_true]

theorem lexemes_digit (env : calc__env α) (c : Char) (cs : List Char)
    (hw : calc__is_whitespace c = false) (hd : calc__is_digit c = true) :
    lexemes env (c :: cs) =
      Lexeme.number (env.strtod (c :: cs)).1 ::
        lexemes env ((c :: cs).drop (env.strtod (c :: cs)).2) := by
  have hl := length_drop_strtod env c cs hd
  unfold lexemes
  simp only [List.length_cons, lexFuel, hw, hd, if_true, Bool.false_eq_true, if_false]
  rw [lexFuel_eq env (cs.length + 1) _ _ (by omega) (Nat.lt_succ_self _)]

theorem lexemes_oper (env : calc__env α) (c : Char) (cs : List Char)
    (hw : calc__is_whitespace c = false) (hd : calc__is_digit c = false)
    (ho : calc__is_oper c = true) :
    lexemes env (c :: cs) = Lexeme.oper c :: lexemes env cs := by
  unfold lexemes
  simp only [List.length_cons, lexFuel, hw, hd, ho, if_true, Bool.false_eq_true, if_false]

theorem lexemes_invalid (env : calc__env α) (c : Char) (cs : List Char)
    (hw : calc__is_whitespace c = false) (hd : calc__is_digit c = false)
    (ho : calc__is_oper c = false) :
    lexemes env (c :: cs) = [Lexeme.invalid] := by
  unfold lexemes
  simp only [List.length_cons, lexFuel, hw, hd, ho, Bool.false_eq_true, if_false]

theorem lexemes_blank (env : calc__env α) (gap k : List Char) (hg : IsBlank gap) :
    lexemes env (gap ++ k) = lexemes env k := by
  induction gap with
  | nil => rfl
  | cons c cs ih =>
    have hc : calc__is_whitespace c = true := hg c (by simp)
    have hcs : IsBlank cs := fun d hd => hg d (by simp [hd])
    rw [List.cons_append, lexemes_whitespace env c _ hc, ih hcs]

theorem digit_not_whitespace (c : Char) (hd : calc__is_digit c = true) :
    calc__is_whitespace c = false := by
  simp only [calc__is_digit, Bool.and_eq_true, decide_eq_true_eq] at hd
  simp only [calc__is_whitespace, Bool.or_eq_false_iff, beq_eq_false_iff_ne, ne_eq]
  obtain ⟨h1, h2⟩ := hd
  refine ⟨⟨?_, ?_⟩, ?_⟩ <;> rintro rfl <;> revert h1 <;> decide

theorem lexemes_literal (env : calc__env α) (text k : List Char) (ht : IsLiteral env text)
    (hk : atBoundary k = true) :
    lexemes env (text ++ k) = Lexeme.number (env.strtod text).1 :: lexemes env k := by
  obtain ⟨⟨c, cs, rfl, hd⟩, hconv⟩ := ht
  have h := hconv k hk
  rw [List.cons_append, lexemes_digit env c _ (digit_not_whitespace c hd) hd]
  rw [← List.cons_append, h]
  simp

theorem atBoundary_blank_oper (gap k : List Char) (c : Char) (hg : IsBlank gap)
    (hc : calc__is_oper c = true) : atBoundary (gap ++ c :: k) = true := by
  cases gap with
  | nil => simp [atBoundary, hc]
  | cons d ds => simp [atBoundary, hg d (by simp)]

theorem atBoundary_blank (gap : List Char) (hg : IsBlank gap) : atBoundary gap = true := by
  cases gap with
  | nil => rfl
  | cons d ds => simp [atBoundary, hg d (by simp)]

theorem BinOp.char_oper (op : BinOp) :
    calc__is_whitespace op.char = false ∧ calc__is_digit op.char = false ∧
      calc__is_oper op.char = true := by
  cases op <;> decide

theorem lexemes_blank_oper (env : calc__env α) (gap k : List Char) (c : Char)
    (hg : IsBlank gap) (hw : calc__is_whitespace c = false) (hd : calc__is_digit c = false)
    (ho : calc__is_oper c = true) :
    lexemes env (gap ++ c :: k) = Lexeme.oper c :: lexemes env k := by
  rw [lexemes_blank env gap _ hg, lexemes_oper env c k hw hd ho]

theorem lexemes_render (env : calc__env α) (t : Ast) :
    t.WellFormed env → ∀ k, atBoundary k = true →
      lexemes env (t.render ++ k) = t.lexemes env ++ lexemes env k := by
  induction t with
  | lit gap text =>
    intro hwf k hk
    obtain ⟨hg, ht⟩ := hwf
    simp only [Ast.render, Ast.lexemes, List.append_assoc]
    rw [lexemes_blank env gap _ hg, lexemes_literal env text k ht hk]
    rfl
  | paren gap e gap2 ih =>
    intro hwf k hk
    obtain ⟨hg, hg2, he⟩ := hwf
    simp only [Ast.render, Ast.lexemes, List.append_assoc, List.cons_append]
    rw [lexemes_blank_oper env gap _ '(' hg (by decide) (by decide) (by decide)]
    rw [ih he _ (atBoundary_blank_oper gap2 _ ')' hg2 (by decide))]
    rw [lexemes_blank_oper env gap2 _ ')' hg2 (by decide) (by decide) (by decide)]
    simp
  | bin op l gap r ihl ihr =>
    intro hwf k hk
    obtain ⟨hg, hl, hr, _, _⟩ := hwf
    obtain ⟨hw, hd, ho⟩ := op.char_oper
    simp only [Ast.render, Ast.lexemes, List.append_assoc, List.cons_append]
    rw [ihl hl _ (atBoundary_blank_oper gap _ op.char hg ho)]
    rw [lexemes_blank_oper env gap _ op.char hg hw hd ho, ihr hr k hk]

end Lexing

/-! ## The shunting-yard pass on a parse tree -/

section ShuntingYard

variable {α : Type}

theorem postorder_eq (env : calc__env α) (t : Ast) :
    t.postorder env = t.emitted env ++ t.pending env := by
  induction t with
  | lit gap text => simp [Ast.postorder, Ast.emitted, Ast.pending]
  | paren gap e gap2 _ => simp [Ast.postorder, Ast.emitted, Ast.pending]
  | bin op l gap r _ ihr => simp [Ast.postorder, Ast.emitted, Ast.pending, ihr]

theorem scanLexemes_append (env : calc__env α) (xs ys : List (Lexeme α)) :
    ∀ st, scanLexemes env (xs ++ ys) st =
      match scanLexemes env xs st with
      | some st1 => scanLexemes env ys st1
      | none => none := by
  induction xs with
  | nil => intro st; simp [scanLexemes]
  | cons x xs ih =>
    intro st
    simp only [List.cons_append, scanLexemes]
    cases stepLexeme env x st with
    | none => rfl
    | some st1 => exact ih st1

theorem has_preceding_oparen (s : calc__symbol) :
    calc__has_preceding_order s CALC__OPAREN = false := by
  unfold calc__has_preceding_order calc__oper_order
  simp only [CALC__OPAREN, CALC__CPAREN, CALC__MULTIPLY, CALC__DIVIDE, CALC__SUM, CALC__SUBTRACT]
  split_ifs <;> simp_all

theorem has_preceding_rank (o1 o2 : BinOp) :
    calc__has_preceding_order o1.char.toNat o2.char.toNat = decide (o2.rank ≤ o1.rank) := by
  cases o1 <;> cases o2 <;> decide

theorem drainPrec_quiet (op : BinOp) (out ops : List (calc__token α))
    (hq : Quiet op.rank ops) : drainPrec op.char.toNat out ops = (out, ops) := by
  cases ops with
  | nil => rfl
  | cons t ops =>
    have := hq t rfl op (Nat.le_refl _)
    simp [drainPrec, this]

theorem drainPrec_oparen (out ops : List (calc__token α)) :
    drainPrec CALC__OPAREN out ops = (out, ops) := by
  cases ops with
  | nil => rfl
  | cons t ops => simp [drainPrec, has_preceding_oparen]

theorem drainPrec_all (symbol : calc__symbol) (pend : List (calc__token α)) :
    ∀ (out ops : List (calc__token α)),
      (∀ t ∈ pend, calc__has_preceding_order t.symbol symbol = true) →
      drainPrec symbol out (pend ++ ops) = drainPrec symbol (out ++ pend) ops := by
  induction pend with
  | nil => intro out ops _; simp
  | cons t pend ih =>
    intro out ops h
    have ht := h t (by simp)
    rw [List.cons_append, drainPrec]
    simp only [ht, if_true]
    rw [ih _ _ (fun u hu => h u (by simp [hu]))]
    simp

theorem drainParen_all (pend : List (calc__token α)) :
    ∀ (out ops : List (calc__token α)) (paren : calc__token α),
      (∀ t ∈ pend, t.symbol ≠ CALC__OPAREN) → paren.symbol = CALC__OPAREN →
      drainParen out (pend ++ paren :: ops) = some (out ++ pend, ops) := by
  induction pend with
  | nil => intro out ops paren _ hp; simp [drainParen, hp]
  | cons t pend ih =>
    intro out ops paren h hp
    have ht := h t (by simp)
    rw [List.cons_append, drainParen]
    simp only [ht, if_false]
    rw [ih _ _ paren (fun u hu => h u (by simp [hu])) hp]
    simp

theorem pending_rank (env : calc__env α) (t : Ast) :
    t.WellFormed env →
      ∀ u ∈ t.pending env, ∃ op : BinOp, u = op.token env ∧ t.level ≤ op.rank := by
  induction t with
  | lit gap text => intro _ u hu; simp [Ast.pending] at hu
  | paren gap e gap2 _ => intro _ u hu; simp [Ast.pending] at hu
  | bin op l gap r _ ihr =>
    intro hwf u hu
    obtain ⟨_, _, hr, _, hlt⟩ := hwf
    simp only [Ast.pending, List.mem_append, List.mem_singleton] at hu
    rcases hu with hu | hu
    · obtain ⟨o, ho, hrank⟩ := ihr hr u hu
      exact ⟨o, ho, by simp only [Ast.level]; omega⟩
    · exact ⟨op, hu, Nat.le_refl _⟩

theorem quiet_oparen (n : Nat) (ops : List (calc__token α)) (paren : calc__token α)
    (hp : paren.symbol = CALC__OPAREN) : Quiet n (paren :: ops) := by
  intro t ht op _
  simp only [List.head?_cons, Option.some.injEq] at ht
  subst ht
  simp [calc__has_preceding_order, hp]

theorem quiet_oper (env : calc__env α) (n : Nat) (ops : List (calc__token α)) (op : BinOp)
    (hn : op.rank < n) : Quiet n (op.token env :: ops) := by
  intro t ht o ho
  simp only [List.head?_cons, Option.some.injEq] at ht
  subst ht
  simp only [BinOp.token, has_preceding_rank, decide_eq_false_iff_not, not_le]
  omega

theorem Quiet.mono {n m : Nat} {ops : List (calc__token α)} (hq : Quiet n ops) (h : n ≤ m) :
    Quiet m ops :=
  fun t ht op hop => hq t ht op (Nat.le_trans h hop)

theorem BinOp.token_symbol (env : calc__env α) (op : BinOp) :
    (op.token env).symbol ≠ CALC__OPAREN ∧ (op.token env).symbol ≠ CALC__CPAREN ∧
      (op.token env).symbol ≠ CALC__NUMBER := by
  cases op <;> simp [BinOp.token, BinOp.char, CALC__OPAREN, CALC__CPAREN, CALC__NUMBER]

theorem scanLexemes_cons (env : calc__env α) (x : Lexeme α) (xs : List (Lexeme α))
    (st st1 : List (calc__token α) × List (calc__token α))
    (h : stepLexeme env x st = some st1) :
    scanLexemes env (x :: xs) st = scanLexemes env xs st1 := by
  simp [scanLexemes, h]

theorem scan_tree (env : calc__env α) (t : Ast) :
    t.WellFormed env → ∀ (out ops : List (calc__token α)) (xs : List (Lexeme α)),
      Quiet t.level ops →
      scanLexemes env (t.lexemes env ++ xs) (out, ops) =
        scanLexemes env xs (out ++ t.emitted env, t.pending env ++ ops) := by
  induction t with
  | lit gap text =>
    intro _ out ops xs _
    simp [Ast.lexemes, Ast.emitted, Ast.pending, scanLexemes, stepLexeme]
  | paren gap e gap2 ih =>
    intro hwf out ops xs _
    obtain ⟨_, _, he⟩ := hwf
    have hstep : stepLexeme env (Lexeme.oper '(') (out, ops) =
        some (out, ({ symbol := CALC__OPAREN, value := env.zero } : calc__token α) :: ops) := by
      have h1 : ('('.toNat : Nat) = CALC__OPAREN := by decide
      have h2 : CALC__OPAREN ≠ CALC__CPAREN := by decide
      simp only [stepLexeme, stepOper, h1, h2, if_false, drainPrec_oparen]
    have hq : Quiet e.level
        (({ symbol := CALC__OPAREN, value := env.zero } : calc__token α) :: ops) :=
      quiet_oparen _ _ _ rfl
    have hclose : stepLexeme env (Lexeme.oper ')')
        (out ++ e.emitted env,
          e.pending env ++ ({ symbol := CALC__OPAREN, value := env.zero } : calc__token α) :: ops)
        = some (out ++ e.postorder env, ops) := by
      have h1 : (')'.toNat : Nat) = CALC__CPAREN := by decide
      simp only [stepLexeme, stepOper, h1, if_true]
      rw [drainParen_all _ _ _ _ (fun u hu => by
        obtain ⟨o, ho, _⟩ := pending_rank env e he u hu
        rw [ho]
        exact (o.token_symbol env).1) rfl]
      rw [postorder_eq, List.append_assoc]
    have hlex : (Ast.paren gap e gap2).lexemes env ++ xs =
        Lexeme.oper '(' :: (e.lexemes env ++ (Lexeme.oper ')' :: xs)) := by
      simp [Ast.lexemes]
    rw [hlex, scanLexemes_cons env _ _ _ _ hstep, ih he _ _ _ hq,
      scanLexemes_cons env _ _ _ _ hclose]
    simp only [Ast.emitted, Ast.pending, List.nil_append]
  | bin op l gap r ihl ihr =>
    intro hwf out ops xs hq
    obtain ⟨_, hl, hr, hle, hlt⟩ := hwf
    have hq0 : Quiet op.rank ops := hq
    have hstep : stepLexeme env (Lexeme.oper op.char)
        (out ++ l.emitted env, l.pending env ++ ops)
        = some (out ++ l.postorder env, op.token env :: ops) := by
      have h2 : op.char.toNat ≠ CALC__CPAREN := (op.token_symbol env).2.1
      simp only [stepLexeme, stepOper, h2, if_false]
      rw [drainPrec_all _ _ _ _ (fun u hu => by
        obtain ⟨o, ho, hrank⟩ := pending_rank env l hl u hu
        rw [ho]
        simp only [BinOp.token, has_preceding_rank, decide_eq_true_eq]
        omega)]
      rw [drainPrec_quiet op _ _ hq0, postorder_eq, List.append_assoc]
      rfl
    have hlex : (Ast.bin op l gap r).lexemes env ++ xs =
        l.lexemes env ++ (Lexeme.oper op.char :: (r.lexemes env ++ xs)) := by
      simp [Ast.lexemes]
    rw [hlex, ihl hl _ _ _ (hq0.mono hle), scanLexemes_cons env _ _ _ _ hstep,
      ihr hr _ _ _ (quiet_oper env _ _ op hlt)]
    simp only [Ast.emitted, Ast.pending, List.append_assoc, List.singleton_append]

theorem quiet_nil (n : Nat) : Quiet n ([] : List (calc__token α)) := by
  intro t ht
  simp at ht

theorem postfixOf_render (env : calc__env α) (t : Ast) (tail : List Char)
    (hwf : t.WellFormed env) (htail : IsBlank tail) :
    postfixOf env (t.render ++ tail) = some (t.postorder env) := by
  unfold postfixOf
  rw [lexemes_render env t hwf tail (atBoundary_blank tail htail)]
  have : lexemes env tail = [] := by
    have := lexemes_blank env tail [] htail
    simpa [lexemes_nil] using this
  rw [this, scan_tree env t hwf [] [] [] (quiet_nil _)]
  simp [scanLexemes, postorder_eq]

theorem evalPostfix_tree (env : calc__env α) (t : Ast) :
    ∀ (ts : List (calc__token α)) (st : List α),
      evalPostfix env (t.postorder env ++ ts) st =
        match t.eval env with
        | some v => evalPostfix env ts (v :: st)
        | none => none := by
  induction t with
  | lit gap text =>
    intro ts st
    simp [Ast.postorder, Ast.eval, evalPostfix]
  | paren gap e gap2 ih =>
    intro ts st
    simpa [Ast.postorder, Ast.eval] using ih ts st
  | bin op l gap r ihl ihr =>
    intro ts st
    simp only [Ast.postorder, Ast.eval, List.append_assoc]
    rw [ihl]
    cases hl : l.eval env with
    | none => rfl
    | some a =>
      simp only
      rw [ihr]
      cases hr : r.eval env with
      | none => rfl
      | some b =>
        have hsym := (op.token_symbol env).2.2
        have happ : applyOper env (op.token env).symbol a b = op.apply env a b := by
          cases op <;>
            simp [applyOper, BinOp.token, BinOp.char, BinOp.apply, CALC__SUM, CALC__SUBTRACT,
              CALC__MULTIPLY, CALC__DIVIDE]
        simp only [List.singleton_append, evalPostfix, hsym, if_false, happ]
        cases op.apply env a b <;> rfl

theorem solveValue_render (env : calc__env α) (t : Ast) (tail : List Char)
    (hwf : t.WellFormed env) (htail : IsBlank tail) :
    solveValue env (t.render ++ tail) = t.eval env := by
  unfold solveValue valueOf
  rw [postfixOf_render env t tail hwf htail]
  have := evalPostfix_tree env t [] []
  rw [List.append_nil] at this
  simp only [this]
  cases t.eval env <;> simp [evalPostfix]

end ShuntingYard

/-! ## Decimal literals in the rational environment -/

section RatLiterals

theorem takeWhile_digits_append (ds rest : List Char)
    (hds : ∀ c ∈ ds, calc__is_digit c = true)
    (hrest : ∀ c, rest.head? = some c → calc__is_digit c = false) :
    (ds ++ rest).takeWhile calc__is_digit = ds := by
  induction ds with
  | nil =>
    cases rest with
    | nil => rfl
    | cons c cs => simp [List.takeWhile_cons, hrest c rfl]
  | cons d ds ih =>
    simp only [List.cons_append, List.takeWhile_cons, hds d (by simp), if_true]
    rw [ih (fun c hc => hds c (by simp [hc]))]

theorem boundary_head (rest : List Char) (hk : atBoundary rest = true) (c : Char)
    (hc : rest.head? = some c) :
    calc__is_digit c = false ∧ c ≠ '.' ∧ c ≠ 'e' ∧ c ≠ 'E' := by
  cases rest with
  | nil => simp at hc
  | cons d ds =>
    simp only [List.head?_cons, Option.some.injEq] at hc
    subst hc
    simp only [atBoundary, calc__is_whitespace, calc__is_oper, Bool.or_eq_true, beq_iff_eq] at hk
    rcases hk with ((h | h) | h) | (((((h | h) | h) | h) | h) | h) <;> subst h <;> decide

theorem scanFraction_boundary (rest : List Char) (hk : atBoundary rest = true) :
    scanFraction rest = ([], 0) := by
  cases rest with
  | nil => rfl
  | cons c cs =>
    have h := (boundary_head (c :: cs) hk c rfl).2.1
    unfold scanFraction
    split
    · rename_i heq
      simp only [List.cons.injEq] at heq
      exact absurd heq.1 h
    · rfl

theorem scanExponent_boundary (rest : List Char) (hk : atBoundary rest = true) :
    scanExponent rest = (0, 0) := by
  cases rest with
  | nil => rfl
  | cons c cs =>
    obtain ⟨_, _, h1, h2⟩ := boundary_head (c :: cs) hk c rfl
    simp [scanExponent, h1, h2]

theorem strtodRat_digits (ds rest : List Char) (hne : ds ≠ [])
    (hds : ∀ c ∈ ds, calc__is_digit c = true) (hk : atBoundary rest = true) :
    strtodRat (ds ++ rest) = ((digitsValue ds : ℚ), ds.length) := by
  have htake : (ds ++ rest).takeWhile calc__is_digit = ds :=
    takeWhile_digits_append ds rest hds (fun c hc => (boundary_head rest hk c hc).1)
  unfold strtodRat
  simp only [htake, hne, if_false, List.drop_left, scanFraction_boundary rest hk,
    List.drop_zero, scanExponent_boundary rest hk]
  simp

/-- A non-empty string of decimal digits is a literal of the rational environment. -/
theorem ratEnv_literal (ds : List Char) (hne : ds ≠ [])
    (hds : ∀ c ∈ ds, calc__is_digit c = true) : IsLiteral ratEnv ds := by
  refine ⟨?_, ?_⟩
  · cases ds with
    | nil => exact absurd rfl hne
    | cons c cs => exact ⟨c, cs, rfl, hds c (by simp)⟩
  · intro rest hk
    have h1 := strtodRat_digits ds rest hne hds hk
    have h2 := strtodRat_digits ds [] hne hds rfl
    rw [List.append_nil] at h2
    show strtodRat (ds ++ rest) = ((strtodRat ds).1, ds.length)
    rw [h1, h2]

theorem ratEnv_value (ds : List Char) (hne : ds ≠ [])
    (hds : ∀ c ∈ ds, calc__is_digit c = true) :
    (ratEnv.strtod ds).1 = (digitsValue ds : ℚ) := by
  have h2 := strtodRat_digits ds [] hne hds rfl
  rw [List.append_nil] at h2
  show (strtodRat ds).1 = _
  rw [h2]

end RatLiterals

/-! ## Counting tokens through the parser and the evaluator -/

section Counting

variable {α : Type}

theorem drainPrec_spec (symbol : calc__symbol) (ops : List (calc__token α)) :
    ∀ out : List (calc__token α), ∃ pend rest,
      ops = pend ++ rest ∧
      (∀ t ∈ pend, calc__has_preceding_order t.symbol symbol = true) ∧
      drainPrec symbol out ops = (out ++ pend, rest) := by
  induction ops with
  | nil => intro out; exact ⟨[], [], rfl, by simp, by simp [drainPrec]⟩
  | cons t ops ih =>
    intro out
    by_cases hp : calc__has_preceding_order t.symbol symbol = true
    · obtain ⟨pend, rest, h1, h2, h3⟩ := ih (out ++ [t])
      refine ⟨t :: pend, rest, by simp [h1], ?_, ?_⟩
      · intro u hu
        rcases List.mem_cons.mp hu with rfl | hu
        · exact hp
        · exact h2 u hu
      · rw [drainPrec]
        simp only [hp, if_true, h3]
        simp
    · exact ⟨[], t :: ops, rfl, by simp, by simp [drainPrec, hp]⟩

theorem drainParen_spec (ops : List (calc__token α)) :
    ∀ (out : List (calc__token α)) (r : List (calc__token α) × List (calc__token α)),
      drainParen out ops = some r →
      ∃ pend paren rest, ops = pend ++ paren :: rest ∧ paren.symbol = CALC__OPAREN ∧
        (∀ t ∈ pend, t.symbol ≠ CALC__OPAREN) ∧ r = (out ++ pend, rest) := by
  induction ops with
  | nil => intro out r h; simp [drainParen] at h
  | cons t ops ih =>
    intro out r h
    by_cases hp : t.symbol = CALC__OPAREN
    · simp only [drainParen, hp, if_true, Option.some.injEq] at h
      exact ⟨[], t, ops, rfl, hp, by simp, by simp [← h]⟩
    · rw [drainParen] at h
      simp only [hp, if_false] at h
      obtain ⟨pend, paren, rest, h1, h2, h3, h4⟩ := ih _ r h
      refine ⟨t :: pend, paren, rest, by simp [h1], h2, ?_, by simp [h4]⟩
      intro u hu
      rcases List.mem_cons.mp hu with rfl | hu
      · exact hp
      · exact h3 u hu

theorem drainParen_none (ops : List (calc__token α)) :
    ∀ out : List (calc__token α), (∀ t ∈ ops, t.symbol ≠ CALC__OPAREN) →
      drainParen out ops = none := by
  induction ops with
  | nil => intro out _; rfl
  | cons t ops ih =>
    intro out h
    rw [drainParen]
    simp only [h t (by simp), if_false]
    exact ih _ (fun u hu => h u (by simp [hu]))

theorem preceding_not_paren (s symbol : calc__symbol)
    (h : calc__has_preceding_order s symbol = true) :
    s ≠ CALC__OPAREN ∧ s ≠ CALC__CPAREN := by
  unfold calc__has_preceding_order at h
  by_cases hs : s = CALC__OPAREN ∨ s = CALC__CPAREN
  · simp [hs] at h
  · exact ⟨fun e => hs (Or.inl e), fun e => hs (Or.inr e)⟩

theorem oper_cases (c : Char) (h : calc__is_oper c = true) :
    c = '(' ∨ c = ')' ∨ c = '+' ∨ c = '-' ∨ c = '*' ∨ c = '/' := by
  simpa [calc__is_oper, or_assoc] using h

theorem step_counts (env : calc__env α) (x : Lexeme α) (hx : x.Proper)
    (out ops out1 ops1 : List (calc__token α))
    (h : stepLexeme env x (out, ops) = some (out1, ops1)) :
    StepCounts [x] out ops out1 ops1 := by
  cases x with
  | number v =>
    simp only [stepLexeme, Option.some.injEq, Prod.mk.injEq] at h
    obtain ⟨rfl, rfl⟩ := h
    refine ⟨?_, ?_, ?_, ?_, ?_⟩
    · simp [List.countP_append, List.countP_cons, Lexeme.isNumber, calc__token.isNumber]
      omega
    · simp [List.countP_append, List.countP_cons, Lexeme.isOperator,
        calc__token.isOperator, CALC__NUMBER, CALC__SUM, CALC__SUBTRACT, CALC__MULTIPLY,
        CALC__DIVIDE]
    · simp [List.countP_append, List.countP_cons, calc__token.isOpen, CALC__NUMBER,
        CALC__OPAREN]
    · simp [Lexeme.isOpen, Lexeme.isClose]
    · intro hall t ht
      simp only [List.mem_append, List.mem_singleton] at ht
      rcases ht with (ht | ht) | ht
      · exact hall t (by simp [ht])
      · subst ht; simp [calc__token.allowed, calc__token.isNumber]
      · exact hall t (by simp [ht])
  | invalid => simp [stepLexeme] at h
  | oper c =>
    simp only [stepLexeme, stepOper] at h
    by_cases hc : c.toNat = CALC__CPAREN
    · have hcc : c = ')' := by
        rcases oper_cases c hx with rfl | rfl | rfl | rfl | rfl | rfl <;>
          first | rfl | (exact absurd hc (by decide))
      subst hcc
      simp only [hc, if_true] at h
      obtain ⟨pend, paren, rest, h1, h2, h3, h4⟩ := drainParen_spec ops out _ h
      simp only [Prod.mk.injEq] at h4
      obtain ⟨rfl, rfl⟩ := h4
      subst h1
      have hpo : paren.isOpen = true := by simp [calc__token.isOpen, h2]
      have hpn : paren.isNumber = false := by
        simp [calc__token.isNumber, h2, CALC__OPAREN, CALC__NUMBER]
      have hpa : paren.isOperator = false := by
        simp [calc__token.isOperator, h2, CALC__OPAREN, CALC__SUM, CALC__SUBTRACT,
          CALC__MULTIPLY, CALC__DIVIDE]
      have hpend : pend.countP calc__token.isOpen = 0 := by
        rw [List.countP_eq_zero]
        intro t ht
        simp [calc__token.isOpen, h3 t ht]
      constructor
      · simp [List.countP_append, List.countP_cons, hpn, Lexeme.isNumber]; omega
      · simp [List.countP_append, List.countP_cons, hpa, Lexeme.isOperator, isArithChar]
        omega
      · simp [List.countP_append, hpend]
      · simp [List.countP_append, List.countP_cons, hpo, hpend, Lexeme.isClose,
          Lexeme.isOpen]
      · intro hall t ht
        apply hall
        simp only [List.mem_append, List.mem_cons] at ht ⊢
        tauto
    · simp only [hc, if_false, Option.some.injEq, Prod.mk.injEq] at h
      obtain ⟨pend, rest, h1, h2, h3⟩ := drainPrec_spec c.toNat ops out
      rw [h3] at h
      obtain ⟨rfl, rfl⟩ := h
      subst h1
      have hpend : pend.countP calc__token.isOpen = 0 := by
        rw [List.countP_eq_zero]
        intro t ht
        simp [calc__token.isOpen, (preceding_not_paren _ _ (h2 t ht)).1]
      have hall : ∀ t ∈ (out ++ pend) ++
          (({ symbol := c.toNat, value := env.zero } : calc__token α) :: rest),
          t ∈ out ++ (pend ++ rest) ∨ t = { symbol := c.toNat, value := env.zero } := by
        intro t ht
        simp only [List.mem_append, List.mem_cons] at ht ⊢
        tauto
      rcases oper_cases c hx with rfl | rfl | rfl | rfl | rfl | rfl
      all_goals first
        | exact absurd rfl hc
        | (constructor
           · simp [List.countP_append, List.countP_cons, calc__token.isNumber,
               Lexeme.isNumber, CALC__NUMBER]
             omega
           · simp [List.countP_append, List.countP_cons, calc__token.isOperator,
               Lexeme.isOperator, isArithChar, CALC__SUM, CALC__SUBTRACT, CALC__MULTIPLY,
               CALC__DIVIDE]
             omega
           · simp [List.countP_append, hpend]
           · simp [List.countP_append, List.countP_cons, calc__token.isOpen, hpend,
               Lexeme.isClose, Lexeme.isOpen, CALC__OPAREN]
           · intro hal t ht
             rcases hall t ht with ht | ht
             · exact hal t ht
             · subst ht
               simp [calc__token.allowed, calc__token.isNumber, calc__token.isOperator,
                 calc__token.isOpen, CALC__NUMBER, CALC__SUM, CALC__SUBTRACT,
                 CALC__MULTIPLY, CALC__DIVIDE, CALC__OPAREN])

theorem StepCounts.refl (out ops : List (calc__token α)) :
    StepCounts ([] : List (Lexeme α)) out ops out ops :=
  ⟨by simp, by simp, rfl, by simp, fun h => h⟩

theorem StepCounts.trans {xs ys : List (Lexeme α)} {out ops out1 ops1 out2 ops2 :
    List (calc__token α)} (h1 : StepCounts xs out ops out1 ops1)
    (h2 : StepCounts ys out1 ops1 out2 ops2) : StepCounts (xs ++ ys) out ops out2 ops2 := by
  refine ⟨?_, ?_, ?_, ?_, fun h => h2.allowed (h1.allowed h)⟩
  · have := h1.number; have := h2.number
    simp only [List.countP_append]; omega
  · have := h1.operator; have := h2.operator
    simp only [List.countP_append]; omega
  · rw [h2.openOut, h1.openOut]
  · have := h1.openOps; have := h2.openOps
    simp only [List.countP_append]; omega

theorem scan_counts (env : calc__env α) (xs : List (Lexeme α)) :
    (∀ x ∈ xs, x.Proper) → ∀ (out ops out1 ops1 : List (calc__token α)),
      scanLexemes env xs (out, ops) = some (out1, ops1) →
      StepCounts xs out ops out1 ops1 := by
  induction xs with
  | nil =>
    intro _ out ops out1 ops1 h
    simp only [scanLexemes, Option.some.injEq, Prod.mk.injEq] at h
    obtain ⟨rfl, rfl⟩ := h
    exact StepCounts.refl out ops
  | cons x xs ih =>
    intro hx out ops out1 ops1 h
    simp only [scanLexemes] at h
    cases hstep : stepLexeme env x (out, ops) with
    | none => rw [hstep] at h; simp at h
    | some st =>
      rw [hstep] at h
      obtain ⟨o, p⟩ := st
      have h1 := step_counts env x (hx x (by simp)) out ops o p hstep
      have h2 := ih (fun y hy => hx y (by simp [hy])) o p out1 ops1 h
      exact h1.trans h2

theorem lexFuel_proper (env : calc__env α) :
    ∀ (fuel : Nat) (s : List Char), ∀ x ∈ lexFuel env fuel s, x.Proper := by
  intro fuel
  induction fuel with
  | zero => intro s x hx; cases s <;> simp [lexFuel] at hx
  | succ fuel ih =>
    intro s x hx
    cases s with
    | nil => simp [lexFuel] at hx
    | cons c cs =>
      simp only [lexFuel] at hx
      by_cases hw : calc__is_whitespace c = true
      · simp only [hw, if_true] at hx
        exact ih _ x hx
      · by_cases hd : calc__is_digit c = true
        · simp [hw, hd] at hx
          rcases hx with hx | hx
          · subst hx; trivial
          · exact ih _ x hx
        · by_cases ho : calc__is_oper c = true
          · simp [hw, hd, ho] at hx
            rcases hx with hx | hx
            · subst hx; exact ho
            · exact ih _ x hx
          · simp [hw, hd, ho] at hx
            subst hx
            trivial

theorem lexemes_proper (env : calc__env α) (s : List Char) :
    ∀ x ∈ lexemes env s, x.Proper :=
  lexFuel_proper env _ s

theorem applyOper_some (env : calc__env α) (symbol : calc__symbol) (l r v : α)
    (h : applyOper env symbol l r = some v) :
    symbol = CALC__SUM ∨ symbol = CALC__SUBTRACT ∨ symbol = CALC__MULTIPLY ∨
      symbol = CALC__DIVIDE := by
  unfold applyOper at h
  split_ifs at h <;> simp_all

theorem eval_counts (env : calc__env α) (toks : List (calc__token α)) :
    ∀ (st st1 : List α), evalPostfix env toks st = some st1 →
      (∀ t ∈ toks, t.isNumber = true ∨ t.isOperator = true) ∧
      st1.length + toks.countP calc__token.isOperator =
        st.length + toks.countP calc__token.isNumber := by
  induction toks with
  | nil =>
    intro st st1 h
    simp only [evalPostfix, Option.some.injEq] at h
    subst h
    simp
  | cons t ts ih =>
    intro st st1 h
    by_cases hn : t.symbol = CALC__NUMBER
    · simp only [evalPostfix, hn, if_true] at h
      obtain ⟨h1, h2⟩ := ih _ _ h
      have hnum : t.isNumber = true := by simp [calc__token.isNumber, hn]
      have hop : t.isOperator = false := by
        simp [calc__token.isOperator, hn, CALC__NUMBER, CALC__SUM, CALC__SUBTRACT,
          CALC__MULTIPLY, CALC__DIVIDE]
      refine ⟨?_, ?_⟩
      · intro u hu
        rcases List.mem_cons.mp hu with rfl | hu
        · exact Or.inl hnum
        · exact h1 u hu
      · simp only [List.countP_cons, hnum, hop, List.length_cons] at h2 ⊢
        simp
        omega
    · simp only [evalPostfix, hn, if_false] at h
      match st, h with
      | right :: left :: st2, h =>
        simp only at h
        cases hap : applyOper env t.symbol left right with
        | none => rw [hap] at h; simp at h
        | some v =>
          rw [hap] at h
          obtain ⟨h1, h2⟩ := ih _ _ h
          have hsym := applyOper_some env _ _ _ _ hap
          have hnum : t.isNumber = false := by simp [calc__token.isNumber, hn]
          have hop : t.isOperator = true := by
            simp only [calc__token.isOperator, Bool.or_eq_true, decide_eq_true_eq]
            tauto
          refine ⟨?_, ?_⟩
          · intro u hu
            rcases List.mem_cons.mp hu with rfl | hu
            · exact Or.inr hop
            · exact h1 u hu
          · simp only [List.countP_cons, hnum, hop, List.length_cons] at h2 ⊢
            simp
            omega

end Counting

/-! ## Claims -/

section Claims

variable {α : Type}

theorem ratEnv_digit_literal (c : Char) (h : calc__is_digit c = true) :
    IsLiteral ratEnv [c] :=
  ratEnv_literal [c] (by simp) (by simpa using h)

theorem ratEnv_digit_value (c : Char) (h : calc__is_digit c = true) :
    (ratEnv.strtod [c]).1 = ((c.toNat - 48 : ℕ) : ℚ) := by
  rw [ratEnv_value [c] (by simp) (by simpa using h)]
  simp [digitsValue]

theorem solve_of_tree (env : calc__env α) (h : calc__heap) (t : Ast) (tail : List Char)
    (old : α) (hwf : t.WellFormed env) (htail : IsBlank tail) :
    ∃ h1, calc_solve env [] h (some (t.render ++ tail)) (some old) =
      some { status := if (t.eval env).isSome then 0 else -1, heap := h1,
             result := some ((t.eval env).getD old) } := by
  obtain ⟨h1, hrun⟩ := solve_refines env h (t.render ++ tail) old
  rw [solveValue_render env t tail hwf htail] at hrun
  exact ⟨h1, hrun⟩

theorem eval_none_of_dividesByZero (env : calc__env α) (t : Ast) :
    t.dividesByZero env = true → t.eval env = none := by
  induction t with
  | lit gap text => intro h; simp [Ast.dividesByZero] at h
  | paren gap e gap2 ih => intro h; exact ih (by simpa [Ast.dividesByZero] using h)
  | bin op l gap r ihl ihr =>
    intro h
    simp only [Ast.dividesByZero, Bool.or_eq_true, Bool.and_eq_true, decide_eq_true_eq] at h
    simp only [Ast.eval]
    rcases h with (h | h) | ⟨hop, h⟩
    · rw [ihl h]
    · rw [ihr h]; cases l.eval env <;> rfl
    · subst hop
      cases hr : r.eval env with
      | none => cases l.eval env <;> rfl
      | some b =>
        rw [hr] at h
        have hb : env.isZero b = true := h
        cases l.eval env with
        | none => rfl
        | some a => simp [BinOp.apply, hb]

/-- C1: for every well-formed infix expression (a sentence of the grammar, with
any white space between tokens and after the last one) whose reference
evaluation never divides by zero, `calc_solve` returns 0 and stores exactly the
value of the reference evaluation (no allocation failing). -/
theorem calc_solve_wellformed (env : calc__env α) (h : calc__heap) (t : Ast)
    (tail : List Char) (old v : α) (hwf : t.WellFormed env) (htail : IsBlank tail)
    (hv : t.eval env = some v) :
    ∃ h1, calc_solve env [] h (some (t.render ++ tail)) (some old) =
      some { status := 0, heap := h1, result := some v } := by
  obtain ⟨h1, hrun⟩ := solve_of_tree env h t tail old hwf htail
  rw [hv] at hrun
  exact ⟨h1, by simpa using hrun⟩

/-- Witness of C1: `(2 - 1) / (1 + 4 * 2 - 5)` gives 0.25 and
`3 + 4 * 2 / (1 - 5)` gives 1. -/
theorem calc_solve_wellformed_witness :
    (∃ h1, calc_solve ratEnv [] emptyHeap (some "(2 - 1) / (1 + 4 * 2 - 5)".toList) (some 0) =
      some { status := 0, heap := h1, result := some (1 / 4) }) ∧
    (∃ h1, calc_solve ratEnv [] emptyHeap (some "3 + 4 * 2 / (1 - 5)".toList) (some 0) =
      some { status := 0, heap := h1, result := some 1 }) :=
  ⟨calc_solve_wellformed ratEnv emptyHeap sampleQuotient [] 0 (1 / 4)
      (by simp [sampleQuotient, digitLit, Ast.WellFormed, Ast.level, BinOp.rank,
            ratEnv_digit_literal, calc__is_digit, IsBlank, calc__is_whitespace])
      (by decide)
      (by
        simp [sampleQuotient, digitLit, Ast.eval, BinOp.apply, ratEnv_digit_value,
          calc__is_digit]
        norm_num [ratEnv]),
    calc_solve_wellformed ratEnv emptyHeap sampleSum [] 0 1
      (by simp [sampleSum, digitLit, Ast.WellFormed, Ast.level, BinOp.rank,
            ratEnv_digit_literal, calc__is_digit, IsBlank, calc__is_whitespace])
      (by decide)
      (by
        simp [sampleSum, digitLit, Ast.eval, BinOp.apply, ratEnv_digit_value,
          calc__is_digit]
        norm_num [ratEnv])⟩

/-- C2: for every well-formed infix expression in which some division's right
operand evaluates to exactly zero, `calc_solve` returns the non-zero status -1
and stores no value. -/
theorem calc_solve_division_by_zero (env : calc__env α) (h : calc__heap) (t : Ast)
    (tail : List Char) (old : α) (hwf : t.WellFormed env) (htail : IsBlank tail)
    (hz : t.dividesByZero env = true) :
    ∃ h1, calc_solve env [] h (some (t.render ++ tail)) (some old) =
      some { status := -1, heap := h1, result := some old } := by
  obtain ⟨h1, hrun⟩ := solve_of_tree env h t tail old hwf htail
  rw [eval_none_of_dividesByZero env t hz] at hrun
  exact ⟨h1, by simpa using hrun⟩

/-- Witness of C2: `5 / 0` and `1 / (2 - 2)` fail. -/
theorem calc_solve_division_by_zero_witness :
    (∃ h1, calc_solve ratEnv [] emptyHeap (some "5 / 0".toList) (some 7) =
      some { status := -1, heap := h1, result := some 7 }) ∧
    (∃ h1, calc_solve ratEnv [] emptyHeap (some "1 / (2 - 2)".toList) (some 7) =
      some { status := -1, heap := h1, result := some 7 }) :=
  ⟨calc_solve_division_by_zero ratEnv emptyHeap
      (.bin .div (digitLit [] '5') [' '] (digitLit [' '] '0')) [] 7
      (by simp [digitLit, Ast.WellFormed, Ast.level, BinOp.rank,
            ratEnv_digit_literal, calc__is_digit, IsBlank, calc__is_whitespace])
      (by decide)
      (by
        simp [digitLit, Ast.dividesByZero, Ast.eval, ratEnv_digit_value, calc__is_digit]
        simp [ratEnv]),
    calc_solve_division_by_zero ratEnv emptyHeap sampleZeroDivisor [] 7
      (by simp [sampleZeroDivisor, digitLit, Ast.WellFormed, Ast.level, BinOp.rank,
            ratEnv_digit_literal, calc__is_digit, IsBlank, calc__is_whitespace])
      (by decide)
      (by
        simp [sampleZeroDivisor, digitLit, Ast.dividesByZero, Ast.eval, BinOp.apply,
          ratEnv_digit_value, calc__is_digit]
        simp [ratEnv])⟩

theorem apply_of_nonzero (env : calc__env α) (op : BinOp) (a b : α)
    (hd : op = BinOp.div → env.isZero b = false) :
    op.apply env a b = some (op.fn env a b) := by
  cases op <;> simp [BinOp.apply, BinOp.fn]
  simpa using hd rfl

theorem solve_value (env : calc__env α) (h : calc__heap) (t : Ast) (s : List Char) (old v : α)
    (hwf : t.WellFormed env) (hs : t.render = s) (hv : t.eval env = some v) :
    ∃ h1, calc_solve env [] h (some s) (some old) =
      some { status := 0, heap := h1, result := some v } := by
  obtain ⟨h1, hrun⟩ := solve_of_tree env h t [] old hwf (by decide)
  rw [List.append_nil, hs, hv] at hrun
  exact ⟨h1, by simpa using hrun⟩

theorem isBlank_space : IsBlank [' '] := by decide

theorem solve_left (env : calc__env α) (h : calc__heap) (a b c : List Char) (o1 o2 : BinOp)
    (old : α) (ha : IsLiteral env a) (hb : IsLiteral env b) (hc : IsLiteral env c)
    (hrank : o2.rank ≤ o1.rank)
    (hd1 : o1 = BinOp.div → env.isZero (literalValue env b) = false)
    (hd2 : o2 = BinOp.div → env.isZero (literalValue env c) = false) :
    ∃ h1, calc_solve env [] h (some (chain3 a o1 b o2 c)) (some old) =
      some { status := 0, heap := h1,
             result := some (o2.fn env (o1.fn env (literalValue env a) (literalValue env b))
               (literalValue env c)) } := by
  apply solve_value env h
    (.bin o2 (.bin o1 (.lit [] a) [' '] (.lit [' '] b)) [' '] (.lit [' '] c))
  · simp only [Ast.WellFormed, Ast.level]
    exact ⟨isBlank_space, ⟨isBlank_space, ⟨by decide, ha⟩, ⟨isBlank_space, hb⟩,
      by cases o1 <;> decide, by cases o1 <;> decide⟩, ⟨isBlank_space, hc⟩, hrank,
      by cases o2 <;> decide⟩
  · simp [Ast.render, chain3]
  · simp only [literalValue] at hd1 hd2 ⊢
    simp only [Ast.eval]
    rw [apply_of_nonzero env o1 _ _ hd1]
    simp only
    rw [apply_of_nonzero env o2 _ _ hd2]

theorem solve_right (env : calc__env α) (h : calc__heap) (a b c : List Char) (o1 o2 : BinOp)
    (old : α) (ha : IsLiteral env a) (hb : IsLiteral env b) (hc : IsLiteral env c)
    (hrank : o1.rank < o2.rank)
    (hd2 : o2 = BinOp.div → env.isZero (literalValue env c) = false)
    (hd1 : o1 = BinOp.div →
      env.isZero (o2.fn env (literalValue env b) (literalValue env c)) = false) :
    ∃ h1, calc_solve env [] h (some (chain3 a o1 b o2 c)) (some old) =
      some { status := 0, heap := h1,
             result := some (o1.fn env (literalValue env a)
               (o2.fn env (literalValue env b) (literalValue env c))) } := by
  apply solve_value env h
    (.bin o1 (.lit [] a) [' '] (.bin o2 (.lit [' '] b) [' '] (.lit [' '] c)))
  · simp only [Ast.WellFormed, Ast.level]
    exact ⟨isBlank_space, ⟨by decide, ha⟩, ⟨isBlank_space, ⟨isBlank_space, hb⟩,
      ⟨isBlank_space, hc⟩, by cases o2 <;> decide, by cases o2 <;> decide⟩,
      by cases o1 <;> decide, hrank⟩
  · simp [Ast.render, chain3]
  · simp only [literalValue] at hd1 hd2 ⊢
    simp only [Ast.eval]
    rw [apply_of_nonzero env o2 _ _ hd2]
    simp only
    rw [apply_of_nonzero env o1 _ _ hd1]

theorem solve_paren_left (env : calc__env α) (h : calc__heap) (a b c : List Char)
    (o1 o2 : BinOp) (old : α) (ha : IsLiteral env a) (hb : IsLiteral env b)
    (hc : IsLiteral env c)
    (hd1 : o1 = BinOp.div → env.isZero (literalValue env b) = false)
    (hd2 : o2 = BinOp.div → env.isZero (literalValue env c) = false) :
    ∃ h1, calc_solve env [] h (some (parenLeft3 a o1 b o2 c)) (some old) =
      some { status := 0, heap := h1,
             result := some (o2.fn env (o1.fn env (literalValue env a) (literalValue env b))
               (literalValue env c)) } := by
  apply solve_value env h
    (.bin o2 (.paren [] (.bin o1 (.lit [] a) [' '] (.lit [' '] b)) []) [' '] (.lit [' '] c))
  · simp only [Ast.WellFormed, Ast.level]
    exact ⟨isBlank_space, ⟨by decide, by decide, isBlank_space, ⟨by decide, ha⟩,
      ⟨isBlank_space, hb⟩, by cases o1 <;> decide, by cases o1 <;> decide⟩,
      ⟨isBlank_space, hc⟩, by cases o2 <;> decide, by cases o2 <;> decide⟩
  · simp [Ast.render, parenLeft3]
  · simp only [literalValue] at hd1 hd2 ⊢
    simp only [Ast.eval]
    rw [apply_of_nonzero env o1 _ _ hd1]
    simp only
    rw [apply_of_nonzero env o2 _ _ hd2]

theorem solve_paren_right (env : calc__env α) (h : calc__heap) (a b c : List Char)
    (o1 o2 : BinOp) (old : α) (ha : IsLiteral env a) (hb : IsLiteral env b)
    (hc : IsLiteral env c)
    (hd1 : o1 = BinOp.div → env.isZero (literalValue env c) = false)
    (hd2 : o2 = BinOp.div →
      env.isZero (o1.fn env (literalValue env b) (literalValue env c)) = false) :
    ∃ h1, calc_solve env [] h (some (parenRight3 a o2 b o1 c)) (some old) =
      some { status := 0, heap := h1,
             result := some (o2.fn env (literalValue env a)
               (o1.fn env (literalValue env b) (literalValue env c))) } := by
  apply solve_value env h
    (.bin o2 (.lit [] a) [' '] (.paren [' '] (.bin o1 (.lit [] b) [' '] (.lit [' '] c)) []))
  · simp only [Ast.WellFormed, Ast.level]
    exact ⟨isBlank_space, ⟨by decide, ha⟩, ⟨isBlank_space, by decide, isBlank_space,
      ⟨by decide, hb⟩, ⟨isBlank_space, hc⟩, by cases o1 <;> decide,
      by cases o1 <;> decide⟩,
      by cases o2 <;> decide, by cases o2 <;> decide⟩
  · simp [Ast.render, parenRight3]
  · simp only [literalValue] at hd1 hd2 ⊢
    simp only [Ast.eval]
    rw [apply_of_nonzero env o1 _ _ hd1]
    simp only
    rw [apply_of_nonzero env o2 _ _ hd2]

theorem ratEnv_literalValue (c : Char) (n : ℕ) (h : calc__is_digit c = true)
    (hn : c.toNat - 48 = n) : literalValue ratEnv [c] = (n : ℚ) := by
  rw [← hn]
  exact ratEnv_digit_value c h

theorem ratEnv_fn (op : BinOp) (x y : ℚ) :
    op.fn ratEnv x y =
      match op with
      | .add => x + y
      | .sub => x - y
      | .mul => x * y
      | .div => x / y := by
  cases op <;> rfl

/-- C3: precedence.  For all number literals `a`, `b`, `c`, every additive
operator `o1` and every multiplicative operator `o2` (with a non-zero divisor),
`calc_solve` on `a o1 b o2 c` succeeds with `a o1 (b o2 c)` and on `a o2 b o1 c`
with `(a o2 b) o1 c`. -/
theorem calc_solve_precedence (env : calc__env α) (h : calc__heap) (a b c : List Char)
    (o1 o2 : BinOp) (old : α) (ha : IsLiteral env a) (hb : IsLiteral env b)
    (hc : IsLiteral env c) (h1 : o1 = BinOp.add ∨ o1 = BinOp.sub)
    (h2 : o2 = BinOp.mul ∨ o2 = BinOp.div)
    (hdc : o2 = BinOp.div → env.isZero (literalValue env c) = false)
    (hdb : o2 = BinOp.div → env.isZero (literalValue env b) = false) :
    (∃ h1, calc_solve env [] h (some (chain3 a o1 b o2 c)) (some old) =
      some { status := 0, heap := h1,
             result := some (o1.fn env (literalValue env a)
               (o2.fn env (literalValue env b) (literalValue env c))) }) ∧
    (∃ h1, calc_solve env [] h (some (chain3 a o2 b o1 c)) (some old) =
      some { status := 0, heap := h1,
             result := some (o1.fn env (o2.fn env (literalValue env a) (literalValue env b))
               (literalValue env c)) }) := by
  have hr1 : o1.rank = 1 := by rcases h1 with rfl | rfl <;> rfl
  have hr2 : o2.rank = 2 := by rcases h2 with rfl | rfl <;> rfl
  have hnd : o1 ≠ BinOp.div := by rcases h1 with rfl | rfl <;> decide
  exact ⟨solve_right env h a b c o1 o2 old ha hb hc (by omega) hdc (fun e => absurd e hnd),
    solve_left env h a b c o2 o1 old ha hb hc (by omega) hdb (fun e => absurd e hnd)⟩

/-- Witness of C3: `2 + 3 * 4` gives 14 and `2 * 3 + 4` gives 10. -/
theorem calc_solve_precedence_witness :
    (∃ h1, calc_solve ratEnv [] emptyHeap (some "2 + 3 * 4".toList) (some 0) =
      some { status := 0, heap := h1, result := some 14 }) ∧
    (∃ h1, calc_solve ratEnv [] emptyHeap (some "2 * 3 + 4".toList) (some 0) =
      some { status := 0, heap := h1, result := some 10 }) := by
  have key := calc_solve_precedence ratEnv emptyHeap ['2'] ['3'] ['4'] BinOp.add BinOp.mul 0
    (ratEnv_digit_literal _ (by decide)) (ratEnv_digit_literal _ (by decide))
    (ratEnv_digit_literal _ (by decide)) (Or.inl rfl) (Or.inl rfl) (by decide) (by decide)
  rw [ratEnv_literalValue '2' 2 (by decide) (by decide),
    ratEnv_literalValue '3' 3 (by decide) (by decide),
    ratEnv_literalValue '4' 4 (by decide) (by decide)] at key
  simp only [ratEnv_fn] at key
  norm_num at key
  exact key


theorem ratEnv_literalValue_digits (ds : List Char) (n : ℕ) (hne : ds ≠ [])
    (hds : ∀ c ∈ ds, calc__is_digit c = true) (hn : digitsValue ds = n) :
    literalValue ratEnv ds = (n : ℚ) := by
  rw [← hn]
  exact ratEnv_value ds hne hds

/-- C4: left associativity.  For all number literals `a`, `b`, `c` and any two
operators `o1`, `o2` of the same rank (divisors non-zero), `calc_solve` on
`a o1 b o2 c` succeeds with `(a o1 b) o2 c`. -/
theorem calc_solve_left_assoc (env : calc__env α) (h : calc__heap) (a b c : List Char)
    (o1 o2 : BinOp) (old : α) (ha : IsLiteral env a) (hb : IsLiteral env b)
    (hc : IsLiteral env c) (hrank : o1.rank = o2.rank)
    (hd1 : o1 = BinOp.div → env.isZero (literalValue env b) = false)
    (hd2 : o2 = BinOp.div → env.isZero (literalValue env c) = false) :
    ∃ h1, calc_solve env [] h (some (chain3 a o1 b o2 c)) (some old) =
      some { status := 0, heap := h1,
             result := some (o2.fn env (o1.fn env (literalValue env a) (literalValue env b))
               (literalValue env c)) } :=
  solve_left env h a b c o1 o2 old ha hb hc (by omega) hd1 hd2

/-- Witness of C4: `10 - 3 - 2` gives 5 (and not 10 - (3 - 2) = 9). -/
theorem calc_solve_left_assoc_witness :
    ∃ h1, calc_solve ratEnv [] emptyHeap (some "10 - 3 - 2".toList) (some 0) =
      some { status := 0, heap := h1, result := some 5 } := by
  have key := calc_solve_left_assoc ratEnv emptyHeap ['1', '0'] ['3'] ['2']
    BinOp.sub BinOp.sub 0
    (ratEnv_literal _ (by simp) (by decide)) (ratEnv_digit_literal _ (by decide))
    (ratEnv_digit_literal _ (by decide)) rfl (by decide) (by decide)
  rw [ratEnv_literalValue_digits ['1', '0'] 10 (by simp) (by decide) (by decide),
    ratEnv_literalValue '3' 3 (by decide) (by decide),
    ratEnv_literalValue '2' 2 (by decide) (by decide)] at key
  simp only [ratEnv_fn] at key
  norm_num at key
  exact key

/-- C5: parentheses override precedence.  For all number literals `a`, `b`, `c`
and all operators `o1`, `o2` (divisors non-zero), `calc_solve` on `(a o1 b) o2 c`
succeeds with `(a o1 b) o2 c` and on `a o2 (b o1 c)` with `a o2 (b o1 c)`. -/
theorem calc_solve_parentheses (env : calc__env α) (h : calc__heap) (a b c : List Char)
    (o1 o2 : BinOp) (old : α) (ha : IsLiteral env a) (hb : IsLiteral env b)
    (hc : IsLiteral env c)
    (hl1 : o1 = BinOp.div → env.isZero (literalValue env b) = false)
    (hl2 : o2 = BinOp.div → env.isZero (literalValue env c) = false)
    (hr1 : o1 = BinOp.div → env.isZero (literalValue env c) = false)
    (hr2 : o2 = BinOp.div →
      env.isZero (o1.fn env (literalValue env b) (literalValue env c)) = false) :
    (∃ h1, calc_solve env [] h (some (parenLeft3 a o1 b o2 c)) (some old) =
      some { status := 0, heap := h1,
             result := some (o2.fn env (o1.fn env (literalValue env a) (literalValue env b))
               (literalValue env c)) }) ∧
    (∃ h1, calc_solve env [] h (some (parenRight3 a o2 b o1 c)) (some old) =
      some { status := 0, heap := h1,
             result := some (o2.fn env (literalValue env a)
               (o1.fn env (literalValue env b) (literalValue env c))) }) :=
  ⟨solve_paren_left env h a b c o1 o2 old ha hb hc hl1 hl2,
    solve_paren_right env h a b c o1 o2 old ha hb hc hr1 hr2⟩

/-- Witness of C5: `(2 + 3) * 4` gives 20 and `10 / (5 - 3)` gives 5. -/
theorem calc_solve_parentheses_witness :
    (∃ h1, calc_solve ratEnv [] emptyHeap (some "(2 + 3) * 4".toList) (some 0) =
      some { status := 0, heap := h1, result := some 20 }) ∧
    (∃ h1, calc_solve ratEnv [] emptyHeap (some "10 / (5 - 3)".toList) (some 0) =
      some { status := 0, heap := h1, result := some 5 }) := by
  have key1 := (calc_solve_parentheses ratEnv emptyHeap ['2'] ['3'] ['4']
    BinOp.add BinOp.mul 0
    (ratEnv_digit_literal _ (by decide)) (ratEnv_digit_literal _ (by decide))
    (ratEnv_digit_literal _ (by decide)) (by decide) (by decide) (by decide) (by decide)).1
  have v5 := ratEnv_literalValue '5' 5 (by decide) (by decide)
  have v3 := ratEnv_literalValue '3' 3 (by decide) (by decide)
  have key2 := (calc_solve_parentheses ratEnv emptyHeap ['1', '0'] ['5'] ['3']
    BinOp.sub BinOp.div 0
    (ratEnv_literal _ (by simp) (by decide)) (ratEnv_digit_literal _ (by decide))
    (ratEnv_digit_literal _ (by decide)) (by decide)
    (by
      intro _
      rw [v3]
      simp [ratEnv])
    (by decide)
    (by
      intro _
      rw [v5, v3]
      simp only [ratEnv_fn]
      norm_num [ratEnv])).2
  rw [ratEnv_literalValue '2' 2 (by decide) (by decide),
    ratEnv_literalValue '3' 3 (by decide) (by decide),
    ratEnv_literalValue '4' 4 (by decide) (by decide)] at key1
  rw [ratEnv_literalValue_digits ['1', '0'] 10 (by simp) (by decide) (by decide), v5, v3]
    at key2
  simp only [ratEnv_fn] at key1 key2
  norm_num at key1 key2
  exact ⟨key1, key2⟩

theorem solve_fail (env : calc__env α) (h : calc__heap) (s : List Char) (old : α)
    (hs : solveValue env s = none) :
    ∃ h1, calc_solve env [] h (some s) (some old) =
      some { status := -1, heap := h1, result := some old } := by
  obtain ⟨h1, hrun⟩ := solve_refines env h s old
  rw [hs] at hrun
  exact ⟨h1, by simpa using hrun⟩

theorem solve_ok (env : calc__env α) (h : calc__heap) (s : List Char) (old v : α)
    (hs : solveValue env s = some v) :
    ∃ h1, calc_solve env [] h (some s) (some old) =
      some { status := 0, heap := h1, result := some v } := by
  obtain ⟨h1, hrun⟩ := solve_refines env h s old
  rw [hs] at hrun
  exact ⟨h1, by simpa using hrun⟩

theorem scan_prefix (env : calc__env α) (xs ys : List (Lexeme α))
    (st st2 : List (calc__token α) × List (calc__token α))
    (h : scanLexemes env (xs ++ ys) st = some st2) :
    ∃ st1, scanLexemes env xs st = some st1 ∧ scanLexemes env ys st1 = some st2 := by
  rw [scanLexemes_append] at h
  cases hx : scanLexemes env xs st with
  | none => rw [hx] at h; simp at h
  | some st1 => rw [hx] at h; exact ⟨st1, rfl, h⟩

/-- When the parser accepts a token sequence, no prefix of it closes more
parentheses than it opens. -/
theorem scan_balanced_prefix (env : calc__env α) (xs : List (Lexeme α))
    (hx : ∀ x ∈ xs, x.Proper) (st : List (calc__token α) × List (calc__token α))
    (h : scanLexemes env xs ([], []) = some st) (n : Nat) :
    (xs.take n).countP Lexeme.isClose ≤ (xs.take n).countP Lexeme.isOpen := by
  rw [← List.take_append_drop n xs] at h
  obtain ⟨⟨o, p⟩, h1, _⟩ := scan_prefix env _ _ _ _ h
  have hc := scan_counts env (xs.take n) (fun x hm => hx x (List.mem_of_mem_take hm))
    [] [] o p h1
  have := hc.openOps
  simp at this
  omega

theorem solveValue_none_of_scan (env : calc__env α) (s : List Char)
    (h : scanLexemes env (lexemes env s) ([], []) = none) : solveValue env s = none := by
  simp [solveValue, postfixOf, h]

/-- What success of `calc_solve` says about the token sequence. -/
theorem solveValue_counts (env : calc__env α) (s : List Char) (v : α)
    (h : solveValue env s = some v) :
    (lexemes env s).countP Lexeme.isNumber = (lexemes env s).countP Lexeme.isOperator + 1 ∧
    (lexemes env s).countP Lexeme.isOpen = (lexemes env s).countP Lexeme.isClose := by
  unfold solveValue postfixOf at h
  cases hscan : scanLexemes env (lexemes env s) ([], []) with
  | none => rw [hscan] at h; simp at h
  | some st =>
    obtain ⟨o, p⟩ := st
    rw [hscan] at h
    simp only [Option.map_some'] at h
    have hc := scan_counts env _ (lexemes_proper env s) [] [] o p hscan
    unfold valueOf at h
    cases hev : evalPostfix env (o ++ p) [] with
    | none => rw [hev] at h; simp at h
    | some st1 =>
      rw [hev] at h
      obtain ⟨hall, hlen⟩ := eval_counts env (o ++ p) [] st1 hev
      have hst : st1.length = 1 := by
        match st1, h with
        | [_], _ => rfl
      have hopen : (o ++ p).countP calc__token.isOpen = 0 := by
        rw [List.countP_eq_zero]
        intro t ht
        rcases hall t ht with hn | ho
        · simp only [calc__token.isNumber, decide_eq_true_eq] at hn
          simp [calc__token.isOpen, hn, CALC__NUMBER, CALC__OPAREN]
        · simp only [calc__token.isOperator, Bool.or_eq_true, decide_eq_true_eq] at ho
          rcases ho with ((ho | ho) | ho) | ho <;>
            simp [calc__token.isOpen, ho, CALC__SUM, CALC__SUBTRACT, CALC__MULTIPLY,
              CALC__DIVIDE, CALC__OPAREN]
      have h1 := hc.number
      have h2 := hc.operator
      have h3 := hc.openOps
      simp only [List.countP_append, List.countP_nil, List.length_nil] at h1 h2 h3 hlen hopen
      constructor <;> omega


theorem solve_fail_of_counts (env : calc__env α) (h : calc__heap) (s : List Char) (old : α)
    (hne : (lexemes env s).countP Lexeme.isNumber ≠
      (lexemes env s).countP Lexeme.isOperator + 1) :
    ∃ h1, calc_solve env [] h (some s) (some old) =
      some { status := -1, heap := h1, result := some old } := by
  apply solve_fail
  cases hv : solveValue env s with
  | none => rfl
  | some v => exact absurd (solveValue_counts env s v hv).1 hne

theorem scan_invalid (env : calc__env α) (xs : List (Lexeme α)) :
    ∀ st : List (calc__token α) × List (calc__token α),
      xs.any Lexeme.isInvalid = true → scanLexemes env xs st = none := by
  induction xs with
  | nil => intro st h; simp at h
  | cons x xs ih =>
    intro st h
    simp only [scanLexemes]
    cases hstep : stepLexeme env x st with
    | none => rfl
    | some st1 =>
      simp only
      apply ih
      cases x with
      | invalid => simp [stepLexeme] at hstep
      | number v => simpa [Lexeme.isInvalid] using h
      | oper c => simpa [Lexeme.isInvalid] using h

theorem tree_counts (env : calc__env α) (t : Ast) :
    (t.lexemes env).countP Lexeme.isNumber = (t.lexemes env).countP Lexeme.isOperator + 1 := by
  induction t with
  | lit gap text => simp [Ast.lexemes, Lexeme.isNumber, Lexeme.isOperator]
  | paren gap e gap2 ih =>
    simp [Ast.lexemes, List.countP_cons, List.countP_append, Lexeme.isNumber,
      Lexeme.isOperator, isArithChar, ih]
  | bin op l gap r ihl ihr =>
    have hop : isArithChar op.char = true := by cases op <;> decide
    simp [Ast.lexemes, List.countP_cons, List.countP_append, Lexeme.isNumber,
      Lexeme.isOperator, hop, ihl, ihr]
    omega

theorem arith_char_class (c : Char) (h : isArithChar c = true) :
    calc__is_whitespace c = false ∧ calc__is_digit c = false ∧ calc__is_oper c = true := by
  have hc : c = '+' ∨ c = '-' ∨ c = '*' ∨ c = '/' := by
    simpa [isArithChar, or_assoc] using h
  rcases hc with rfl | rfl | rfl | rfl <;> decide

theorem lexemes_run (env : calc__env α) (rest : List Char)
    (h : ∀ c ∈ rest, calc__is_whitespace c = true ∨ isArithChar c = true) :
    (lexemes env rest).countP Lexeme.isNumber = 0 ∧
      (lexemes env rest).countP Lexeme.isOperator = rest.countP isArithChar := by
  induction rest with
  | nil => simp [lexemes_nil]
  | cons c cs ih =>
    obtain ⟨ih1, ih2⟩ := ih (fun d hd => h d (by simp [hd]))
    by_cases ha : isArithChar c = true
    · obtain ⟨hw, hd, ho⟩ := arith_char_class c ha
      rw [lexemes_oper env c cs hw hd ho]
      simp [List.countP_cons, Lexeme.isNumber, Lexeme.isOperator, ha, ih1, ih2]
    · have hw : calc__is_whitespace c = true := by
        rcases h c (by simp) with hw | hw
        · exact hw
        · exact absurd hw ha
      rw [lexemes_whitespace env c cs hw]
      simp [List.countP_cons, ha, ih1, ih2]

/-- C6: for every expression in which some prefix of the token sequence holds
more `)` than `(`, `calc_solve` returns the non-zero status -1. -/
theorem calc_solve_unmatched_close (env : calc__env α) (h : calc__heap) (s : List Char)
    (old : α) (n : Nat)
    (hn : ((lexemes env s).take n).countP Lexeme.isOpen <
      ((lexemes env s).take n).countP Lexeme.isClose) :
    ∃ h1, calc_solve env [] h (some s) (some old) =
      some { status := -1, heap := h1, result := some old } := by
  apply solve_fail
  apply solveValue_none_of_scan
  cases hscan : scanLexemes env (lexemes env s) ([], []) with
  | none => rfl
  | some st =>
    have := scan_balanced_prefix env _ (lexemes_proper env s) st hscan n
    omega

/-- Witness of C6: `)1+2(` fails. -/
theorem calc_solve_unmatched_close_witness :
    ∃ h1, calc_solve ratEnv [] emptyHeap (some ")1+2(".toList) (some 7) =
      some { status := -1, heap := h1, result := some 7 } :=
  calc_solve_unmatched_close ratEnv emptyHeap ")1+2(".toList 7 1 (by decide)


theorem operatorRun_spec (rest : List Char) (h : operatorRun rest = true) :
    (∀ c ∈ rest, calc__is_whitespace c = true ∨ isArithChar c = true) ∧
      0 < rest.countP isArithChar ∧ atBoundary rest = true := by
  simp only [operatorRun, Bool.and_eq_true, List.all_eq_true, Bool.or_eq_true,
    List.any_eq_true] at h
  obtain ⟨hall, c, hc, ha⟩ := h
  refine ⟨hall, List.countP_pos_iff.mpr ⟨c, hc, ha⟩, ?_⟩
  cases rest with
  | nil => rfl
  | cons d ds =>
    rcases hall d (by simp) with hd | hd
    · simp [atBoundary, hd]
    · simp [atBoundary, (arith_char_class d hd).2.2]

/-- C7 (as amended): a well-formed infix expression followed by one or more of
the operators `+ - * /` (white space anywhere between) is rejected: `calc_solve`
returns the non-zero status -1. -/
theorem calc_solve_trailing_operator (env : calc__env α) (h : calc__heap) (t : Ast)
    (rest : List Char) (old : α) (hwf : t.WellFormed env)
    (hrest : operatorRun rest = true) :
    ∃ h1, calc_solve env [] h (some (t.render ++ rest)) (some old) =
      some { status := -1, heap := h1, result := some old } := by
  obtain ⟨hall, hpos, hb⟩ := operatorRun_spec rest hrest
  obtain ⟨h1, h2⟩ := lexemes_run env rest hall
  apply solve_fail_of_counts
  rw [lexemes_render env t hwf rest hb]
  have := tree_counts env t
  simp only [List.countP_append, h1, h2]
  omega

/-- Witness of C7 (as amended): `3 *` and `2 + +` fail. -/
theorem calc_solve_trailing_operator_witness :
    (∃ h1, calc_solve ratEnv [] emptyHeap (some "3 *".toList) (some 7) =
      some { status := -1, heap := h1, result := some 7 }) ∧
    (∃ h1, calc_solve ratEnv [] emptyHeap (some "2 + +".toList) (some 7) =
      some { status := -1, heap := h1, result := some 7 }) :=
  ⟨calc_solve_trailing_operator ratEnv emptyHeap (digitLit [] '3') " *".toList 7
      ⟨by decide, ratEnv_digit_literal _ (by decide)⟩ (by decide),
    calc_solve_trailing_operator ratEnv emptyHeap (digitLit [] '2') " + +".toList 7
      ⟨by decide, ratEnv_digit_literal _ (by decide)⟩ (by decide)⟩

/-- C7 as stated fails: the last token of `1 2 +` is the operator `+`, and
`calc_solve` returns 0 on it. -/
theorem trailing_operator_accepted :
    (lexemes ratEnv "1 2 +".toList).getLast?.map Lexeme.isOperator = some true ∧
    (calc_solve ratEnv [] emptyHeap (some "1 2 +".toList) (some 0)).map (fun r => r.status)
      = some 0 := by
  decide


/-- The operand count on the runs in which no allocation fails: if `calc_solve`
then returns 0 on an expression, the expression has one more numeric literal
than it has operators `+ - * /`; the empty or white-space-only string, two
literals without an operator (`1 2`), `+ +`, and a well-formed expression with
a sign in front (`-5 + 3`) are all rejected. -/
theorem calc_solve_operand_count (env : calc__env α) (h : calc__heap) (old : α) :
    (∀ s : List Char, ∃ r, calc_solve env [] h (some s) (some old) = some r ∧
      (r.status = 0 →
        (lexemes env s).countP Lexeme.isNumber =
          (lexemes env s).countP Lexeme.isOperator + 1)) ∧
    (∀ gap : List Char, IsBlank gap →
      ∃ h1, calc_solve env [] h (some gap) (some old) =
        some { status := -1, heap := h1, result := some old }) ∧
    (∀ a b : List Char, IsLiteral env a → IsLiteral env b →
      ∃ h1, calc_solve env [] h (some (a ++ ' ' :: b)) (some old) =
        some { status := -1, heap := h1, result := some old }) ∧
    (∃ h1, calc_solve env [] h (some ['+', ' ', '+']) (some old) =
        some { status := -1, heap := h1, result := some old }) ∧
    (∀ (gap : List Char) (sign : Char) (t : Ast) (tail : List Char),
      IsBlank gap → (sign = '+' ∨ sign = '-') → t.WellFormed env → IsBlank tail →
      ∃ h1, calc_solve env [] h (some (gap ++ sign :: (t.render ++ tail))) (some old) =
        some { status := -1, heap := h1, result := some old }) := by
  refine ⟨?_, ?_, ?_, ?_, ?_⟩
  · intro s
    obtain ⟨h1, hrun⟩ := solve_refines env h s old
    refine ⟨_, hrun, ?_⟩
    intro hst
    cases hv : solveValue env s with
    | none => rw [hv] at hst; simp at hst
    | some v => exact (solveValue_counts env s v hv).1
  · intro gap hg
    apply solve_fail_of_counts
    have := lexemes_blank env gap [] hg
    rw [List.append_nil, lexemes_nil] at this
    simp [this]
  · intro a b ha hb
    apply solve_fail_of_counts
    rw [lexemes_literal env a _ ha (by simp [atBoundary, calc__is_whitespace]),
      lexemes_whitespace env ' ' b (by decide)]
    have := lexemes_literal env b [] hb rfl
    rw [List.append_nil, lexemes_nil] at this
    simp [this, List.countP_cons, Lexeme.isNumber, Lexeme.isOperator]
  · apply solve_fail_of_counts
    rw [lexemes_oper env '+' _ (by decide) (by decide) (by decide),
      lexemes_whitespace env ' ' _ (by decide),
      lexemes_oper env '+' _ (by decide) (by decide) (by decide), lexemes_nil]
    simp [List.countP_cons, Lexeme.isNumber, Lexeme.isOperator, isArithChar]
  · intro gap sign t tail hg hsign hwf htail
    apply solve_fail_of_counts
    have hs : isArithChar sign = true := by rcases hsign with rfl | rfl <;> decide
    obtain ⟨hw, hd, ho⟩ := arith_char_class sign hs
    rw [lexemes_blank_oper env gap _ sign hg hw hd ho,
      lexemes_render env t hwf tail (atBoundary_blank tail htail)]
    have ht : lexemes env tail = [] := by
      have := lexemes_blank env tail [] htail
      rwa [List.append_nil, lexemes_nil] at this
    have := tree_counts env t
    simp only [ht, List.append_nil, List.countP_cons, Lexeme.isNumber, Lexeme.isOperator, hs]
    simp
    omega

/-- Instances in the rational environment, no allocation failing:
the empty string, `1 2`, `+ +` and `-5 + 3` are rejected. -/
theorem calc_solve_operand_count_witness :
    (∃ h1, calc_solve ratEnv [] emptyHeap (some "".toList) (some 7) =
        some { status := -1, heap := h1, result := some 7 }) ∧
    (∃ h1, calc_solve ratEnv [] emptyHeap (some "1 2".toList) (some 7) =
        some { status := -1, heap := h1, result := some 7 }) ∧
    (∃ h1, calc_solve ratEnv [] emptyHeap (some "+ +".toList) (some 7) =
        some { status := -1, heap := h1, result := some 7 }) ∧
    (∃ h1, calc_solve ratEnv [] emptyHeap (some "-5 + 3".toList) (some 7) =
        some { status := -1, heap := h1, result := some 7 }) :=
  ⟨(calc_solve_operand_count ratEnv emptyHeap 7).2.1 [] (by decide),
    (calc_solve_operand_count ratEnv emptyHeap 7).2.2.1 ['1'] ['2']
      (ratEnv_digit_literal _ (by decide)) (ratEnv_digit_literal _ (by decide)),
    (calc_solve_operand_count ratEnv emptyHeap 7).2.2.2.1,
    (calc_solve_operand_count ratEnv emptyHeap 7).2.2.2.2 [] '-'
      (.bin .add (digitLit [] '5') [' '] (digitLit [' '] '3')) [] (by decide) (Or.inr rfl)
      (by simp [digitLit, Ast.WellFormed, Ast.level, BinOp.rank, ratEnv_digit_literal,
            calc__is_digit, IsBlank, calc__is_whitespace])
      (by decide)⟩

theorem lexemes_invalid_any (env : calc__env α) (s : List Char) (old : α) (h : calc__heap)
    (hinv : (lexemes env s).any Lexeme.isInvalid = true) :
    ∃ h1, calc_solve env [] h (some s) (some old) =
      some { status := -1, heap := h1, result := some old } :=
  solve_fail env h s old (solveValue_none_of_scan env s (scan_invalid env _ _ hinv))

theorem oper_char_class (c : Char) (h : calc__is_oper c = true) :
    calc__is_whitespace c = false ∧ calc__is_digit c = false := by
  rcases oper_cases c h with rfl | rfl | rfl | rfl | rfl | rfl <;> decide

theorem lexemes_layout (env : calc__env α) (ps : List (List Char × Piece)) (rest : List Char) :
    LayoutValid env ps rest →
      lexemes env (layout ps rest) = ps.map (fun gp => gp.2.lexeme env) ++ lexemes env rest := by
  induction ps with
  | nil => intro _; rfl
  | cons gp ps ih =>
    obtain ⟨gap, p⟩ := gp
    cases p with
    | literal text =>
      intro hv
      obtain ⟨hg, hl, hb, hrest⟩ := hv
      have e1 : layout ((gap, Piece.literal text) :: ps) rest =
          gap ++ (text ++ layout ps rest) := rfl
      rw [e1, lexemes_blank env gap _ hg, lexemes_literal env text _ hl hb, ih hrest]
      rfl
    | symbol c =>
      intro hv
      obtain ⟨hg, hc, hrest⟩ := hv
      obtain ⟨hw, hd⟩ := oper_char_class c hc
      have e1 : layout ((gap, Piece.symbol c) :: ps) rest = gap ++ c :: layout ps rest := rfl
      rw [e1, lexemes_blank_oper env gap _ c hg hw hd hc, ih hrest]
      rfl

theorem solveValue_congr (env : calc__env α) (s s2 : List Char)
    (h : lexemes env s = lexemes env s2) : solveValue env s = solveValue env s2 := by
  simp [solveValue, postfixOf, h]

/-- C9 (as amended): white space between tokens does not matter.  Two
expressions that consist of the same tokens (number literals and the characters
`( ) + - * /`), each literal followed by a token boundary, and of the same
remainder, and that differ only in the runs of space, tab and newline in front
of the tokens and of the remainder, get the same status and the same result. -/
theorem calc_solve_whitespace (env : calc__env α) (h : calc__heap) (old : α)
    (ps ps2 : List (List Char × Piece)) (g g2 junk : List Char)
    (hp : ps.map Prod.snd = ps2.map Prod.snd)
    (hv : LayoutValid env ps (g ++ junk)) (hv2 : LayoutValid env ps2 (g2 ++ junk))
    (hg : IsBlank g) (hg2 : IsBlank g2) :
    ∃ status result h1 h2,
      calc_solve env [] h (some (layout ps (g ++ junk))) (some old) =
        some { status := status, heap := h1, result := result } ∧
      calc_solve env [] h (some (layout ps2 (g2 ++ junk))) (some old) =
        some { status := status, heap := h2, result := result } := by
  have hlex : lexemes env (layout ps (g ++ junk)) = lexemes env (layout ps2 (g2 ++ junk)) := by
    rw [lexemes_layout env ps _ hv, lexemes_layout env ps2 _ hv2,
      lexemes_blank env g junk hg, lexemes_blank env g2 junk hg2]
    have : ps.map (fun gp => gp.2.lexeme env) = ps2.map (fun gp => gp.2.lexeme env) := by
      have := congrArg (List.map (Piece.lexeme env)) hp
      simpa [List.map_map, Function.comp] using this
    rw [this]
  obtain ⟨h1, hrun1⟩ := solve_refines env h (layout ps (g ++ junk)) old
  obtain ⟨h2, hrun2⟩ := solve_refines env h (layout ps2 (g2 ++ junk)) old
  rw [solveValue_congr env _ _ hlex] at hrun1
  exact ⟨_, _, h1, h2, hrun1, hrun2⟩

/-- Witness of C9 (as amended): `1+2` and ` 1 + 2 `. -/
theorem calc_solve_whitespace_witness :
    ∃ status result h1 h2,
      calc_solve ratEnv [] emptyHeap (some "1+2".toList) (some 0) =
        some { status := status, heap := h1, result := result } ∧
      calc_solve ratEnv [] emptyHeap (some " 1 + 2 ".toList) (some 0) =
        some { status := status, heap := h2, result := result } :=
  calc_solve_whitespace ratEnv emptyHeap 0
    [([], .literal ['1']), ([], .symbol '+'), ([], .literal ['2'])]
    [([' '], .literal ['1']), ([' '], .symbol '+'), ([' '], .literal ['2'])]
    [] [' '] [] rfl
    ⟨by decide, ratEnv_digit_literal _ (by decide), by decide, by decide, by decide,
      by decide, ratEnv_digit_literal _ (by decide), by decide, trivial⟩
    ⟨by decide, ratEnv_digit_literal _ (by decide), by decide, by decide, by decide,
      by decide, ratEnv_digit_literal _ (by decide), by decide, trivial⟩
    (by decide) (by decide)

/-- C9 as stated fails: inserting a space in front of the `+` of `1e+5` turns
an accepted expression into a rejected one. -/
theorem whitespace_before_sign :
    (calc_solve ratEnv [] emptyHeap (some "1e+5".toList) (some 0)).map (fun r => r.status)
      = some 0 ∧
    (calc_solve ratEnv [] emptyHeap (some "1e +5".toList) (some 0)).map (fun r => r.status)
      = some (-1) := by
  decide

theorem pop_count (s s1 : calc__stack α) (tok : calc__token α)
    (h : calc__stack_pop s = (0, s1, some tok)) : s1.count = s.count - 1 ∧ 0 < s.count := by
  unfold calc__stack_pop at h
  by_cases hc : s.count = 0
  · simp [hc] at h
  · simp only [hc, if_false] at h
    cases hg : s.cells.get? (s.count - 1) with
    | none => rw [hg] at h; simp at h
    | some t =>
      rw [hg] at h
      simp only [Prod.mk.injEq, true_and] at h
      obtain ⟨h1, _⟩ := h
      subst h1
      exact ⟨rfl, Nat.pos_of_ne_zero hc⟩

theorem parse_flush_total (oom : List Nat) :
    ∀ (fuel : Nat) (h : calc__heap) (input opers : calc__stack α), opers.count ≤ fuel →
      ∃ r, calc__parse_flush oom fuel h input opers = some r := by
  intro fuel
  induction fuel with
  | zero =>
    intro h input opers hc
    have : opers.count = 0 := by omega
    simp [calc__parse_flush, this]
  | succ fuel ih =>
    intro h input opers hc
    unfold calc__parse_flush
    split
    · split
      · rename_i heq
        dsimp only
        split
        · exact ⟨_, rfl⟩
        · exact ih _ _ _ (by have := (pop_count _ _ _ heq).1; omega)
      · exact ⟨_, rfl⟩
    · exact ⟨_, rfl⟩

theorem drain_paren_loop_total (oom : List Nat) :
    ∀ (fuel : Nat) (h : calc__heap) (input opers : calc__stack α), opers.count ≤ fuel →
      ∃ r, calc__drain_paren_loop oom fuel h input opers = some r := by
  intro fuel
  induction fuel with
  | zero =>
    intro h input opers hc
    have : opers.count = 0 := by omega
    simp [calc__drain_paren_loop, this]
  | succ fuel ih =>
    intro h input opers hc
    unfold calc__drain_paren_loop
    split
    · split
      · rename_i heq
        split
        · exact ⟨_, rfl⟩
        · dsimp only
          split
          · exact ⟨_, rfl⟩
          · exact ih _ _ _ (by have := (pop_count _ _ _ heq).1; omega)
      · exact ⟨_, rfl⟩
    · exact ⟨_, rfl⟩

theorem drain_preceding_opers_loop_total (oom : List Nat) (symbol : calc__symbol) :
    ∀ (fuel : Nat) (h : calc__heap) (input opers : calc__stack α), opers.count ≤ fuel →
      ∃ r, calc__drain_preceding_opers_loop oom symbol fuel h input opers = some r := by
  intro fuel
  induction fuel with
  | zero =>
    intro h input opers hc
    have : opers.count = 0 := by omega
    simp [calc__drain_preceding_opers_loop, calc__drain_preceding_opers_cond, this]
  | succ fuel ih =>
    intro h input opers hc
    unfold calc__drain_preceding_opers_loop
    split
    · split
      · rename_i heq
        dsimp only
        split
        · exact ⟨_, rfl⟩
        · exact ih _ _ _ (by have := (pop_count _ _ _ heq).1; omega)
      · exact ⟨_, rfl⟩
    · exact ⟨_, rfl⟩

theorem parse_oper_total (env : calc__env α) (oom : List Nat) (symbol : calc__symbol)
    (h : calc__heap) (input opers : calc__stack α) :
    ∃ r, calc__parse_oper env oom symbol h input opers = some r := by
  unfold calc__parse_oper
  split
  · obtain ⟨r, hr⟩ := drain_paren_loop_total oom opers.count h input opers (Nat.le_refl _)
    simp only [calc__drain_paren, hr]
    split <;> exact ⟨_, rfl⟩
  · have : ∃ r, calc__drain_preceding_opers oom symbol h input opers = some r := by
      unfold calc__drain_preceding_opers
      split
      · exact ⟨_, rfl⟩
      · exact drain_preceding_opers_loop_total oom symbol _ h input opers (Nat.le_refl _)
    obtain ⟨r, hr⟩ := this
    simp only [hr]
    split
    · exact ⟨_, rfl⟩
    · split <;> exact ⟨_, rfl⟩

theorem parse_scan_total (env : calc__env α) (oom : List Nat) :
    ∀ (fuel : Nat) (s : List Char) (h : calc__heap) (input opers : calc__stack α),
      s.length < fuel → ∃ r, calc__parse_scan env oom fuel s h input opers = some r := by
  intro fuel
  induction fuel with
  | zero => intro s _ _ _ hlt; simp at hlt
  | succ fuel ih =>
    intro s h input opers hlt
    cases s with
    | nil => exact ⟨_, rfl⟩
    | cons c cs =>
      have hlt1 : cs.length < fuel := by simpa using hlt
      unfold calc__parse_scan
      split
      · exact ih _ _ _ _ hlt1
      · split
        · rename_i hd
          dsimp only
          split
          · exact ⟨_, rfl⟩
          · apply ih
            simp only [calc__parse_number]
            split <;> exact Nat.lt_of_le_of_lt (length_drop_strtod env c cs hd) hlt1
        · split
          · obtain ⟨r, hr⟩ := parse_oper_total env oom c.toNat h input opers
            rw [hr]
            simp only
            split
            · exact ⟨_, rfl⟩
            · exact ih _ _ _ _ hlt1
          · exact ⟨_, rfl⟩

theorem parse_total (env : calc__env α) (oom : List Nat) (h : calc__heap) (s : List Char)
    (input : calc__stack α) :
    ∃ r, calc__parse env oom h s input = some r ∧ (r.1 = 0 ∨ r.1 = -1) := by
  unfold calc__parse
  split
  · rename_i h1 opers _
    obtain ⟨r, hr⟩ := parse_scan_total env oom (s.length + 1) s h1 input opers
      (Nat.lt_succ_self _)
    rw [hr]
    obtain ⟨ex, h2, input2, opers2⟩ := r
    cases ex with
    | invalid => exact ⟨_, rfl, Or.inr rfl⟩
    | fault => exact ⟨_, rfl, Or.inr rfl⟩
    | finished =>
      obtain ⟨r2, hr2⟩ := parse_flush_total oom opers2.count h2 input2 opers2 (Nat.le_refl _)
      simp only [hr2]
      split
      · rename_i heq; simp at heq
      · exact ⟨_, rfl, Or.inl rfl⟩
      · exact ⟨_, rfl, Or.inr rfl⟩
  · exact ⟨_, rfl, Or.inr rfl⟩

theorem evaluate_status (env : calc__env α) (oom : List Nat) (h : calc__heap)
    (input : calc__stack α) :
    (calc__evaluate env oom h input).1 = 0 ∨
      ((calc__evaluate env oom h input).1 = -1 ∧
        (calc__evaluate env oom h input).2.2 = none) := by
  unfold calc__evaluate
  split
  · split
    · split
      · exact Or.inr ⟨rfl, rfl⟩
      · split
        · exact Or.inl rfl
        · exact Or.inr ⟨rfl, rfl⟩
    · exact Or.inr ⟨rfl, rfl⟩
  · exact Or.inr ⟨rfl, rfl⟩

/-- What `calc_solve` returns on non-null arguments, whatever allocations fail:
status 0 or -1, and the caller's `double` unchanged unless the status is 0. -/
theorem solve_total (env : calc__env α) (oom : List Nat) (h : calc__heap) (s : List Char)
    (old : α) :
    ∃ r, calc_solve env oom h (some s) (some old) = some r ∧
      (r.status = 0 ∨ (r.status = -1 ∧ r.result = some old)) := by
  unfold calc_solve
  simp only
  split
  · rename_i h1 input _
    obtain ⟨r, hr, _⟩ := parse_total env oom h1 s input
    rw [hr]
    obtain ⟨st, h2, input2⟩ := r
    split
    · rename_i heq; simp at heq
    · rename_i h2a input2a heq
      have hst := evaluate_status env oom h2a input2a
      rcases hev : calc__evaluate env oom h2a input2a with ⟨st3, h3, w⟩
      rw [hev] at hst
      simp only at hst
      rcases hst with h0 | ⟨h1, hw⟩
      · subst h0; exact ⟨_, rfl, Or.inl rfl⟩
      · subst h1; subst hw; exact ⟨_, rfl, Or.inr ⟨rfl, rfl⟩⟩
    · exact ⟨_, rfl, Or.inr ⟨rfl, rfl⟩⟩
  · exact ⟨_, rfl, Or.inr ⟨rfl, rfl⟩⟩


/-- C10: `calc_solve` returns the status 1 exactly when the expression argument
or the result argument is null, and then nothing is allocated, parsed or
written; every other outcome has status 0 or -1.  This holds whatever
allocations fail. -/
theorem calc_solve_null_arguments (env : calc__env α) (oom : List Nat) (h : calc__heap)
    (expression : Option (List Char)) (result : Option α) :
    ∃ r, calc_solve env oom h expression result = some r ∧
      (r.status = 1 ↔ (expression = none ∨ result = none)) ∧
      (r.status = 1 → r.heap = h ∧ r.result = result) ∧
      (r.status = 0 ∨ r.status = -1 ∨ r.status = 1) := by
  cases expression with
  | none =>
    refine ⟨{ status := 1, heap := h, result := result }, ?_, by simp, by simp, by simp⟩
    cases result <;> rfl
  | some s =>
    cases result with
    | none => exact ⟨{ status := 1, heap := h, result := none }, rfl, by simp, by simp, by simp⟩
    | some old =>
      obtain ⟨r, hr, hst⟩ := solve_total env oom h s old
      refine ⟨r, hr, ?_, ?_, ?_⟩
      · rcases hst with h0 | ⟨h1, _⟩
        · simp [h0]
        · simp [h1]
      · intro h1
        rcases hst with h0 | ⟨h2, _⟩
        · rw [h0] at h1; simp at h1
        · rw [h2] at h1; simp at h1
      · rcases hst with h0 | ⟨h1, _⟩
        · exact Or.inl h0
        · exact Or.inr (Or.inl h1)

/-- C14: on every failure `calc_solve` leaves the caller's result variable as
it was; `*result` is written only on the path that returns 0.  This holds
whatever allocations fail. -/
theorem calc_solve_result_frame (env : calc__env α) (oom : List Nat) (h : calc__heap)
    (expression : Option (List Char)) (result : Option α) :
    ∃ r, calc_solve env oom h expression result = some r ∧
      (r.status ≠ 0 → r.result = result) := by
  cases expression with
  | none =>
    refine ⟨{ status := 1, heap := h, result := result }, ?_, fun _ => rfl⟩
    cases result <;> rfl
  | some s =>
    cases result with
    | none => exact ⟨{ status := 1, heap := h, result := none }, rfl, fun _ => rfl⟩
    | some old =>
      obtain ⟨r, hr, hst⟩ := solve_total env oom h s old
      refine ⟨r, hr, ?_⟩
      intro hne
      rcases hst with h0 | ⟨_, h2⟩
      · exact absurd h0 hne
      · exact h2

/-- C12: for every expression in which the scan cursor reaches a character that
is not white space, a digit or one of `( ) + - * /`, `calc_solve` returns the
non-zero status -1. -/
theorem calc_solve_invalid_character (env : calc__env α) (h : calc__heap) (s : List Char)
    (old : α) (hinv : (lexemes env s).any Lexeme.isInvalid = true) :
    ∃ h1, calc_solve env [] h (some s) (some old) =
      some { status := -1, heap := h1, result := some old } :=
  lexemes_invalid_any env s old h hinv

/-- Witness of C12: `.5` and `2 + x` are rejected. -/
theorem calc_solve_invalid_character_witness :
    (∃ h1, calc_solve ratEnv [] emptyHeap (some ".5".toList) (some 7) =
      some { status := -1, heap := h1, result := some 7 }) ∧
    (∃ h1, calc_solve ratEnv [] emptyHeap (some "2 + x".toList) (some 7) =
      some { status := -1, heap := h1, result := some 7 }) :=
  ⟨calc_solve_invalid_character ratEnv emptyHeap ".5".toList 7 (by decide),
    calc_solve_invalid_character ratEnv emptyHeap "2 + x".toList 7 (by decide)⟩

theorem push_success (oom : List Nat) (h : calc__heap) (s : calc__stack α)
    (t : calc__token α) (hpush : (calc__stack_push oom h s t).1 = 0) :
    (calc__stack_push oom h s t).2.2.count = s.count + 1 ∧
      (calc__stack_push oom h s t).2.2.cells = writeCell s.cells s.count t := by
  unfold calc__stack_push at hpush ⊢
  by_cases hc : s.count ≥ s.capacity
  · simp only [hc, if_true] at hpush ⊢
    unfold calc__stack_grow at hpush ⊢
    dsimp only at hpush ⊢
    cases hr : realloc oom h s.tokens (s.capacity * 2 * calc__token_size) with
    | mk p h1 =>
      cases p with
      | none => rw [hr] at hpush; simp at hpush
      | some q => simp
  · simp [hc]

theorem keeps_empty (input : calc__stack α) (hin : input.count = 0) : Keeps input [] :=
  ⟨by simp [Filled, hin], by simp [contents, hin]⟩

theorem keeps_push {s : calc__stack α} {l : List (calc__token α)} (hs : Keeps s l)
    (oom : List Nat) (h : calc__heap) (t : calc__token α)
    (hpush : (calc__stack_push oom h s t).1 = 0) :
    Keeps (calc__stack_push oom h s t).2.2 (l ++ [t]) := by
  obtain ⟨hcount, hcells⟩ := push_success oom h s t hpush
  have hf : s.count ≤ s.cells.length := hs.filled
  have hc : s.cells.take s.count = l := hs.eq
  refine ⟨?_, ?_⟩
  · simp only [Filled, hcount, hcells, writeCell]
    split <;> simp <;> omega
  · simp only [contents, hcount, hcells, take_writeCell _ _ _ hf, hc]

theorem keeps_count {s : calc__stack α} {l : List (calc__token α)} (hs : Keeps s l) :
    s.count = l.length := by
  rw [count_of_contents s hs.filled, hs.eq]

theorem keeps_pop {s : calc__stack α} {l : List (calc__token α)} {t : calc__token α}
    (hs : Keeps s (l ++ [t])) :
    ∃ s1, calc__stack_pop s = (0, s1, some t) ∧ Keeps s1 l := by
  obtain ⟨h1, h2, h3⟩ := pop_snoc s l t hs.eq hs.filled
  exact ⟨_, h1, h3, h2⟩

theorem keeps_top {s : calc__stack α} {l : List (calc__token α)} {t : calc__token α}
    (hs : Keeps s (l ++ [t])) : topSymbol s = some t.symbol :=
  topSymbol_snoc s l t hs.eq hs.filled

theorem drain_preceding_opers_loop_sound (oom : List Nat) (symbol : calc__symbol)
    (ops : List (calc__token α)) :
    ∀ (fuel : Nat) (h : calc__heap) (input opers : calc__stack α) (out : List (calc__token α))
      (h1 : calc__heap) (input1 opers1 : calc__stack α),
      Keeps input out → Keeps opers ops.reverse →
      calc__drain_preceding_opers_loop oom symbol fuel h input opers
        = some (0, h1, input1, opers1) →
      Keeps input1 (drainPrec symbol out ops).1 ∧
        Keeps opers1 (drainPrec symbol out ops).2.reverse := by
  induction ops with
  | nil =>
    intro fuel h input opers out h1 input1 opers1 hin hop hrun
    have hc : opers.count = 0 := by simpa using keeps_count hop
    have : calc__drain_preceding_opers_loop oom symbol fuel h input opers
        = some (0, h, input, opers) := by
      cases fuel <;>
        simp [calc__drain_preceding_opers_loop, calc__drain_preceding_opers_cond, hc]
    rw [this] at hrun
    simp only [Option.some.injEq, Prod.mk.injEq, true_and] at hrun
    obtain ⟨_, rfl, rfl⟩ := hrun
    exact ⟨by simpa [drainPrec] using hin, by simpa [drainPrec] using hop⟩
  | cons t ops ih =>
    intro fuel h input opers out h1 input1 opers1 hin hop hrun
    have hop1 : Keeps opers (ops.reverse ++ [t]) := by simpa using hop
    have hc : opers.count = ops.length + 1 := by simpa using keeps_count hop1
    have htop := keeps_top hop1
    by_cases hp : calc__has_preceding_order t.symbol symbol = true
    · cases fuel with
      | zero =>
        simp [calc__drain_preceding_opers_loop, calc__drain_preceding_opers_cond, hc, htop, hp]
          at hrun
      | succ fuel =>
        obtain ⟨opers2, hpop, hop2⟩ := keeps_pop hop1
        by_cases hps : (calc__stack_push oom h input t).1 = 0
        · have hrec : calc__drain_preceding_opers_loop oom symbol fuel
              (calc__stack_push oom h input t).2.1 (calc__stack_push oom h input t).2.2 opers2
              = some (0, h1, input1, opers1) := by
            simpa [calc__drain_preceding_opers_loop, calc__drain_preceding_opers_cond,
              hc, htop, hp, hpop, hps] using hrun
          have := ih fuel _ _ opers2 (out ++ [t]) h1 input1 opers1
            (keeps_push hin oom h t hps) hop2 hrec
          simpa [drainPrec, hp] using this
        · simp [calc__drain_preceding_opers_loop, calc__drain_preceding_opers_cond,
            hc, htop, hp, hpop, hps] at hrun
    · have : calc__drain_preceding_opers_loop oom symbol fuel h input opers
          = some (0, h, input, opers) := by
        cases fuel <;>
          simp [calc__drain_preceding_opers_loop, calc__drain_preceding_opers_cond, hc,
            htop, hp]
      rw [this] at hrun
      simp only [Option.some.injEq, Prod.mk.injEq, true_and] at hrun
      obtain ⟨_, rfl, rfl⟩ := hrun
      exact ⟨by simpa [drainPrec, hp] using hin, by simpa [drainPrec, hp] using hop⟩

theorem drain_paren_loop_sound (oom : List Nat) (ops : List (calc__token α)) :
    ∀ (fuel : Nat) (h : calc__heap) (input opers : calc__stack α) (out : List (calc__token α))
      (h1 : calc__heap) (input1 opers1 : calc__stack α),
      Keeps input out → Keeps opers ops.reverse →
      calc__drain_paren_loop oom fuel h input opers = some (0, h1, input1, opers1) →
      ∃ r, drainParen out ops = some r ∧ Keeps input1 r.1 ∧ Keeps opers1 r.2.reverse := by
  induction ops with
  | nil =>
    intro fuel h input opers out h1 input1 opers1 hin hop hrun
    have hc : opers.count = 0 := by simpa using keeps_count hop
    cases fuel <;> simp [calc__drain_paren_loop, hc] at hrun
  | cons t ops ih =>
    intro fuel h input opers out h1 input1 opers1 hin hop hrun
    have hop1 : Keeps opers (ops.reverse ++ [t]) := by simpa using hop
    have hc : opers.count = ops.length + 1 := by simpa using keeps_count hop1
    cases fuel with
    | zero => simp [calc__drain_paren_loop, hc] at hrun
    | succ fuel =>
      obtain ⟨opers2, hpop, hop2⟩ := keeps_pop hop1
      by_cases hp : t.symbol = CALC__OPAREN
      · simp only [calc__drain_paren_loop, hc, hpop, hp] at hrun
        simp at hrun
        obtain ⟨_, rfl, rfl⟩ := hrun
        exact ⟨(out, ops), by simp [drainParen, hp], hin, hop2⟩
      · by_cases hps : (calc__stack_push oom h input t).1 = 0
        · have hrec : calc__drain_paren_loop oom fuel
              (calc__stack_push oom h input t).2.1 (calc__stack_push oom h input t).2.2 opers2
              = some (0, h1, input1, opers1) := by
            simpa [calc__drain_paren_loop, hc, hpop, hp, hps] using hrun
          obtain ⟨r, hr, hk1, hk2⟩ :=
            ih fuel _ _ opers2 (out ++ [t]) h1 input1 opers1 (keeps_push hin oom h t hps) hop2
              hrec
          exact ⟨r, by simpa [drainParen, hp] using hr, hk1, hk2⟩
        · simp [calc__drain_paren_loop, hc, hpop, hp, hps] at hrun

theorem parse_flush_sound (oom : List Nat) (ops : List (calc__token α)) :
    ∀ (fuel : Nat) (h : calc__heap) (input opers : calc__stack α) (out : List (calc__token α))
      (h1 : calc__heap) (input1 opers1 : calc__stack α),
      Keeps input out → Keeps opers ops.reverse →
      calc__parse_flush oom fuel h input opers = some (0, h1, input1, opers1) →
      Keeps input1 (out ++ ops) := by
  induction ops with
  | nil =>
    intro fuel h input opers out h1 input1 opers1 hin hop hrun
    have hc : opers.count = 0 := by simpa using keeps_count hop
    have : calc__parse_flush oom fuel h input opers = some (0, h, input, opers) := by
      cases fuel <;> simp [calc__parse_flush, hc]
    rw [this] at hrun
    simp only [Option.some.injEq, Prod.mk.injEq, true_and] at hrun
    obtain ⟨_, rfl, _⟩ := hrun
    simpa using hin
  | cons t ops ih =>
    intro fuel h input opers out h1 input1 opers1 hin hop hrun
    have hop1 : Keeps opers (ops.reverse ++ [t]) := by simpa using hop
    have hc : opers.count = ops.length + 1 := by simpa using keeps_count hop1
    cases fuel with
    | zero => simp [calc__parse_flush, hc] at hrun
    | succ fuel =>
      obtain ⟨opers2, hpop, hop2⟩ := keeps_pop hop1
      by_cases hps : (calc__stack_push oom h input t).1 = 0
      · have hrec : calc__parse_flush oom fuel
            (calc__stack_push oom h input t).2.1 (calc__stack_push oom h input t).2.2 opers2
            = some (0, h1, input1, opers1) := by
          simpa [calc__parse_flush, hc, hpop, hps] using hrun
        have := ih fuel _ _ opers2 (out ++ [t]) h1 input1 opers1
          (keeps_push hin oom h t hps) hop2 hrec
        simpa using this
      · simp [calc__parse_flush, hc, hpop, hps] at hrun

theorem parse_oper_sound (env : calc__env α) (oom : List Nat) (symbol : calc__symbol)
    (h : calc__heap) (input opers : calc__stack α) (out ops : List (calc__token α))
    (h1 : calc__heap) (input1 opers1 : calc__stack α)
    (hin : Keeps input out) (hop : Keeps opers ops.reverse)
    (hrun : calc__parse_oper env oom symbol h input opers = some (0, h1, input1, opers1)) :
    ∃ r, stepOper env symbol out ops = some r ∧
      Keeps input1 r.1 ∧ Keeps opers1 r.2.reverse := by
  unfold calc__parse_oper at hrun
  unfold stepOper
  by_cases hs : symbol = CALC__CPAREN
  · simp only [hs, if_true] at hrun ⊢
    cases hd : calc__drain_paren oom h input opers with
    | none => rw [hd] at hrun; simp at hrun
    | some r =>
      obtain ⟨st, h2, input2, opers2⟩ := r
      rw [hd] at hrun
      by_cases hst : st = 0
      · subst hst
        simp at hrun
        obtain ⟨rfl, rfl, rfl⟩ := hrun
        exact drain_paren_loop_sound oom ops _ h input opers out _ _ _ hin hop hd
      · simp [hst] at hrun
  · simp only [hs, if_false] at hrun ⊢
    cases hd : calc__drain_preceding_opers oom symbol h input opers with
    | none => rw [hd] at hrun; simp at hrun
    | some r =>
      obtain ⟨st, h2, input2, opers2⟩ := r
      rw [hd] at hrun
      by_cases hst : st = 0
      · subst hst
        have hk : Keeps input2 (drainPrec symbol out ops).1 ∧
            Keeps opers2 (drainPrec symbol out ops).2.reverse := by
          unfold calc__drain_preceding_opers at hd
          by_cases hc : opers.count = 0
          · simp only [hc, if_true, Option.some.injEq, Prod.mk.injEq, true_and] at hd
            obtain ⟨_, rfl, rfl⟩ := hd
            have hnil : ops = [] := by
              have := keeps_count hop
              rw [hc] at this
              simpa using this.symm
            subst hnil
            exact ⟨by simpa [drainPrec] using hin, by simpa [drainPrec] using hop⟩
          · simp only [hc, if_false] at hd
            exact drain_preceding_opers_loop_sound oom symbol ops _ h input opers out _ _ _
              hin hop hd
        by_cases hps :
            (calc__stack_push oom h2 opers2 { symbol := symbol, value := env.zero }).1 = 0
        · simp [hps] at hrun
          obtain ⟨_, rfl, rfl⟩ := hrun
          refine ⟨_, rfl, hk.1, ?_⟩
          simpa using keeps_push hk.2 oom h2 { symbol := symbol, value := env.zero } hps
        · simp [hps] at hrun
      · simp [hst] at hrun

theorem parse_scan_sound (env : calc__env α) (oom : List Nat) :
    ∀ (fuel : Nat) (s : List Char) (h : calc__heap) (input opers : calc__stack α)
      (out ops : List (calc__token α)) (h1 : calc__heap) (input1 opers1 : calc__stack α),
      Keeps input out → Keeps opers ops.reverse →
      calc__parse_scan env oom fuel s h input opers
        = some (calc__scan_exit.finished, h1, input1, opers1) →
      ∃ r, scanLexemes env (lexFuel env fuel s) (out, ops) = some r ∧
        Keeps input1 r.1 ∧ Keeps opers1 r.2.reverse := by
  intro fuel
  induction fuel with
  | zero =>
    intro s h input opers out ops h1 input1 opers1 hin hop hrun
    cases s with
    | nil =>
      simp only [calc__parse_scan, Option.some.injEq, Prod.mk.injEq, true_and] at hrun
      obtain ⟨_, rfl, rfl⟩ := hrun
      exact ⟨(out, ops), by simp [lexFuel, scanLexemes], hin, hop⟩
    | cons c cs => simp [calc__parse_scan] at hrun
  | succ fuel ih =>
    intro s h input opers out ops h1 input1 opers1 hin hop hrun
    cases s with
    | nil =>
      simp only [calc__parse_scan, Option.some.injEq, Prod.mk.injEq, true_and] at hrun
      obtain ⟨_, rfl, rfl⟩ := hrun
      exact ⟨(out, ops), by simp [lexFuel, scanLexemes], hin, hop⟩
    | cons c cs =>
      by_cases hw : calc__is_whitespace c = true
      · have hrec : calc__parse_scan env oom fuel cs h input opers
            = some (calc__scan_exit.finished, h1, input1, opers1) := by
          simpa [calc__parse_scan, hw] using hrun
        obtain ⟨r, hr, hk⟩ := ih cs h input opers out ops h1 input1 opers1 hin hop hrec
        exact ⟨r, by simpa [lexFuel, hw] using hr, hk⟩
      · by_cases hd : calc__is_digit c = true
        · by_cases hps : (calc__stack_push oom h input
              { symbol := CALC__NUMBER, value := (env.strtod (c :: cs)).1 }).1 = 0
          · have hrec : calc__parse_scan env oom fuel
                ((c :: cs).drop (env.strtod (c :: cs)).2)
                (calc__stack_push oom h input
                  { symbol := CALC__NUMBER, value := (env.strtod (c :: cs)).1 }).2.1
                (calc__stack_push oom h input
                  { symbol := CALC__NUMBER, value := (env.strtod (c :: cs)).1 }).2.2 opers
                = some (calc__scan_exit.finished, h1, input1, opers1) := by
              simpa [calc__parse_scan, hw, hd, calc__parse_number, hps] using hrun
            obtain ⟨r, hr, hk⟩ := ih _ _ _ opers
              (out ++ [{ symbol := CALC__NUMBER, value := (env.strtod (c :: cs)).1 }]) ops
              h1 input1 opers1 (keeps_push hin oom h _ hps) hop hrec
            exact ⟨r, by simpa [lexFuel, hw, hd, scanLexemes, stepLexeme] using hr, hk⟩
          · simp [calc__parse_scan, hw, hd, calc__parse_number, hps] at hrun
        · by_cases ho : calc__is_oper c = true
          · cases hpo : calc__parse_oper env oom c.toNat h input opers with
            | none => simp [calc__parse_scan, hw, hd, ho, hpo] at hrun
            | some q =>
              obtain ⟨st, h2, input2, opers2⟩ := q
              by_cases hst : st = 0
              · subst hst
                have hrec : calc__parse_scan env oom fuel cs h2 input2 opers2
                    = some (calc__scan_exit.finished, h1, input1, opers1) := by
                  simpa [calc__parse_scan, hw, hd, ho, hpo] using hrun
                obtain ⟨r1, hstep, hk1, hk2⟩ :=
                  parse_oper_sound env oom c.toNat h input opers out ops h2 input2 opers2
                    hin hop hpo
                obtain ⟨r, hr, hk⟩ := ih cs h2 input2 opers2 r1.1 r1.2 h1 input1 opers1 hk1 hk2
                  hrec
                exact ⟨r, by simpa [lexFuel, hw, hd, ho, scanLexemes, stepLexeme, hstep] using hr,
                  hk⟩
              · simp [calc__parse_scan, hw, hd, ho, hpo, hst] at hrun
          · simp [calc__parse_scan, hw, hd, ho] at hrun

theorem parse_finish (r : Option (Int × calc__heap × calc__stack α × calc__stack α))
    (h1 : calc__heap) (input1 : calc__stack α)
    (hrun : (match r with
      | none => none
      | some (0, h3, input3, opers3) => some (0, calc__destroy_stack h3 opers3, input3)
      | some (_, h3, input3, opers3) => some (-1, calc__destroy_stack h3 opers3, input3))
      = some ((0 : Int), h1, input1)) :
    ∃ h3 opers3, r = some (0, h3, input1, opers3) := by
  rcases r with _ | ⟨st, h3, input3, opers3⟩
  · simp at hrun
  · by_cases hst : st = 0
    · subst hst
      simp only [Option.some.injEq, Prod.mk.injEq, true_and] at hrun
      exact ⟨h3, opers3, by rw [hrun.2]⟩
    · split at hrun
      · simp at hrun
      · rename_i heq
        simp only [Option.some.injEq, Prod.mk.injEq] at heq
        exact absurd heq.1 hst
      · simp at hrun

theorem parse_sound (env : calc__env α) (oom : List Nat) (h : calc__heap) (s : List Char)
    (input : calc__stack α) (out : List (calc__token α)) (h1 : calc__heap)
    (input1 : calc__stack α) (hin : Keeps input out)
    (hrun : calc__parse env oom h s input = some (0, h1, input1)) :
    ∃ r, scanLexemes env (lexemes env s) (out, []) = some r ∧ Keeps input1 (r.1 ++ r.2) := by
  unfold calc__parse at hrun
  by_cases hm : h.requests ∈ oom
  · simp [calc__create_stack, malloc, calc__token_size, hm] at hrun
  · have hcr : calc__create_stack oom h (uninitialized α) =
        (0, { h with requests := h.requests + 1, live := h.requests :: h.live },
          { capacity := 10, count := 0, tokens := some h.requests, cells := [] }) := by
      simp [calc__create_stack, malloc, calc__token_size, hm]
    rw [hcr] at hrun
    simp only at hrun
    have hop : Keeps ({ capacity := 10, count := 0, tokens := some h.requests, cells := [] }
        : calc__stack α) ([] : List (calc__token α)).reverse :=
      ⟨by simp [Filled], by simp [contents]⟩
    cases hsc : calc__parse_scan env oom (s.length + 1) s
        { h with requests := h.requests + 1, live := h.requests :: h.live } input
        { capacity := 10, count := 0, tokens := some h.requests, cells := [] } with
    | none => rw [hsc] at hrun; simp at hrun
    | some q =>
      obtain ⟨ex, h2, input2, opers2⟩ := q
      rw [hsc] at hrun
      cases ex with
      | invalid => simp at hrun
      | fault => simp at hrun
      | finished =>
        simp only at hrun
        obtain ⟨r, hr, hk1, hk2⟩ :=
          parse_scan_sound env oom _ s _ input _ out [] h2 input2 opers2 hin hop hsc
        obtain ⟨h3, opers3, hfl⟩ := parse_finish _ h1 input1 hrun
        exact ⟨r, hr, parse_flush_sound oom r.2 _ h2 input2 opers2 r.1 h3 input1 opers3 hk1 hk2
          hfl⟩

theorem valueOf_none_of_open (env : calc__env α) (toks : List (calc__token α))
    (tok : calc__token α) (hmem : tok ∈ toks) (hopen : tok.isOpen = true) :
    valueOf env toks = none := by
  unfold valueOf
  cases hev : evalPostfix env toks [] with
  | none => rfl
  | some st =>
    obtain ⟨hall, _⟩ := eval_counts env toks [] st hev
    simp only [calc__token.isOpen, decide_eq_true_eq] at hopen
    rcases hall tok hmem with hn | ho
    · simp [calc__token.isNumber, hopen, CALC__OPAREN, CALC__NUMBER] at hn
    · simp [calc__token.isOperator, hopen, CALC__OPAREN, CALC__SUM, CALC__SUBTRACT,
        CALC__MULTIPLY, CALC__DIVIDE] at ho

/-- What a successful run of `calc__parse` on an empty output stack leaves. -/
theorem parse_success (env : calc__env α) (h : calc__heap) (s : List Char)
    (input : calc__stack α) (hin : input.count = 0) :
    ∃ st h1 input1, calc__parse env [] h s input = some (st, h1, input1) ∧
      (st = 0 → ∃ out ops, scanLexemes env (lexemes env s) ([], []) = some (out, ops) ∧
        Keeps input1 (out ++ ops) ∧ StepCounts (lexemes env s) [] [] out ops) := by
  obtain ⟨⟨st, h1, input1⟩, hrun, _⟩ := parse_total env [] h s input
  refine ⟨st, h1, input1, hrun, ?_⟩
  intro h0
  subst h0
  obtain ⟨⟨out, ops⟩, hscan, hk⟩ :=
    parse_sound env [] h s input [] h1 input1 (keeps_empty input hin) hrun
  exact ⟨out, ops, hscan, hk,
    scan_counts env _ (lexemes_proper env s) [] [] out ops hscan⟩

/-- C13 (as amended): a missing closing parenthesis is rejected.  For every
expression whose token sequence holds more `(` than `)`, `calc_solve` returns
the non-zero status -1; and whenever `calc__parse` succeeds on it, a leftover
`(` is in the postfix output and `calc__evaluate` fails on that output. -/
theorem calc_solve_missing_close (env : calc__env α) (h : calc__heap) (s : List Char)
    (old : α) (input : calc__stack α) (hin : input.count = 0)
    (hopen : (lexemes env s).countP Lexeme.isClose < (lexemes env s).countP Lexeme.isOpen) :
    (∃ h1, calc_solve env [] h (some s) (some old) =
      some { status := -1, heap := h1, result := some old }) ∧
    (∃ st h1 input1, calc__parse env [] h s input = some (st, h1, input1) ∧
      (st = 0 →
        (∃ tok ∈ contents input1, tok.symbol = CALC__OPAREN) ∧
        ∀ h2, ∃ h3, calc__evaluate env [] h2 input1 = (-1, h3, none))) := by
  constructor
  · apply solve_fail
    cases hv : solveValue env s with
    | none => rfl
    | some v =>
      have := (solveValue_counts env s v hv).2
      omega
  · obtain ⟨st, h1, input1, hrun, hok⟩ := parse_success env h s input hin
    refine ⟨st, h1, input1, hrun, ?_⟩
    intro h0
    obtain ⟨out, ops, _, hh, hc⟩ := hok h0
    have hops := hc.openOps
    simp only [List.countP_nil] at hops
    have hpos : 0 < ops.countP calc__token.isOpen := by omega
    obtain ⟨tok, hmem, htok⟩ := List.countP_pos_iff.mp hpos
    have hmem2 : tok ∈ out ++ ops := List.mem_append_right _ hmem
    refine ⟨⟨tok, by rw [hh.eq]; exact hmem2, by simpa [calc__token.isOpen] using htok⟩, ?_⟩
    intro h2
    obtain ⟨h3, hev⟩ := evaluate_refines env h2 input1 (out ++ ops) hh
    rw [valueOf_none_of_open env _ tok hmem2 htok] at hev
    exact ⟨h3, by simpa using hev⟩

/-- Witness of C13 (as amended): `(1+2`, the parser started on the stack that
`calc__create_stack` builds in the empty heap. -/
theorem calc_solve_missing_close_witness :
    (∃ h1, calc_solve ratEnv [] { requests := 1, live := [0], freed := [] }
        (some "(1+2".toList) (some 7) =
      some { status := -1, heap := h1, result := some 7 }) ∧
    (∃ st h1 input1,
      calc__parse ratEnv [] { requests := 1, live := [0], freed := [] } "(1+2".toList
          { capacity := 10, count := 0, tokens := some 0, cells := [] }
        = some (st, h1, input1) ∧
      (st = 0 →
        (∃ tok ∈ contents input1, tok.symbol = CALC__OPAREN) ∧
        ∀ h2, ∃ h3, calc__evaluate ratEnv [] h2 input1 = (-1, h3, none))) :=
  calc_solve_missing_close ratEnv { requests := 1, live := [0], freed := [] } "(1+2".toList 7
    { capacity := 10, count := 0, tokens := some 0, cells := [] } rfl (by decide)

/-- C13 as stated fails: `)((` holds more `(` than `)`, and `calc__parse` does
not succeed on it. -/
theorem missing_close_parse_fails :
    (lexemes ratEnv ")((".toList).countP Lexeme.isClose <
      (lexemes ratEnv ")((".toList).countP Lexeme.isOpen ∧
    (calc__parse ratEnv [] { requests := 1, live := [0], freed := [] } ")((".toList
        { capacity := 10, count := 0, tokens := some 0, cells := [] }).map (fun r => r.1)
      = some (-1) := by
  decide


/-- C16: for every expression tree `t` over numbers and `+ - * /` whose
evaluation never divides by zero, `calc__evaluate` on the post-order token
sequence of `t` returns 0 and writes the value of `t` (each operator applied as
`left op right`, `right` being the operand pushed more recently). -/
theorem calc__evaluate_postorder (env : calc__env α) (h : calc__heap) (t : Ast)
    (input : calc__stack α) (v : α) (hf : Filled input)
    (hc : contents input = t.postorder env) (hv : t.eval env = some v) :
    ∃ h1, calc__evaluate env [] h input = (0, h1, some v) := by
  obtain ⟨h1, hev⟩ := evaluate_refines env h input (t.postorder env) ⟨hf, hc⟩
  have hval : valueOf env (t.postorder env) = some v := by
    unfold valueOf
    have := evalPostfix_tree env t [] []
    rw [List.append_nil, hv] at this
    simp [this, evalPostfix]
  rw [hval] at hev
  exact ⟨h1, by simpa using hev⟩

/-- Witness of C16: the postfix of `5 - 2` gives 3 and that of `10 / 2` gives 5. -/
theorem calc__evaluate_postorder_witness :
    (∃ h1, calc__evaluate ratEnv [] emptyHeap
        { capacity := 10, count := 3, tokens := some 0,
          cells := (Ast.bin .sub (digitLit [] '5') [' '] (digitLit [' '] '2')).postorder ratEnv }
      = (0, h1, some 3)) ∧
    (∃ h1, calc__evaluate ratEnv [] emptyHeap
        { capacity := 10, count := 3, tokens := some 0,
          cells := (Ast.bin .div (.lit [] ['1', '0']) [' '] (digitLit [' '] '2')).postorder ratEnv }
      = (0, h1, some 5)) :=
  ⟨calc__evaluate_postorder ratEnv emptyHeap
      (.bin .sub (digitLit [] '5') [' '] (digitLit [' '] '2')) _ 3
      (by simp [Filled, Ast.postorder, digitLit]) rfl
      (by
        simp [digitLit, Ast.eval, BinOp.apply, ratEnv_digit_value, calc__is_digit]
        norm_num [ratEnv]),
    calc__evaluate_postorder ratEnv emptyHeap
      (.bin .div (.lit [] ['1', '0']) [' '] (digitLit [' '] '2')) _ 5
      (by simp [Filled, Ast.postorder, digitLit]) rfl
      (by
        have v10 : (ratEnv.strtod ['1', '0']).1 = 10 := by
          rw [ratEnv_value _ (by simp) (by decide)]
          simp [digitsValue]
        simp [digitLit, Ast.eval, BinOp.apply, ratEnv_digit_value, calc__is_digit, v10]
        norm_num [ratEnv])⟩

/-- C17 (as amended): the parser never emits `)`, and emits `(` only for
parentheses left unclosed.  For every input on which `calc__parse`, started on an
empty output stack, returns 0, every token of the output is a Number, one of
the operators `+ - * /` or `(`, none is `)`, and the number of `(` in the output
is the number of `(` of the expression minus its number of `)`. -/
theorem calc__parse_output_tokens (env : calc__env α) (h : calc__heap) (s : List Char)
    (input : calc__stack α) (hin : input.count = 0) :
    ∃ st h1 input1, calc__parse env [] h s input = some (st, h1, input1) ∧
      (st = 0 →
        (∀ tok ∈ contents input1,
          tok.isNumber = true ∨ tok.isOperator = true ∨ tok.isOpen = true) ∧
        (∀ tok ∈ contents input1, tok.symbol ≠ CALC__CPAREN) ∧
        (contents input1).countP calc__token.isOpen +
            (lexemes env s).countP Lexeme.isClose =
          (lexemes env s).countP Lexeme.isOpen) := by
  obtain ⟨st, h1, input1, hrun, hok⟩ := parse_success env h s input hin
  refine ⟨st, h1, input1, hrun, ?_⟩
  intro h0
  obtain ⟨out, ops, _, hh, hc⟩ := hok h0
  have hall : ∀ tok ∈ out ++ ops,
      tok.isNumber = true ∨ tok.isOperator = true ∨ tok.isOpen = true := by
    intro tok htok
    have := hc.allowed (by simp) tok htok
    simpa [calc__token.allowed, or_assoc] using this
  rw [hh.eq]
  refine ⟨hall, ?_, ?_⟩
  · intro tok htok hcl
    rcases hall tok htok with hn | ho | hp
    · simp [calc__token.isNumber, hcl, CALC__CPAREN, CALC__NUMBER] at hn
    · simp [calc__token.isOperator, hcl, CALC__CPAREN, CALC__SUM, CALC__SUBTRACT,
        CALC__MULTIPLY, CALC__DIVIDE] at ho
    · simp [calc__token.isOpen, hcl, CALC__CPAREN, CALC__OPAREN] at hp
  · have h1 := hc.openOut
    have h2 := hc.openOps
    simp only [List.countP_nil] at h1 h2
    simp only [List.countP_append, h1]
    omega

/-- Witness of C17 (as amended): the parser on `(1+2`, started on the stack
that `calc__create_stack` builds in the empty heap. -/
theorem calc__parse_output_tokens_witness :
    ∃ st h1 input1,
      calc__parse ratEnv [] { requests := 1, live := [0], freed := [] } "(1+2".toList
          { capacity := 10, count := 0, tokens := some 0, cells := [] }
        = some (st, h1, input1) ∧
      (st = 0 →
        (∀ tok ∈ contents input1,
          tok.isNumber = true ∨ tok.isOperator = true ∨ tok.isOpen = true) ∧
        (∀ tok ∈ contents input1, tok.symbol ≠ CALC__CPAREN) ∧
        (contents input1).countP calc__token.isOpen +
            (lexemes ratEnv "(1+2".toList).countP Lexeme.isClose =
          (lexemes ratEnv "(1+2".toList).countP Lexeme.isOpen) :=
  calc__parse_output_tokens ratEnv { requests := 1, live := [0], freed := [] } "(1+2".toList
    { capacity := 10, count := 0, tokens := some 0, cells := [] } rfl

/-- C17 as stated fails: `calc__parse` returns 0 on `(1+2` and its output holds
a `(` token. -/
theorem parse_emits_open_paren :
    (calc__parse ratEnv [] { requests := 1, live := [0], freed := [] } "(1+2".toList
        { capacity := 10, count := 0, tokens := some 0, cells := [] }).map
        (fun r => (r.1, (contents r.2.2).map (fun tok => tok.symbol)))
      = some (0, [CALC__NUMBER, CALC__NUMBER, CALC__SUM, CALC__OPAREN]) := by
  decide


theorem writeCell_get (cells : List (calc__token α)) (n : Nat) (t : calc__token α)
    (hn : n ≤ cells.length) :
    (writeCell cells n t).get? n = some t ∧
      ∀ i, i < n → (writeCell cells n t).get? i = cells.get? i := by
  unfold writeCell
  split
  · rename_i hlt
    refine ⟨by simp [List.get?_eq_getElem?, hlt], ?_⟩
    intro i hi
    simp [List.get?_eq_getElem?, List.getElem?_set, Nat.ne_of_gt hi]
  · have hlen : n = cells.length := by omega
    subst hlen
    refine ⟨by simp [List.get?_eq_getElem?], ?_⟩
    intro i hi
    simp [List.get?_eq_getElem?, List.getElem?_append_left hi]

/-- C18: stack LIFO round trip.  For every stack `s` whose elements below
`count` are written and every token `t`, when `calc__stack_push(s, t)` succeeds
an immediately following `calc__stack_pop` succeeds, returns a token with the
symbol and value of `t`, and leaves a stack with the count of `s` and the
tokens of `s` at the indices below it; and `calc__stack_pop` on a stack with
count 0 fails without changing it. -/
theorem calc__stack_push_pop (oom : List Nat) (h : calc__heap) (s : calc__stack α)
    (t : calc__token α) (hf : Filled s) (hpush : (calc__stack_push oom h s t).1 = 0) :
    (∃ s2, calc__stack_pop (calc__stack_push oom h s t).2.2 = (0, s2, some t) ∧
      s2.count = s.count ∧ ∀ i, i < s.count → s2.cells.get? i = s.cells.get? i) ∧
    (∀ s0 : calc__stack α, s0.count = 0 → calc__stack_pop s0 = (-1, s0, none)) := by
  obtain ⟨hcount, hcells⟩ := push_success oom h s t hpush
  obtain ⟨hget, hrest⟩ := writeCell_get s.cells s.count t hf
  constructor
  · refine ⟨{ (calc__stack_push oom h s t).2.2 with
        count := (calc__stack_push oom h s t).2.2.count - 1 }, ?_, ?_, ?_⟩
    · unfold calc__stack_pop
      simp only [hcount, Nat.add_sub_cancel, hcells, hget]
      simp
    · simp [hcount]
    · intro i hi
      simp only [hcells]
      exact hrest i hi
  · intro s0 h0
    simp [calc__stack_pop, h0]

/-- Witness of C18: pushing `+` on a stack that holds one number, then popping. -/
theorem calc__stack_push_pop_witness :
    (∃ s2, calc__stack_pop (calc__stack_push [] emptyHeap
        ({ capacity := 10, count := 1, tokens := some 0,
           cells := [{ symbol := CALC__NUMBER, value := 5 }] } : calc__stack ℚ)
        { symbol := CALC__SUM, value := 0 }).2.2 =
          (0, s2, some { symbol := CALC__SUM, value := 0 }) ∧
      s2.count = 1 ∧
      ∀ i, i < 1 → s2.cells.get? i =
        ([{ symbol := CALC__NUMBER, value := 5 }] : List (calc__token ℚ)).get? i) ∧
    (∀ s0 : calc__stack ℚ, s0.count = 0 → calc__stack_pop s0 = (-1, s0, none)) :=
  calc__stack_push_pop [] emptyHeap
    ({ capacity := 10, count := 1, tokens := some 0,
       cells := [{ symbol := CALC__NUMBER, value := 5 }] } : calc__stack ℚ)
    { symbol := CALC__SUM, value := 0 } (by simp [Filled]) (by simp [calc__stack_push])

/-- C8 fails on the code: the expression below has eleven numeric literals and
nine operators, two more literals than operators, and `calc_solve` returns 0 on
it (writing 46) when the allocation request number 4 fails.  That request is
the growth of the evaluator's operand stack at the eleventh number; the push of
line 237 is not checked, so the number is dropped and ten operands meet nine
operators. -/
theorem operand_count_violated :
    (calc_solve ratEnv [4] emptyHeap
        (some "1 2 3 4 5 6 7 8 9 1 2 + + + + + + + + +".toList) (some 0)).map
        (fun r => (r.status, r.result)) = some (0, some 46) ∧
    (lexemes ratEnv "1 2 3 4 5 6 7 8 9 1 2 + + + + + + + + +".toList).countP
        Lexeme.isNumber = 11 ∧
    (lexemes ratEnv "1 2 3 4 5 6 7 8 9 1 2 + + + + + + + + +".toList).countP
        Lexeme.isOperator = 9 := by
  decide!

/-- C19 fails on the code: with the allocation request number 4 (the growth of
the evaluator's operand stack at the eleventh number) failing, the push of
line 237 drops the number 2, evaluation continues, and `calc_solve` returns 0
with the sum of the other ten numbers; without the failure it returns -1. -/
theorem dropped_token_accepted :
    calc_solve ratEnv [4] emptyHeap
        (some "1 2 3 4 5 6 7 8 9 1 2 + + + + + + + + +".toList) (some 0)
      = some { status := 0, heap := { requests := 5, live := [], freed := [2, 3, 1] },
               result := some 46 } ∧
    (calc_solve ratEnv [] emptyHeap
        (some "1 2 3 4 5 6 7 8 9 1 2 + + + + + + + + +".toList) (some 0)).map
        (fun r => r.status) = some (-1) := by
  decide!

/-- C20 fails on the code: on `2 + x` the parser leaves through the `return -1`
of line 210, and its operator stack (block 1) is still live when `calc_solve`
returns; only the caller's stack (block 0) was passed to `free`. -/
theorem operator_stack_leaked :
    calc_solve ratEnv [] emptyHeap (some "2 + x".toList) (some 0)
      = some { status := -1, heap := { requests := 2, live := [1], freed := [0] },
               result := some 0 } := by
  decide!

end Claims

end Calc
